import Mathlib

/-!
# fmo-cpp: trajectories, image buffers, strips and the level pyramid

A shallow embedding of `src/fmo/explorer-trajectories.cpp`, `src/fmo/image.cpp`,
`src/fmo/explorer-v1/preprocess.cpp` and `src/include/fmo/stripgen.hpp`, and the properties of
these files that the specification states.

Conventions of the embedding:

* A `std::vector<T>` is a `List T`; the unchecked `operator[]` is `getAt`, which has no result
  (`none`) for an index outside the vector.
* Arithmetic on `int` is exact arithmetic on `Int`; every explicit `int16_t(...)` conversion of
  the source is `toInt16`, every `static_cast<size_t>` is `toSizeT`, and arithmetic on `size_t`
  is reduced modulo `2^64`.
* The header `explorer-impl.hpp` is not part of the sources at hand. The constants it declares
  (`Component::NO_TRAJECTORY`, `Component::NO_COMPONENT`, `MIN_STRIPS`) and the values a freshly
  constructed `Trajectory` starts with are parameters, collected in `ImplDecls`.
* A `float` score is represented by the integer whose square root it is (`Score`).
* The header `fmo/image.hpp` is not part of the sources at hand either; `Format`, `Dims` and
  the members of `Image` and `Region` are taken from their uses in `image.cpp` and in the tests.
  A byte is a `Nat`. The `Mat` arguments of `copy` and `convert` are `Image`s.
* A member function that can throw returns an `Outcome`: the object after the call and the
  exception that left the call, if any.
* The routines of OpenCV are external: `cv::cvtColor` is a parameter (`Cv`) that yields the
  pixel bytes written through the wrapped destination, and writing through a wrapped buffer
  keeps the length of the buffer (`overwrite`). `FMO_ASSERT(dstMat.data == dst.data(), ...)`
  checks just that and is left out.
* The routines that `preprocess.cpp` calls and whose code is not part of the sources at hand
  are parameters (`Routines`); `Image::swap` is modelled from the specification.
* The code of the strip generator is not part of the sources at hand; it is modelled from the
  specification and from the documentation in `stripgen.hpp`.
-/

namespace Fmo

/-! ## Definitions: machine integers and vectors -/

/-- Conversion `int16_t(v)` of an `int`: reduction modulo `2^16` into `[-32768, 32767]`. -/
def toInt16 (v : Int) : Int := (v + 32768) % 65536 - 32768

/-- The unchecked `operator[]` of `std::vector`, read access. An index outside the vector has
no defined result. -/
def getAt {α : Type} (v : List α) (i : Int) : Option α :=
  if 0 ≤ i then v[i.toNat]? else none

/-- Modelled from the spec: `fmo::abs` of `fmo/common.hpp`, a header that is not part of the
sources at hand; the absolute value of an `int` ("vertical displacement"). -/
def abs (v : Int) : Int := if v < 0 then -v else v

/-! ## Definitions: the data of `Explorer::Impl` used by the trajectory stage -/

/-- Modelled from the spec: the struct `Strip` of `explorer-impl.hpp`, a header that is not
part of the sources at hand, with the fields the sources read: centre in source coordinates
and half of its height. -/
structure Strip where
  x : Int
  y : Int
  halfHeight : Int
deriving DecidableEq, Repr

/-- Modelled from the spec: the struct `Component` of `explorer-impl.hpp`, with the fields the
sources read and write. `first` and `last` index `mStrips`, `next` indexes `mComponents`,
`trajectory` indexes `mTrajectories`. -/
structure Component where
  first : Int
  last : Int
  numStrips : Int
  approxHalfHeight : Int
  next : Int
  trajectory : Int
deriving DecidableEq, Repr

/-- A score `std::sqrt(float(radicand))`. The literal score `0` is `sqrt(float(0))`, and
`sqrt(float(r))` is zero only for `r = 0`. -/
structure Score where
  radicand : Int
deriving DecidableEq, Repr

/-- The score assigned by `traj.score = 0`. -/
def Score.zero : Score := ⟨0⟩

/-- Modelled from the spec: the struct `Trajectory` of `explorer-impl.hpp`, with the fields the
sources read and write: a chain of components. `first` and `last` index `mComponents`. -/
structure Trajectory where
  first : Int
  last : Int
  maxWidth : Int
  score : Score
deriving DecidableEq, Repr

/-- The declarations of `explorer-impl.hpp` that the trajectory stage reads. -/
structure ImplDecls where
  /-- The constant `Component::NO_TRAJECTORY`. -/
  NO_TRAJECTORY : Int
  /-- The constant `Component::NO_COMPONENT`. -/
  NO_COMPONENT : Int
  /-- The constant `MIN_STRIPS`. -/
  MIN_STRIPS : Int
  /-- Value of `last` in a freshly constructed trajectory. -/
  initLast : Int
  /-- Value of `maxWidth` in a freshly constructed trajectory. -/
  initMaxWidth : Int
  /-- Value of `score` in a freshly constructed trajectory. -/
  initScore : Score

/-- Modelled from the spec: the constructor of `Trajectory` in `explorer-impl.hpp`, called by
`mTrajectories.emplace_back(i)`: a trajectory whose first component is `i`, stored as
`int16_t` like the other indices; the other fields start from the values in `ImplDecls`. -/
def ImplDecls.newTrajectory (K : ImplDecls) (i : Int) : Trajectory :=
  { first := toInt16 i, last := K.initLast, maxWidth := K.initMaxWidth, score := K.initScore }

/-- Modelled from the spec: the members of `Explorer::Impl`, declared in `explorer-impl.hpp`,
that the trajectory stage reads and writes. -/
structure Explorer where
  mStrips : List Strip
  mComponents : List Component
  mTrajectories : List Trajectory
deriving DecidableEq, Repr

/-! ## Definitions: `findTrajectories` and `analyzeTrajectories` -/

/-- The inner loop `for (int j = i + 1; j < numComponents; j++)` of `findTrajectories`, run over
the candidates from index `j` on. The result is `some (some j)` when candidate `j` is linked,
`some none` when the loop ends without a link (by `break` or by exhausting the candidates), and
`none` when a strip index is outside `mStrips`. -/
def scanCandidates (K : ImplDecls) (strips : List Strip) (me : Component) (myLast : Strip)
    (maxWidth : Int) : List Component → Nat → Option (Option Nat)
  | [], _ => some none
  | candidate :: rest, j =>
    match getAt strips candidate.first with
    | none => none
    | some candFirst =>
      let dx := candFirst.x - myLast.x
      if dx > maxWidth then some none
      else if candidate.trajectory ≠ K.NO_TRAJECTORY then
        scanCandidates K strips me myLast maxWidth rest (j + 1)
      else
        let dy := Fmo.abs (candFirst.y - myLast.y)
        if dy > 2 * dx then scanCandidates K strips me myLast maxWidth rest (j + 1)
        else if me.approxHalfHeight > 2 * candidate.approxHalfHeight ∨
            candidate.approxHalfHeight > 2 * me.approxHalfHeight then
          scanCandidates K strips me myLast maxWidth rest (j + 1)
        else some (some j)

/-- The part of the body of the outer loop of `findTrajectories` that precedes the scan of the
candidates: open a trajectory for component `i` if it has none, and update the `maxWidth` of its
trajectory. The result is the state, component `i` (with `next` reset), its last strip and the
`maxWidth` the scan compares with. -/
def openTrajectory (K : ImplDecls) (s : Explorer) (i : Nat) :
    Option (Explorer × Component × Strip × Int) :=
  match s.mComponents[i]? with
  | none => none
  | some me0 =>
    let fresh := me0.trajectory = K.NO_TRAJECTORY
    let me1 : Component :=
      if fresh then { me0 with trajectory := toInt16 s.mTrajectories.length } else me0
    let trajs1 : List Trajectory :=
      if fresh then s.mTrajectories ++ [K.newTrajectory i] else s.mTrajectories
    match getAt trajs1 me1.trajectory, getAt s.mStrips me1.first, getAt s.mStrips me1.last with
    | some myTrajectory, some myFirst, some myLast =>
      let myWidth := myLast.x - myFirst.x
      let maxWidth := toInt16 (max myTrajectory.maxWidth myWidth)
      let trajs2 := trajs1.set me1.trajectory.toNat { myTrajectory with maxWidth := maxWidth }
      let me2 : Component := { me1 with next := K.NO_COMPONENT }
      some ({ s with mComponents := s.mComponents.set i me2, mTrajectories := trajs2 },
        me2, myLast, maxWidth)
    | _, _, _ => none

/-- One iteration of the outer loop of `findTrajectories`, for component `i`. -/
def findStep (K : ImplDecls) (s : Explorer) (i : Nat) : Option Explorer :=
  match openTrajectory K s i with
  | none => none
  | some (s1, me, myLast, maxWidth) =>
    match scanCandidates K s1.mStrips me myLast maxWidth (s1.mComponents.drop (i + 1)) (i + 1) with
    | none => none
    | some none => some s1
    | some (some j) =>
      match s1.mComponents[j]? with
      | none => none
      | some candidate =>
        let comps1 := s1.mComponents.set j { candidate with trajectory := me.trajectory }
        some { s1 with mComponents := comps1.set i { me with next := toInt16 j } }

/-- The outer loop `for (int i = 0; i < numComponents; i++)`, with `k` iterations left. -/
def findLoop (K : ImplDecls) : Nat → Nat → Explorer → Option Explorer
  | 0, _, s => some s
  | k + 1, i, s =>
    match findStep K s i with
    | none => none
    | some s1 => findLoop K k (i + 1) s1

/-- The member `Explorer::Impl::findTrajectories`. The result is `none` when the run reads outside a
vector. -/
def findTrajectories (K : ImplDecls) (s : Explorer) : Option Explorer :=
  findLoop K s.mComponents.length 0 { s with mTrajectories := [] }

/-- The loop `while (true)` of `analyzeTrajectories`, entered with the running strip count,
`lastIndex` and `lastComp`. The first argument bounds the number of iterations: a walk that
reads only valid indices and needs more iterations than there are components visits a component
twice, and then never ends. The result is `none` for such a walk and for a walk that reads
outside `mComponents`. -/
def walkChain (K : ImplDecls) (comps : List Component) :
    Nat → Int → Int → Component → Option (Int × Int × Component)
  | 0, _, _, _ => none
  | fuel + 1, numStrips, lastIndex, lastComp =>
    let numStrips1 := numStrips + lastComp.numStrips
    if lastComp.next = K.NO_COMPONENT then some (numStrips1, lastIndex, lastComp)
    else
      match getAt comps lastComp.next with
      | none => none
      | some c => walkChain K comps fuel numStrips1 lastComp.next c

/-- The body of the loop of `analyzeTrajectories` for one trajectory. -/
def analyzeTrajectory (K : ImplDecls) (strips : List Strip) (comps : List Component)
    (traj : Trajectory) : Option Trajectory :=
  match getAt comps traj.first with
  | none => none
  | some firstComp =>
    match walkChain K comps comps.length 0 traj.first firstComp with
    | none => none
    | some (numStrips0, lastIndex, lastComp) =>
      let numStrips := numStrips0 + lastComp.numStrips
      if numStrips < K.MIN_STRIPS then some { traj with score := Score.zero }
      else
        match getAt strips firstComp.first, getAt strips lastComp.last with
        | some firstStrip, some lastStrip =>
          let dx := lastStrip.x - firstStrip.x
          let dy := lastStrip.y - firstStrip.y
          some { traj with last := toInt16 lastIndex, score := ⟨dx * dx + dy * dy⟩ }
        | _, _ => none

/-- The strip count that `analyzeTrajectories` compares with `MIN_STRIPS` for a trajectory. -/
def countedStrips (K : ImplDecls) (comps : List Component) (traj : Trajectory) : Option Int :=
  match getAt comps traj.first with
  | none => none
  | some firstComp =>
    match walkChain K comps comps.length 0 traj.first firstComp with
    | none => none
    | some (numStrips0, _, lastComp) => some (numStrips0 + lastComp.numStrips)

/-! ## Definitions: the chain of a trajectory as the specification describes it, and
predicates used in the proofs -/

/-- The indices of the components of the chain that starts at `start`: `start`, its `next`, and
so on up to the component whose `next` is `NO_COMPONENT`, each component once. -/
def chainIndices (K : ImplDecls) (comps : List Component) : Nat → Int → List Int
  | 0, _ => []
  | fuel + 1, idx =>
    match getAt comps idx with
    | none => []
    | some c =>
      if c.next = K.NO_COMPONENT then [idx] else idx :: chainIndices K comps fuel c.next

/-- The total number of strips linked in the chain that starts at `start`: the sum of
`numStrips` over the components of the chain, each counted once. -/
def linkedStrips (K : ImplDecls) (comps : List Component) (start : Int) : Int :=
  (((chainIndices K comps comps.length start).filterMap (getAt comps)).map
    Component.numStrips).sum

/-- The state after the first `i` iterations of the outer loop of `findTrajectories`. -/
def findPrefix (K : ImplDecls) (s : Explorer) (i : Nat) : Option Explorer :=
  findLoop K i 0 { s with mTrajectories := [] }

/-- The conditions under which the scan links component `me` to a candidate. -/
structure LinkOk (K : ImplDecls) (strips : List Strip) (me : Component) (myLast : Strip)
    (maxWidth : Int) (c : Component) : Prop where
  candFirst : ∃ cf, getAt strips c.first = some cf ∧ cf.x - myLast.x ≤ maxWidth ∧
    Fmo.abs (cf.y - myLast.y) ≤ 2 * (cf.x - myLast.x)
  unclaimed : c.trajectory = K.NO_TRAJECTORY
  thickness : me.approxHalfHeight ≤ 2 * c.approxHalfHeight ∧
    c.approxHalfHeight ≤ 2 * me.approxHalfHeight

/-- What `openTrajectory` leaves behind, in terms of the state it started from. -/
structure Opened (K : ImplDecls) (s : Explorer) (i : Nat) (s1 : Explorer) (me : Component)
    (myLast : Strip) (mw : Int) : Prop where
  fields : ∃ me0, s.mComponents[i]? = some me0 ∧ me.first = me0.first ∧ me.last = me0.last ∧
    me.numStrips = me0.numStrips ∧ me.approxHalfHeight = me0.approxHalfHeight
  next : me.next = K.NO_COMPONENT
  strips : s1.mStrips = s.mStrips
  comps : s1.mComponents = s.mComponents.set i me
  first : ∃ myFirst, getAt s.mStrips me.first = some myFirst
  last : getAt s.mStrips me.last = some myLast
  traj : ∃ t, getAt s1.mTrajectories me.trajectory = some t ∧ t.maxWidth = mw
  firsts : ∀ t ∈ s1.mTrajectories,
    (∃ t0 ∈ s.mTrajectories, t.first = t0.first) ∨ t.first = toInt16 i

/-- The state after a link from component `i` (held in `me`) to candidate `j`. -/
def linked (s1 : Explorer) (i : Nat) (me : Component) (j : Nat) (c : Component) : Explorer :=
  let comps1 := s1.mComponents.set j { c with trajectory := me.trajectory }
  { s1 with mComponents := comps1.set i { me with next := toInt16 j } }

/-- Component `i` after its iteration: a link, if any, goes to a later component, and the
strips the component names exist. -/
def CompGood (K : ImplDecls) (strips : List Strip) (n i : Nat) (c : Component) : Prop :=
  (c.next = K.NO_COMPONENT ∨ ∃ j : Nat, i < j ∧ j < n ∧ c.next = (j : Int)) ∧
  (∃ a, getAt strips c.first = some a) ∧ (∃ b, getAt strips c.last = some b)

/-- The squared length of the displacement from strip `a` to strip `b`. -/
def sqDist (a b : Strip) : Int := (b.x - a.x) * (b.x - a.x) + (b.y - a.y) * (b.y - a.y)

/-- Component `c2` agrees with `c` on the fields that `findTrajectories` never writes. -/
def SameShape (c c2 : Component) : Prop :=
  c2.first = c.first ∧ c2.last = c.last ∧ c2.numStrips = c.numStrips ∧
    c2.approxHalfHeight = c.approxHalfHeight

/-! ## Definitions: example scenes -/

/-- Constants for the examples: both sentinels are `-1`, `MIN_STRIPS` is 4 and a fresh
trajectory starts with zeros. -/
def demoDecls : ImplDecls :=
  { NO_TRAJECTORY := -1, NO_COMPONENT := -1, MIN_STRIPS := 4, initLast := 0, initMaxWidth := 0,
    initScore := ⟨0⟩ }

/-- A scene of three components, sorted by the x coordinate of their first strip, which is
0, 5 and 40: the first spans x = 0 to 3, the second x = 5 to 10 (so it is 5 wide), the third is
the single strip at x = 40. -/
def demoScene : Explorer :=
  { mStrips := [⟨0, 10, 2⟩, ⟨1, 10, 2⟩, ⟨2, 10, 2⟩, ⟨3, 10, 2⟩, ⟨5, 10, 2⟩, ⟨6, 10, 2⟩,
      ⟨7, 10, 2⟩, ⟨8, 10, 2⟩, ⟨9, 10, 2⟩, ⟨10, 10, 2⟩, ⟨40, 10, 2⟩]
    mComponents := [⟨0, 3, 4, 2, -1, -1⟩, ⟨4, 9, 6, 2, -1, -1⟩, ⟨10, 10, 1, 2, -1, -1⟩]
    mTrajectories := [] }

/-- The scene `demoScene` after `findTrajectories`. -/
def demoSceneFound : Explorer :=
  { mStrips := [⟨0, 10, 2⟩, ⟨1, 10, 2⟩, ⟨2, 10, 2⟩, ⟨3, 10, 2⟩, ⟨5, 10, 2⟩, ⟨6, 10, 2⟩,
      ⟨7, 10, 2⟩, ⟨8, 10, 2⟩, ⟨9, 10, 2⟩, ⟨10, 10, 2⟩, ⟨40, 10, 2⟩]
    mComponents := [⟨0, 3, 4, 2, 1, 0⟩, ⟨4, 9, 6, 2, -1, 0⟩, ⟨10, 10, 1, 2, -1, 1⟩]
    mTrajectories := [⟨0, 0, 5, ⟨0⟩⟩, ⟨2, 0, 0, ⟨0⟩⟩] }

/-- A scene of one component made of three strips, at x = 0, 5 and 10. -/
def loneScene : Explorer :=
  { mStrips := [⟨0, 10, 2⟩, ⟨5, 10, 2⟩, ⟨10, 10, 2⟩]
    mComponents := [⟨0, 2, 3, 2, -1, -1⟩]
    mTrajectories := [] }

/-- The scene `loneScene` after `findTrajectories`. -/
def loneSceneFound : Explorer :=
  { mStrips := [⟨0, 10, 2⟩, ⟨5, 10, 2⟩, ⟨10, 10, 2⟩]
    mComponents := [⟨0, 2, 3, 2, -1, 0⟩]
    mTrajectories := [⟨0, 0, 10, ⟨0⟩⟩] }

/-! ## Definitions: image buffers (`src/fmo/image.cpp`) -/

/-- Modelled from the spec: the enumeration `fmo::Format` of `fmo/image.hpp`, a header that is
not part of the sources at hand: the pixel formats named in the sources (grayscale, colour,
planar chroma-subsampled video, and the unknown format of the tests). -/
inductive Format where
  | UNKNOWN
  | GRAY
  | BGR
  | YUV420SP
deriving DecidableEq, Repr

/-- Modelled from the spec: the structure `fmo::Dims` (width and height, both `int`). -/
structure Dims where
  width : Int
  height : Int
deriving DecidableEq, Repr

/-- Modelled from the spec: the structure `fmo::Pos` (a position offset). -/
structure Pos where
  x : Int
  y : Int
deriving DecidableEq, Repr

/-- The `std::runtime_error`s thrown in `image.cpp`, by message. -/
inductive What where
  /-- Message "getNumBytes: unsupported format". -/
  | getNumBytesUnsupported
  /-- Message "getCvSize: unsupported format". -/
  | getCvSizeUnsupported
  /-- Message "getCvType: unsupported format". -/
  | getCvTypeUnsupported
  /-- Message "a region must not grow in size". -/
  | regionMustNotGrow
  /-- Message "convert: failed to perform color conversion". -/
  | convertFailed
  /-- Message "reading image: unsupported format". -/
  | readingUnsupportedFormat
  /-- Message "failed to open image". -/
  | failedToOpenImage
  /-- Message "getImageSize: unsupported format". -/
  | getImageSizeUnsupported
  /-- Message "reading image: not continuous" of a failed `FMO_ASSERT`. -/
  | readingNotContinuous
  /-- Message "reading image: unexpected mat type" of a failed `FMO_ASSERT`. -/
  | readingUnexpectedMatType
  /-- Message "reading image: unexpected size" of a failed `FMO_ASSERT`. -/
  | readingUnexpectedSize
deriving DecidableEq, Repr

/-- How a call can fail: by throwing `std::runtime_error`, or by reading past the end of the
array behind a pointer, which has no defined behaviour. -/
inductive Fault where
  | runtime_error (what : What)
  | outOfBounds
deriving DecidableEq, Repr

/-- The object a member function was called on, after the call, and the exception that left
the call, if any. -/
structure Outcome (σ : Type) where
  state : σ
  raised : Option Fault
deriving DecidableEq, Repr

deriving instance DecidableEq for Except

/-- Conversion `static_cast<size_t>(v)` of an `int`. -/
def toSizeT (v : Int) : Nat := (v % 2 ^ 64).toNat

/-- Get the number of bytes of data that an image requires, given its format and dimensions. -/
def getNumBytes (format : Format) (dims : Dims) : Except Fault Nat :=
  let result := (toSizeT dims.width * toSizeT dims.height) % 2 ^ 64
  match format with
  | .BGR => .ok ((result * 3) % 2 ^ 64)
  | .GRAY => .ok result
  | .YUV420SP => .ok (((result * 3) % 2 ^ 64) / 2)
  | .UNKNOWN => .error (.runtime_error .getNumBytesUnsupported)

/-- The structure `cv::Size`. -/
structure CvSize where
  width : Int
  height : Int
deriving DecidableEq, Repr

/-- The `cv::Mat` element types in use. -/
inductive CvType where
  | CV_8UC1
  | CV_8UC3
deriving DecidableEq, Repr

/-- Convert the actual dimensions to the size that is used by OpenCV. -/
def getCvSize (format : Format) (dims : Dims) : Except Fault CvSize :=
  match format with
  | .BGR => .ok ⟨dims.width, dims.height⟩
  | .GRAY => .ok ⟨dims.width, dims.height⟩
  | .YUV420SP => .ok ⟨dims.width, Int.tdiv (dims.height * 3) 2⟩
  | .UNKNOWN => .error (.runtime_error .getCvSizeUnsupported)

/-- Get the Mat data type used by OpenCV that corresponds to the format. -/
def getCvType (format : Format) : Except Fault CvType :=
  match format with
  | .BGR => .ok .CV_8UC3
  | .GRAY => .ok .CV_8UC1
  | .YUV420SP => .ok .CV_8UC1
  | .UNKNOWN => .error (.runtime_error .getCvTypeUnsupported)

/-- A `cv::Mat` header that wraps a buffer: size, element type and the bytes behind `data`. -/
structure CvMat where
  size : CvSize
  type : CvType
  data : List Nat
deriving DecidableEq, Repr

/-- The colour conversion codes of OpenCV in use. -/
inductive ColorCode where
  | COLOR_BGR2GRAY
  | COLOR_GRAY2BGR
  | COLOR_YUV420sp2BGR
  | COLOR_YUV420sp2GRAY
deriving DecidableEq, Repr

/-- The external routines of OpenCV: `cvtColor src code` is the sequence of pixel bytes that
`cv::cvtColor(srcMat, dstMat, code)` writes. -/
structure Cv where
  cvtColor : CvMat → ColorCode → List Nat

/-- The call `std::vector<uint8_t>::resize(n)`: keeps the first `n` bytes and pads with zeros. -/
def resizeVec (v : List Nat) (n : Nat) : List Nat :=
  v.take n ++ List.replicate (n - v.length) 0

/-- Writing the bytes `out` to the start of the buffer `buf`; the buffer keeps its length. -/
def overwrite (buf out : List Nat) : List Nat :=
  out.take buf.length ++ buf.drop out.length

/-- Modelled from the spec: the class `fmo::Image` of `fmo/image.hpp`, with the members that
`image.cpp` uses: a format, dimensions and an owned buffer. -/
structure Image where
  mFormat : Format
  mDims : Dims
  mData : List Nat
deriving DecidableEq, Repr

/-- Modelled from the spec: the default constructor of `Image` in `fmo/image.hpp`, a header
that is not part of the sources at hand; an image that owns no pixel memory yet. -/
def Image.default : Image := { mFormat := .UNKNOWN, mDims := ⟨0, 0⟩, mData := [] }

/-- The member `Image::assign(format, dims, data)`. The argument `data` lists the bytes of the
array that the pointer `data` points into, from the pointer on. -/
def Image.assign (img : Image) (format : Format) (dims : Dims) (data : List Nat) :
    Outcome Image :=
  match getNumBytes format dims with
  | .error e => ⟨img, some e⟩
  | .ok bytes =>
    let img1 : Image :=
      { mData := resizeVec img.mData bytes, mDims := dims, mFormat := format }
    if bytes ≤ data.length then
      ⟨{ img1 with mData := overwrite img1.mData (data.take bytes) }, none⟩
    else ⟨img1, some .outOfBounds⟩

/-- The member `Image::resize(format, dims)`. -/
def Image.resize (img : Image) (format : Format) (dims : Dims) : Outcome Image :=
  match getNumBytes format dims with
  | .error e => ⟨img, some e⟩
  | .ok bytes =>
    ⟨{ mData := resizeVec img.mData bytes, mDims := dims, mFormat := format }, none⟩

/-- The member `Image::wrap()`. -/
def Image.wrap (img : Image) : Except Fault CvMat :=
  match getCvSize img.mFormat img.mDims with
  | .error e => .error e
  | .ok size =>
    match getCvType img.mFormat with
    | .error e => .error e
    | .ok type => .ok ⟨size, type, img.mData⟩

/-- Modelled from the spec: the class `fmo::Region` of `fmo/image.hpp`, with the members that
`image.cpp` uses: a view of pixel memory owned elsewhere; `mData` is the address of the first
viewed byte. -/
structure Region where
  mFormat : Format
  mDims : Dims
  mPos : Pos
  mData : Nat
  mRowStep : Nat
deriving DecidableEq, Repr

/-- The constructor `Region::Region(format, pos, dims, data, rowStep)`. -/
def Region.new (format : Format) (pos : Pos) (dims : Dims) (data : Nat) (rowStep : Nat) :
    Region :=
  { mFormat := format, mDims := dims, mPos := pos, mData := data, mRowStep := rowStep }

/-- The member `Region::resize(format, dims)`. -/
def Region.resize (r : Region) (format : Format) (dims : Dims) : Outcome Region :=
  if dims.width > r.mDims.width ∨ dims.height > r.mDims.height then
    ⟨r, some (.runtime_error .regionMustNotGrow)⟩
  else ⟨{ r with mFormat := format, mDims := dims }, none⟩

/-- A caller that issues the given `Region::resize` calls one after the other and carries on
after a call that throws. -/
def Region.resizeAll (r : Region) : List (Format × Dims) → Region
  | [] => r
  | (format, dims) :: rest => Region.resizeAll (r.resize format dims).state rest

/-- The number of bytes a `cv::Mat` header spans. -/
def CvMat.numBytes (m : CvMat) : Nat :=
  (m.size.width * m.size.height).toNat * (match m.type with | .CV_8UC1 => 1 | .CV_8UC3 => 3)

/-- The destination argument `dst` of `copy` and `convert`: the object that is also passed as
`src` (`&src == &dst`), or another image. -/
inductive Dst where
  | same
  | other (img : Image)
deriving DecidableEq, Repr

/-- The lines `srcMat = src.wrap(); dstMat = dst.wrap(); srcMat.copyTo(dstMat)` of `copy`;
`copyTo` writes the pixels that the source header spans. -/
def copyPixels (src dst : Image) : Outcome Image :=
  match src.wrap with
  | .error e => ⟨dst, some e⟩
  | .ok srcMat =>
    match dst.wrap with
    | .error e => ⟨dst, some e⟩
    | .ok _ =>
      ⟨{ dst with mData := overwrite dst.mData (srcMat.data.take srcMat.numBytes) }, none⟩

/-- The function `copy(src, dst)`. The outcome holds the destination after the call. When the
destination is the source itself, the source that is wrapped is the resized object. -/
def copy (src : Image) (dst : Dst) : Outcome Image :=
  match dst with
  | .other d =>
    let r := d.resize src.mFormat src.mDims
    match r.raised with
    | some e => ⟨r.state, some e⟩
    | none => copyPixels src r.state
  | .same =>
    let r := src.resize src.mFormat src.mDims
    match r.raised with
    | some e => ⟨r.state, some e⟩
    | none => copyPixels r.state r.state

/-- The conversion code that `convert` picks; `none` is `ERROR`. -/
def conversionCode (srcFormat dstFormat : Format) : Option ColorCode :=
  if srcFormat = .BGR then
    if dstFormat = .GRAY then some .COLOR_BGR2GRAY else none
  else if srcFormat = .GRAY then
    if dstFormat = .BGR then some .COLOR_GRAY2BGR else none
  else if srcFormat = .YUV420SP then
    if dstFormat = .BGR then some .COLOR_YUV420sp2BGR
    else if dstFormat = .GRAY then some .COLOR_YUV420sp2GRAY
    else none
  else none

/-- The part of `convert(src, dst, format)` that follows the checks for an equal format and
for the same instance: resize the destination, pick the conversion code, convert. -/
def convertInto (cv : Cv) (src dst : Image) (dstFormat : Format) : Outcome Image :=
  let r := dst.resize dstFormat src.mDims
  match r.raised with
  | some e => ⟨r.state, some e⟩
  | none =>
    match src.wrap with
    | .error e => ⟨r.state, some e⟩
    | .ok srcMat =>
      match r.state.wrap with
      | .error e => ⟨r.state, some e⟩
      | .ok _ =>
        match conversionCode src.mFormat dstFormat with
        | none => ⟨r.state, some (.runtime_error .convertFailed)⟩
        | some code =>
          ⟨{ r.state with mData := overwrite r.state.mData (cv.cvtColor srcMat code) }, none⟩

/-- The function `convert(src, dst, format)`. The outcome holds the destination after the
call. With the same instance as source and destination and a pair of formats other than
YUV420SP to GRAY, the source calls `convert(src, temp, dstFormat)` on a fresh `Image temp`; that
call has distinct instances and unequal formats, so it is `convertInto`. -/
def convert (cv : Cv) (src : Image) (dst : Dst) (format : Format) : Outcome Image :=
  let srcFormat := src.mFormat
  let dstFormat := format
  if srcFormat = dstFormat then copy src dst
  else
    match dst with
    | .same =>
      if srcFormat = .YUV420SP ∧ dstFormat = .GRAY then src.resize .GRAY src.mDims
      else
        let r := convertInto cv src Image.default dstFormat
        match r.raised with
        | some e => ⟨src, some e⟩
        | none => ⟨r.state, none⟩
    | .other d => convertInto cv src d dstFormat

/-! ## Definitions: example images, from `src/tests/test-image.cpp` -/

/-- The dimensions `IM_4X2_DIMS`. -/
def IM_4X2_DIMS : Dims := ⟨4, 2⟩

/-- The bytes `IM_4x2_BGR`. -/
def IM_4x2_BGR : List Nat :=
  [0xFF, 0x00, 0x00, 0x00, 0xFF, 0x00, 0x00, 0x00, 0xFF, 0xFF, 0xFF, 0x00,
   0xFF, 0x00, 0xFF, 0x00, 0xFF, 0xFF, 0x00, 0x00, 0x00, 0xFF, 0xFF, 0xFF]

/-- The bytes `IM_4x2_GRAY`. -/
def IM_4x2_GRAY : List Nat := [0x1D, 0x95, 0x4C, 0xB2, 0x69, 0xE1, 0x00, 0xFF]

/-- The bytes `IM_4x2_YUV420SP`. -/
def IM_4x2_YUV420SP : List Nat :=
  [0x1D, 0x95, 0x4C, 0xB2, 0x69, 0xE1, 0x00, 0xFF, 0x80, 0x80, 0x80, 0x80]

/-- A stand-in for OpenCV in the examples: `cv::cvtColor` writes nothing. -/
def demoCv : Cv := { cvtColor := fun _ _ => [] }

/-! ## Definitions: strips (`src/include/fmo/stripgen.hpp`) -/

/-- Modelled from the spec: the structure `fmo::Pos16` of `fmo/common.hpp`, a header that is not
part of the sources at hand: a position with `int16_t` coordinates. -/
structure Pos16 where
  x : Int
  y : Int
deriving DecidableEq, Repr

/-- Modelled from the spec: the structure `fmo::Dims16` of `fmo/common.hpp`: dimensions with
`int16_t` members. -/
structure Dims16 where
  width : Int
  height : Int
deriving DecidableEq, Repr

/-- Strip is a non-empty image region with a width of 1 pixel in the processing resolution:
the coordinates of its centre in the source image and its dimensions in the source image,
divided by 2. -/
structure StripRepr where
  pos : Pos16
  halfDims : Dims16
deriving DecidableEq, Repr

/-- Finds out if two strips would overlap if they were in the same column. The `int16_t`
members are promoted to `int`, so the arithmetic is exact. -/
def StripRepr.overlapY (l r : StripRepr) : Bool :=
  let dy := if r.pos.y > l.pos.y then r.pos.y - l.pos.y else l.pos.y - r.pos.y
  decide (dy < l.halfDims.height + r.halfDims.height)

/-! ## Definitions: reading an image from a file (`src/fmo/image.cpp`) -/

/-- The flags of `cv::imread` in use. -/
inductive ImreadMode where
  | IMREAD_COLOR
  | IMREAD_GRAYSCALE
deriving DecidableEq, Repr

/-- The files as `cv::imread` sees them: `imread filename mode` is the decoded matrix and
whether it is continuous, or `none` when `imread` returns a matrix without data (the file does
not exist or cannot be decoded). -/
structure Files where
  imread : String → ImreadMode → Option (CvMat × Bool)

/-- Convert the size used by OpenCV to the actual dimensions. -/
def getDims (format : Format) (size : CvSize) : Except Fault Dims :=
  match format with
  | .BGR => .ok ⟨size.width, size.height⟩
  | .GRAY => .ok ⟨size.width, size.height⟩
  | .YUV420SP => .ok ⟨size.width, Int.tdiv (size.height * 2) 3⟩
  | .UNKNOWN => .error (.runtime_error .getImageSizeUnsupported)

/-- The part of `Image::Image(filename, format)` that follows the check `mat.data == nullptr`.
A failed `FMO_ASSERT` is taken to throw with its message. -/
def Image.ofMat (format : Format) (mat : CvMat) (isContinuous : Bool) : Except Fault Image :=
  if ¬ isContinuous then .error (.runtime_error .readingNotContinuous)
  else
    match getCvType format with
    | .error e => .error e
    | .ok type =>
      if mat.type ≠ type then .error (.runtime_error .readingUnexpectedMatType)
      else
        match getDims format mat.size with
        | .error e => .error e
        | .ok dims =>
          let bytes := mat.numBytes
          match getNumBytes format dims with
          | .error e => .error e
          | .ok expected =>
            if expected ≠ bytes then .error (.runtime_error .readingUnexpectedSize)
            else if bytes ≤ mat.data.length then
              .ok { mData := overwrite (resizeVec [] bytes) (mat.data.take bytes),
                    mFormat := format, mDims := dims }
            else .error .outOfBounds

/-- The constructor `Image::Image(const std::string& filename, Format format)`. -/
def Image.fromFile (fs : Files) (filename : String) (format : Format) : Except Fault Image :=
  let read : Except Fault (Option (CvMat × Bool)) :=
    match format with
    | .BGR => .ok (fs.imread filename .IMREAD_COLOR)
    | .GRAY => .ok (fs.imread filename .IMREAD_GRAYSCALE)
    | _ => .error (.runtime_error .readingUnsupportedFormat)
  match read with
  | .error e => .error e
  | .ok none => .error (.runtime_error .failedToOpenImage)
  | .ok (some (mat, isContinuous)) => Image.ofMat format mat isContinuous

/-- The file name `IM_4x2_FILE` of the tests. -/
def IM_4x2_FILE : String := "assets/4x2.png"

/-- The name of the file that does not exist in the tests. -/
def MISSING_FILE : String := "Eh3qUrSOFl"

/-- Files for the examples: the only file is `IM_4x2_FILE`, which decodes to the 4x2 test
image. -/
def demoFiles : Files :=
  { imread := fun filename mode =>
      if filename = IM_4x2_FILE then
        match mode with
        | .IMREAD_COLOR => some (⟨⟨4, 2⟩, .CV_8UC3, IM_4x2_BGR⟩, true)
        | .IMREAD_GRAYSCALE => some (⟨⟨4, 2⟩, .CV_8UC1, IM_4x2_GRAY⟩, true)
      else none }

/-! ## Definitions: the level pyramid and the preprocessing of `ExplorerV1`
(`src/fmo/explorer-v1/preprocess.cpp`) -/

/-- Modelled from the spec: the member `Image::swap` of `fmo/image.hpp`, a header that is not
part of the sources at hand: `a.swap(b)` exchanges the contents of the two images without
copying. The result is `a` and `b` after the call. -/
def Image.swap (a b : Image) : Image × Image := (b, a)

/-- The data of `fmo::Decimator` (`src/include/fmo/decimator.hpp`): its three cached images. -/
structure Decimator where
  y : Image
  u : Image
  v : Image
deriving DecidableEq, Repr

/-- Routines that `preprocess.cpp` calls and whose code is not part of the sources at hand
(`Decimator::operator()`, `fmo::absdiff` and `fmo::greater_than` of `fmo/processing.hpp`, the
constant `DIFF_THRESH`) or belongs to OpenCV (`cv::bitwise_or`). -/
structure Routines where
  /-- The call `mDecimator(src, dst)`: the decimator and `dst` after the call. -/
  decimate : Decimator → Image → Image → Decimator × Image
  /-- The call `fmo::absdiff(src1, src2, dst)`: `dst` after the call. -/
  absdiff : Image → Image → Image → Image
  /-- The call `fmo::greater_than(src1, dst, value)`: `dst` after the call. -/
  greater_than : Image → Dst → Int → Image
  /-- The call `cv::bitwise_or(src1, src2, dst)`: the bytes it writes through `dst`. -/
  bitwise_or : CvMat → CvMat → List Nat
  /-- The constant `DIFF_THRESH`. -/
  DIFF_THRESH : Int

/-- Modelled from the spec: the type of `ExplorerV1::mSourceLevel`, declared in `explorer.hpp`,
a header that is not part of the sources at hand: the ring of the last three source images,
newest first. -/
structure SourceLevel where
  image1 : Image
  image2 : Image
  image3 : Image
deriving DecidableEq, Repr

/-- Modelled from the spec: the element type of `ExplorerV1::mIgnoredLevels`: a level that only
holds the input of the next decimation. -/
structure IgnoredLevel where
  image : Image
deriving DecidableEq, Repr

/-- Modelled from the spec: the structure `ProcessedLevel` of `explorer.hpp`, with the members
that `preprocess.cpp` uses: the ring of the last three decimated images, newest first, the two
difference images and the combined mask. -/
structure ProcessedLevel where
  image1 : Image
  image2 : Image
  image3 : Image
  diff1 : Image
  diff2 : Image
  preprocessed : Image
deriving DecidableEq, Repr

/-- Modelled from the spec: the members of `ExplorerV1`, declared in `explorer.hpp`, that
`preprocess.cpp` reads and writes. -/
structure ExplorerV1 where
  mSourceLevel : SourceLevel
  mIgnoredLevels : List IgnoredLevel
  mLevel : ProcessedLevel
  mDecimator : Decimator
  mFrameNum : Int
deriving DecidableEq, Repr

/-- The loop `for (auto& level : mIgnoredLevels)` of `createLevelPyramid`, entered with the
decimator and the image `prevLevelImage` points to. The result is the decimator, the image
`prevLevelImage` points to after the loop, and the levels. -/
def decimateIgnored (R : Routines) :
    Decimator → Image → List IgnoredLevel → Decimator × Image × List IgnoredLevel
  | dec, prev, [] => (dec, prev, [])
  | dec, prev, level :: rest =>
    let r := R.decimate dec prev level.image
    let rs := decimateIgnored R r.1 r.2 rest
    (rs.1, rs.2.1, { image := r.2 } :: rs.2.2)

/-- The member `ExplorerV1::createLevelPyramid(Image& input)`. The result is the explorer and
the caller's object `input` after the call. -/
def createLevelPyramid (R : Routines) (s : ExplorerV1) (input : Image) : ExplorerV1 × Image :=
  let sw1 := Image.swap s.mSourceLevel.image2 s.mSourceLevel.image3
  let sw2 := Image.swap s.mSourceLevel.image1 sw1.1
  let sw3 := Image.swap input sw2.1
  let source : SourceLevel := { image1 := sw3.2, image2 := sw2.2, image3 := sw1.2 }
  let ig := decimateIgnored R s.mDecimator source.image1 s.mIgnoredLevels
  let lw1 := Image.swap s.mLevel.image2 s.mLevel.image3
  let lw2 := Image.swap s.mLevel.image1 lw1.1
  let d := R.decimate ig.1 ig.2.1 lw2.1
  let level : ProcessedLevel :=
    { s.mLevel with image1 := d.2, image2 := lw2.2, image3 := lw1.2 }
  ({ s with mSourceLevel := source, mIgnoredLevels := ig.2.2, mLevel := level,
            mDecimator := d.1 }, sw3.1)

/-- The block `if (mFrameNum >= 2)` of `ExplorerV1::preprocess`: swap the difference images and
compute the new `diff1` from `image1` and `image2`. -/
def diffStage (R : Routines) (level : ProcessedLevel) : ProcessedLevel :=
  let sw := Image.swap level.diff1 level.diff2
  let d1 := R.absdiff level.image1 level.image2 sw.1
  let d2 := R.greater_than d1 .same R.DIFF_THRESH
  { level with diff1 := d2, diff2 := sw.2 }

/-- The block `if (mFrameNum >= 3)` of `ExplorerV1::preprocess`: wrap the three images and
write the bitwise OR of the difference images through the wrapped `preprocessed`. -/
def combineStage (R : Routines) (level : ProcessedLevel) : Outcome ProcessedLevel :=
  match level.diff1.wrap with
  | .error e => ⟨level, some e⟩
  | .ok diff1Mat =>
    match level.diff2.wrap with
    | .error e => ⟨level, some e⟩
    | .ok diff2Mat =>
      match level.preprocessed.wrap with
      | .error e => ⟨level, some e⟩
      | .ok _ =>
        let written := overwrite level.preprocessed.mData (R.bitwise_or diff1Mat diff2Mat)
        ⟨{ level with preprocessed := { level.preprocessed with mData := written } }, none⟩

/-- The member `ExplorerV1::preprocess(ProcessedLevel& level)`, with the value of
`mFrameNum`. -/
def preprocessLevel (R : Routines) (mFrameNum : Int) (level : ProcessedLevel) :
    Outcome ProcessedLevel :=
  let level1 := if mFrameNum ≥ 2 then diffStage R level else level
  if mFrameNum ≥ 3 then combineStage R level1 else ⟨level1, none⟩

/-- The member `ExplorerV1::preprocess()`. -/
def preprocess (R : Routines) (s : ExplorerV1) : Outcome ExplorerV1 :=
  let r := preprocessLevel R s.mFrameNum s.mLevel
  ⟨{ s with mLevel := r.state }, r.raised⟩

/-- Routines for the examples: decimation and the difference keep the destination, the
threshold yields a GRAY image of 4x2 zeros, and the bitwise OR writes eight bytes 255. -/
def demoRoutines : Routines :=
  { decimate := fun dec _ dst => (dec, dst)
    absdiff := fun _ _ dst => dst
    greater_than := fun _ _ _ => ⟨.GRAY, IM_4X2_DIMS, List.replicate 8 0⟩
    bitwise_or := fun _ _ => List.replicate 8 255
    DIFF_THRESH := 19 }

/-- A processing level for the examples: all six images are the GRAY test image. -/
def demoLevel : ProcessedLevel :=
  { image1 := ⟨.GRAY, IM_4X2_DIMS, IM_4x2_GRAY⟩, image2 := ⟨.GRAY, IM_4X2_DIMS, IM_4x2_GRAY⟩,
    image3 := ⟨.GRAY, IM_4X2_DIMS, IM_4x2_GRAY⟩, diff1 := ⟨.GRAY, IM_4X2_DIMS, IM_4x2_GRAY⟩,
    diff2 := ⟨.GRAY, IM_4X2_DIMS, IM_4x2_GRAY⟩,
    preprocessed := ⟨.GRAY, IM_4X2_DIMS, IM_4x2_GRAY⟩ }

/-! ## Definitions: first fit, sortedness and the exhaustive variant of the scan -/

/-- Candidate `j` fits component `i`, in the state `s1` that iteration `i` scans (`me` is
component `i`, `myLast` its last strip, `maxWidth` the width limit of its trajectory): `j`
comes after `i`, every candidate from `i + 1` to `j` has a horizontal gap of at most
`maxWidth`, and `j` is unclaimed and passes the angle check and the thickness check. -/
def Fits (K : ImplDecls) (s1 : Explorer) (me : Component) (myLast : Strip) (maxWidth : Int)
    (i j : Nat) : Prop :=
  i < j ∧ (∃ cj, s1.mComponents[j]? = some cj ∧ LinkOk K s1.mStrips me myLast maxWidth cj) ∧
  ∀ k, i < k → k ≤ j → ∃ ck cf, s1.mComponents[k]? = some ck ∧
    getAt s1.mStrips ck.first = some cf ∧ cf.x - myLast.x ≤ maxWidth

/-- The x coordinates of the first strips of the components, `none` where a component names
no strip. -/
def firstXs (strips : List Strip) (comps : List Component) : List (Option Int) :=
  comps.map fun c => (getAt strips c.first).map Strip.x

/-- The components are sorted in non-decreasing order of the x coordinate of their first
strip (and each of them has a first strip). -/
def SortedByFirstX (strips : List Strip) (comps : List Component) : Prop :=
  ∃ xs : List Int, firstXs strips comps = xs.map some ∧ xs.Pairwise (· ≤ ·)

/-- The inner loop of the exhaustive variant of `findTrajectories`: as `scanCandidates`, but
a candidate whose gap exceeds `maxWidth` is skipped (`continue`) and the scan goes on. -/
def scanCandidatesExhaustive (K : ImplDecls) (strips : List Strip) (me : Component)
    (myLast : Strip) (maxWidth : Int) : List Component → Nat → Option (Option Nat)
  | [], _ => some none
  | candidate :: rest, j =>
    match getAt strips candidate.first with
    | none => none
    | some candFirst =>
      let dx := candFirst.x - myLast.x
      if dx > maxWidth then scanCandidatesExhaustive K strips me myLast maxWidth rest (j + 1)
      else if candidate.trajectory ≠ K.NO_TRAJECTORY then
        scanCandidatesExhaustive K strips me myLast maxWidth rest (j + 1)
      else
        let dy := Fmo.abs (candFirst.y - myLast.y)
        if dy > 2 * dx then scanCandidatesExhaustive K strips me myLast maxWidth rest (j + 1)
        else if me.approxHalfHeight > 2 * candidate.approxHalfHeight ∨
            candidate.approxHalfHeight > 2 * me.approxHalfHeight then
          scanCandidatesExhaustive K strips me myLast maxWidth rest (j + 1)
        else some (some j)

/-- One iteration of the outer loop of the exhaustive variant: as `findStep`, with the
exhaustive scan. -/
def findStepExhaustive (K : ImplDecls) (s : Explorer) (i : Nat) : Option Explorer :=
  match openTrajectory K s i with
  | none => none
  | some (s1, me, myLast, maxWidth) =>
    match scanCandidatesExhaustive K s1.mStrips me myLast maxWidth
        (s1.mComponents.drop (i + 1)) (i + 1) with
    | none => none
    | some none => some s1
    | some (some j) =>
      match s1.mComponents[j]? with
      | none => none
      | some candidate =>
        let comps1 := s1.mComponents.set j { candidate with trajectory := me.trajectory }
        some { s1 with mComponents := comps1.set i { me with next := toInt16 j } }

/-- The outer loop of the exhaustive variant, with `k` iterations left. -/
def findLoopExhaustive (K : ImplDecls) : Nat → Nat → Explorer → Option Explorer
  | 0, _, s => some s
  | k + 1, i, s =>
    match findStepExhaustive K s i with
    | none => none
    | some s1 => findLoopExhaustive K k (i + 1) s1

/-- The exhaustive variant of `findTrajectories`. -/
def findTrajectoriesExhaustive (K : ImplDecls) (s : Explorer) : Option Explorer :=
  findLoopExhaustive K s.mComponents.length 0 { s with mTrajectories := [] }

/-- A scene that is not sorted: the first component spans x = 0 to 3, the second is the single
strip at x = 40, the third the single strip at x = 5. -/
def unsortedScene : Explorer :=
  { mStrips := [⟨0, 10, 2⟩, ⟨1, 10, 2⟩, ⟨2, 10, 2⟩, ⟨3, 10, 2⟩, ⟨40, 10, 2⟩, ⟨5, 10, 2⟩]
    mComponents := [⟨0, 3, 4, 2, -1, -1⟩, ⟨4, 4, 1, 2, -1, -1⟩, ⟨5, 5, 1, 2, -1, -1⟩]
    mTrajectories := [] }

/-- The scene `unsortedScene` after `findTrajectories`. -/
def unsortedSceneFound : Explorer :=
  { mStrips := [⟨0, 10, 2⟩, ⟨1, 10, 2⟩, ⟨2, 10, 2⟩, ⟨3, 10, 2⟩, ⟨40, 10, 2⟩, ⟨5, 10, 2⟩]
    mComponents := [⟨0, 3, 4, 2, -1, 0⟩, ⟨4, 4, 1, 2, -1, 1⟩, ⟨5, 5, 1, 2, -1, 2⟩]
    mTrajectories := [⟨0, 0, 3, ⟨0⟩⟩, ⟨1, 0, 0, ⟨0⟩⟩, ⟨2, 0, 0, ⟨0⟩⟩] }

/-- The scene `unsortedScene` after the exhaustive variant of `findTrajectories`. -/
def unsortedSceneExhaustive : Explorer :=
  { mStrips := [⟨0, 10, 2⟩, ⟨1, 10, 2⟩, ⟨2, 10, 2⟩, ⟨3, 10, 2⟩, ⟨40, 10, 2⟩, ⟨5, 10, 2⟩]
    mComponents := [⟨0, 3, 4, 2, 2, 0⟩, ⟨4, 4, 1, 2, -1, 1⟩, ⟨5, 5, 1, 2, -1, 0⟩]
    mTrajectories := [⟨0, 0, 3, ⟨0⟩⟩, ⟨1, 0, 0, ⟨0⟩⟩] }

/-! ## Definitions: the strip generator, from its documentation

The code of `StripGen::operator()` and `NewStripGen::operator()` is not part of the sources at
hand; `src/include/fmo/stripgen.hpp` declares and documents them. -/

/-- Modelled from the spec: the run-length encoding of one column of the binary image, scanned
top to bottom from row `pos` on; `open` is the row where the foreground run being scanned
began, if one is being scanned. The result lists the maximal foreground runs as pairs of
first row and height. Missing is the code of `StripGen::operator()`. -/
def runsFrom : List Bool → Nat → Option Nat → List (Nat × Nat)
  | [], _, none => []
  | [], pos, some start => [(start, pos - start)]
  | true :: rest, pos, none => runsFrom rest (pos + 1) (some pos)
  | true :: rest, pos, some start => runsFrom rest (pos + 1) (some start)
  | false :: rest, pos, none => runsFrom rest (pos + 1) none
  | false :: rest, pos, some start => (start, pos - start) :: runsFrom rest (pos + 1) none

/-- Modelled from the spec: "runs shorter than `minHeight` are dropped and counted as noise".
The runs of a column that are not noise. Missing is the code of `StripGen::operator()`. -/
def validRuns (minHeight : Int) (col : List Bool) : List (Nat × Nat) :=
  (runsFrom col 0 none).filter fun r => decide (minHeight ≤ (r.2 : Int))

/-- Modelled from the spec: the number of runs of a column discarded due to `minHeight`.
Missing is the code of `StripGen::operator()`. -/
def columnNoise (minHeight : Int) (col : List Bool) : Nat :=
  ((runsFrom col 0 none).filter fun r => decide ((r.2 : Int) < minHeight)).length

/-- Modelled from the spec: the vertical gap between two runs of a column, the second below
the first: the number of rows between them. -/
def runGap (upper lower : Nat × Nat) : Int := (lower.1 : Int) - ((upper.1 : Int) + upper.2)

/-- Modelled from the spec: "The vertical gap between two strips (that are not considered
noise) must be at least `minGap`, otherwise both strips are discarded". The argument `prev` is
the run above the first run of the list, if there is one. Missing is the code of
`StripGen::operator()`. -/
def gapFilter (minGap : Int) : Option (Nat × Nat) → List (Nat × Nat) → List (Nat × Nat)
  | _, [] => []
  | prev, r :: rest =>
    let okPrev : Bool :=
      match prev with
      | none => true
      | some p => decide (minGap ≤ runGap p r)
    let okNext : Bool :=
      match rest with
      | [] => true
      | n :: _ => decide (minGap ≤ runGap r n)
    if okPrev && okNext then r :: gapFilter minGap (some r) rest
    else gapFilter minGap (some r) rest

/-- Modelled from the spec: the runs of a column that become strips. -/
def keptRuns (minHeight minGap : Int) (col : List Bool) : List (Nat × Nat) :=
  gapFilter minGap none (validRuns minHeight col)

/-- Modelled from the spec: "Each surviving run is converted to a Strip centered in source
coordinates with half-dimensions derived from `step`": the strip of the run `r` in column
`x`. Missing is the code of `StripGen::operator()`. -/
def runToStrip (step : Int) (x : Nat) (r : Nat × Nat) : StripRepr :=
  let halfStep := Int.tdiv step 2
  { pos := ⟨toInt16 (x * step + halfStep), toInt16 (r.1 * step + r.2 * halfStep)⟩
    halfDims := ⟨toInt16 halfStep, toInt16 (r.2 * halfStep)⟩ }

/-- Modelled from the spec: the strips of column `x`. -/
def columnStrips (minHeight minGap step : Int) (x : Nat) (col : List Bool) : List StripRepr :=
  (keptRuns minHeight minGap col).map (runToStrip step x)

/-- Column `x` of a binary image, top to bottom: a pixel is foreground when its byte is not
zero. -/
def maskColumn (img : Image) (x : Nat) : List Bool :=
  (List.range img.mDims.height.toNat).map fun row =>
    decide (img.mData.getD (row * img.mDims.width.toNat + x) 0 ≠ 0)

/-- Modelled from the spec: `NewStripGen::operator()(img, minHeight, minGap, step, out,
outNoise)`: the strips of all columns in the order of the columns, and the number of runs
discarded due to `minHeight`. Missing is the code of this operator. -/
def stripGen (img : Image) (minHeight minGap step : Int) : List StripRepr × Nat :=
  let columns := (List.range img.mDims.width.toNat).map fun x => (x, maskColumn img x)
  ((columns.map fun c => columnStrips minHeight minGap step c.1 c.2).flatten,
    (columns.map fun c => columnNoise minHeight c.2).sum)

/-- A binary image of one column and eight rows: background, a run of two, one row of
background, a run of three, background. -/
def demoMask : Image :=
  { mFormat := .GRAY, mDims := ⟨1, 8⟩, mData := [0, 255, 255, 0, 255, 255, 255, 0] }

/-! ## Definitions: the mask across two frames (`src/fmo/explorer-v1/preprocess.cpp`) -/

/-- The destination after the two calls `fmo::absdiff(a, b, dst)` and
`fmo::greater_than(dst, dst, DIFF_THRESH)` of `ExplorerV1::preprocess`. -/
def thresholdedDiff (R : Routines) (a b dst : Image) : Image :=
  R.greater_than (R.absdiff a b dst) .same R.DIFF_THRESH

/-- The level after the calls that two consecutive frames make on it: `preprocess` with
`mFrameNum = n - 1`, then `createLevelPyramid` with the next input and `preprocess` with
`mFrameNum = n`. The result is the level that the second `preprocess` is entered with and its
outcome. -/
def twoFrames (R : Routines) (s : ExplorerV1) (input : Image) (n : Int) :
    ProcessedLevel × Outcome ProcessedLevel :=
  let r1 := preprocessLevel R (n - 1) s.mLevel
  let s2 := (createLevelPyramid R { s with mLevel := r1.state } input).1
  (s2.mLevel, preprocessLevel R n s2.mLevel)

/-- The pixelwise OR of two buffers of bytes. -/
def pixelwiseOr (a b : List Nat) : List Nat := List.zipWith Nat.lor a b

/-- Routines for the examples of the mask: the decimator copies its source, the difference is
the absolute difference of the bytes, the threshold yields 255 above the value and 0 else, and
the OR is the pixelwise OR of the wrapped bytes. -/
def maskRoutines : Routines :=
  { decimate := fun dec src _ => (dec, src)
    absdiff := fun a b _ =>
      ⟨.GRAY, a.mDims, List.zipWith (fun x y => if x ≤ y then y - x else x - y) a.mData b.mData⟩
    greater_than := fun src _ v =>
      ⟨.GRAY, src.mDims, src.mData.map fun x => if v < (x : Int) then 255 else 0⟩
    bitwise_or := fun a b => pixelwiseOr a.data b.data
    DIFF_THRESH := 19 }

/-- A GRAY image of 4x2 pixels with the given bytes. -/
def gray4x2 (data : List Nat) : Image := ⟨.GRAY, IM_4X2_DIMS, data⟩

/-- An explorer for the examples of the mask, at the call of `preprocess` in frame 2: the
level holds the decimated frames 2 and 1, a bright pixel that moved from column 0 to
column 1. -/
def maskExplorer : ExplorerV1 :=
  { mSourceLevel :=
      { image1 := gray4x2 [0, 200, 0, 0, 0, 0, 0, 0], image2 := gray4x2 [200, 0, 0, 0, 0, 0, 0, 0],
        image3 := gray4x2 [0, 0, 0, 0, 0, 0, 0, 0] }
    mIgnoredLevels := []
    mLevel :=
      { image1 := gray4x2 [0, 200, 0, 0, 0, 0, 0, 0], image2 := gray4x2 [200, 0, 0, 0, 0, 0, 0, 0],
        image3 := gray4x2 [0, 0, 0, 0, 0, 0, 0, 0], diff1 := gray4x2 [0, 0, 0, 0, 0, 0, 0, 0],
        diff2 := gray4x2 [0, 0, 0, 0, 0, 0, 0, 0],
        preprocessed := gray4x2 [0, 0, 0, 0, 0, 0, 0, 0] }
    mDecimator := ⟨Image.default, Image.default, Image.default⟩
    mFrameNum := 2 }

/-- The input of frame 3 for the examples of the mask: the bright pixel in column 2. -/
def maskInput : Image := gray4x2 [0, 0, 200, 0, 0, 0, 0, 0]

/-! ## Definitions: one iteration of `findTrajectories` in detail -/

/-- What one iteration of the outer loop of `findTrajectories` for component `i` does, in terms
of the state `s` before it and the state `s2` after it: `me0` is component `i` before the
iteration, `τ` the index of its trajectory, `told` that trajectory before its `maxWidth` is
updated, `myFirst` and `myLast` the first and last strip of the component, and `link` the
candidate that the scan linked, if any. -/
structure StepDetail (K : ImplDecls) (s : Explorer) (i : Nat) (s2 : Explorer) (me0 : Component)
    (τ : Nat) (told : Trajectory) (myFirst myLast : Strip) (link : Option Nat) : Prop where
  me : s.mComponents[i]? = some me0
  fresh : me0.trajectory = K.NO_TRAJECTORY →
    τ = s.mTrajectories.length ∧ told = K.newTrajectory i
  old : me0.trajectory ≠ K.NO_TRAJECTORY →
    me0.trajectory = (τ : Int) ∧ s.mTrajectories[τ]? = some told
  first : getAt s.mStrips me0.first = some myFirst
  last : getAt s.mStrips me0.last = some myLast
  strips : s2.mStrips = s.mStrips
  tlen : s2.mTrajectories.length =
    if me0.trajectory = K.NO_TRAJECTORY then s.mTrajectories.length + 1
    else s.mTrajectories.length
  tau : s2.mTrajectories[τ]? =
    some { told with maxWidth := toInt16 (max told.maxWidth (myLast.x - myFirst.x)) }
  others : ∀ k, k ≠ τ → s2.mTrajectories[k]? = s.mTrajectories[k]?
  clen : s2.mComponents.length = s.mComponents.length
  ci : s2.mComponents[i]? = some { me0 with
    trajectory := (τ : Int)
    next := match link with
      | none => K.NO_COMPONENT
      | some j => (j : Int) }
  target : ∀ j, link = some j → i < j ∧ j < 32768 ∧ ∃ cj, s.mComponents[j]? = some cj ∧
    cj.trajectory = K.NO_TRAJECTORY ∧ s2.mComponents[j]? = some { cj with trajectory := (τ : Int) }
  rest : ∀ m, m ≠ i → link ≠ some m → s2.mComponents[m]? = s.mComponents[m]?

/-- The state after the first `i` iterations of the outer loop of `findTrajectories` over `n`
components: every component that had its iteration carries a valid trajectory index, a link
goes to a later component that carries the same trajectory index, and no two of them have the
same link. -/
structure FoundLinks (K : ImplDecls) (n i : Nat) (s : Explorer) : Prop where
  len : s.mComponents.length = n
  tlen : s.mTrajectories.length ≤ i
  valid : ∀ m c, m < i → s.mComponents[m]? = some c →
    0 ≤ c.trajectory ∧ c.trajectory < (s.mTrajectories.length : Int)
  link : ∀ m c, m < i → s.mComponents[m]? = some c → c.next ≠ K.NO_COMPONENT →
    ∃ j cj, m < j ∧ c.next = (j : Int) ∧ s.mComponents[j]? = some cj ∧
      cj.trajectory = c.trajectory
  uniq : ∀ a b ca cb, a < i → b < i → s.mComponents[a]? = some ca →
    s.mComponents[b]? = some cb → ca.next ≠ K.NO_COMPONENT → ca.next = cb.next → a = b

/-- The state after the first `i` iterations of the outer loop of `findTrajectories`, when the
components started without a trajectory: a component that has not had its iteration carries a
trajectory only if an earlier component links to it, every trajectory has as `first` a
component that carries its index and that no component links to, and a component that no
component links to is the `first` of the trajectory it carries. -/
structure FoundRoots (K : ImplDecls) (i : Nat) (s : Explorer) : Prop where
  pending : ∀ (m : Nat) (c : Component), i ≤ m → s.mComponents[m]? = some c →
    c.trajectory ≠ K.NO_TRAJECTORY →
    ∃ (a : Nat) (ca : Component), a < i ∧ s.mComponents[a]? = some ca ∧ ca.next = (m : Int)
  rooted : ∀ (τ : Nat) (t : Trajectory), s.mTrajectories[τ]? = some t →
    ∃ (r : Nat) (c : Component), r < i ∧ t.first = (r : Int) ∧ s.mComponents[r]? = some c ∧
      c.trajectory = (τ : Int) ∧
      ∀ (a : Nat) (ca : Component), a < i → s.mComponents[a]? = some ca → ca.next ≠ (r : Int)
  rootOf : ∀ (m : Nat) (c : Component), m < i → s.mComponents[m]? = some c →
    (∀ (a : Nat) (ca : Component), a < i → s.mComponents[a]? = some ca → ca.next ≠ (m : Int)) →
    ∃ t, getAt s.mTrajectories c.trajectory = some t ∧ t.first = (m : Int)

/-- The width limits after the first `i` iterations of the outer loop of `findTrajectories`:
the x coordinates of the strips and every `maxWidth` fit `int16_t`, and the `maxWidth` of the
trajectory of a component that had its iteration is at least the width of the component. -/
structure FoundWidths (i : Nat) (s : Explorer) : Prop where
  xs : ∀ st ∈ s.mStrips, 0 ≤ st.x ∧ st.x < 32768
  range : ∀ t ∈ s.mTrajectories, -32768 ≤ t.maxWidth ∧ t.maxWidth < 32768
  width : ∀ (m : Nat) (c : Component) (f l : Strip), m < i → s.mComponents[m]? = some c →
    getAt s.mStrips c.first = some f → getAt s.mStrips c.last = some l →
    ∃ t, getAt s.mTrajectories c.trajectory = some t ∧ l.x - f.x ≤ t.maxWidth

/-! ## Definitions: the rows between two runs of a column -/

theorem toInt16_of_range (v : Int) (h0 : 0 ≤ v) (h1 : v < 32768) : toInt16 v = v := by
  unfold toInt16; omega

theorem getAt_eq_some {α : Type} {v : List α} {i : Int} {a : α} (h : getAt v i = some a) :
    0 ≤ i ∧ v[i.toNat]? = some a := by
  unfold getAt at h
  split at h
  · exact ⟨by assumption, h⟩
  · cases h

theorem getAt_natCast {α : Type} (v : List α) (k : Nat) : getAt v (k : Int) = v[k]? := by
  simp [getAt]

theorem getAt_lt_length {α : Type} {v : List α} {i : Int} {a : α} (h : getAt v i = some a) :
    0 ≤ i ∧ i < v.length := by
  obtain ⟨h0, h1⟩ := getAt_eq_some h
  have := (List.getElem?_eq_some_iff.mp h1).1
  omega

theorem scanCandidates_link (K : ImplDecls) (strips : List Strip) (me : Component)
    (myLast : Strip) (mw : Int) (cands : List Component) (j0 j : Nat)
    (h : scanCandidates K strips me myLast mw cands j0 = some (some j)) :
    j0 ≤ j ∧ ∃ c, cands[j - j0]? = some c ∧ LinkOk K strips me myLast mw c := by
  induction cands generalizing j0 with
  | nil => simp [scanCandidates] at h
  | cons c rest ih =>
    simp only [scanCandidates] at h
    split at h
    · cases h
    · rename_i cf hcf
      split at h
      · cases h
      · rename_i hdx
        split at h
        · obtain ⟨h1, c1, h2, h3⟩ := ih (j0 + 1) h
          refine ⟨by omega, c1, ?_, h3⟩
          have : j - j0 = (j - (j0 + 1)) + 1 := by omega
          rw [this]; simpa using h2
        · rename_i htr
          split at h
          · obtain ⟨h1, c1, h2, h3⟩ := ih (j0 + 1) h
            refine ⟨by omega, c1, ?_, h3⟩
            have : j - j0 = (j - (j0 + 1)) + 1 := by omega
            rw [this]; simpa using h2
          · rename_i hdy
            split at h
            · obtain ⟨h1, c1, h2, h3⟩ := ih (j0 + 1) h
              refine ⟨by omega, c1, ?_, h3⟩
              have : j - j0 = (j - (j0 + 1)) + 1 := by omega
              rw [this]; simpa using h2
            · rename_i hth
              simp only [Option.some.injEq] at h
              subst h
              refine ⟨le_refl _, c, by simp, ⟨cf, hcf, by omega, by omega⟩, ?_, ?_⟩
              · simpa using htr
              · push_neg at hth; exact hth

theorem getAt_set_self {α : Type} {v : List α} {i : Int} {a b : α} (h : getAt v i = some a) :
    getAt (v.set i.toNat b) i = some b := by
  obtain ⟨h0, h1⟩ := getAt_eq_some h
  have hlt := (List.getElem?_eq_some_iff.mp h1).1
  simp [getAt, h0, hlt]

theorem openTrajectory_spec (K : ImplDecls) (s : Explorer) (i : Nat) (s1 : Explorer)
    (me : Component) (myLast : Strip) (mw : Int)
    (h : openTrajectory K s i = some (s1, me, myLast, mw)) : Opened K s i s1 me myLast mw := by
  unfold openTrajectory at h
  split at h
  · cases h
  · rename_i me0 hme0
    simp only at h
    split at h
    · rename_i myTrajectory myFirst myLast0 htr hfi hla
      simp only [Option.some.injEq, Prod.mk.injEq] at h
      obtain ⟨hs1, hme, hl, hmw⟩ := h
      subst hs1 hl
      have hfirsts : ∀ t ∈ (if me0.trajectory = K.NO_TRAJECTORY
          then s.mTrajectories ++ [K.newTrajectory i] else s.mTrajectories),
          (∃ t0 ∈ s.mTrajectories, t.first = t0.first) ∨ t.first = toInt16 i := by
        intro t ht
        split at ht
        · rcases List.mem_append.mp ht with h1 | h1
          · exact Or.inl ⟨t, h1, rfl⟩
          · simp only [List.mem_singleton] at h1
            subst h1; right; simp [ImplDecls.newTrajectory]
        · exact Or.inl ⟨t, ht, rfl⟩
      by_cases hfresh : me0.trajectory = K.NO_TRAJECTORY
      · simp only [hfresh, if_true] at htr hfi hla hme hfirsts ⊢
        subst hme
        refine ⟨⟨me0, hme0, rfl, rfl, rfl, rfl⟩, rfl, rfl, rfl, ⟨myFirst, hfi⟩, hla, ?_, ?_⟩
        · exact ⟨_, getAt_set_self htr, hmw⟩
        · intro t ht
          rcases List.mem_or_eq_of_mem_set ht with h1 | h1
          · exact hfirsts t h1
          · subst h1
            obtain ⟨h0, h1⟩ := getAt_eq_some htr
            exact hfirsts myTrajectory (List.getElem?_mem h1)
      · simp only [hfresh, if_false] at htr hfi hla hme hfirsts ⊢
        subst hme
        refine ⟨⟨me0, hme0, rfl, rfl, rfl, rfl⟩, rfl, rfl, rfl, ⟨myFirst, hfi⟩, hla, ?_, ?_⟩
        · exact ⟨_, getAt_set_self htr, hmw⟩
        · intro t ht
          rcases List.mem_or_eq_of_mem_set ht with h1 | h1
          · exact hfirsts t h1
          · subst h1
            obtain ⟨h0, h1⟩ := getAt_eq_some htr
            exact hfirsts myTrajectory (List.getElem?_mem h1)
    · cases h

theorem findStep_spec (K : ImplDecls) (s : Explorer) (i : Nat) (s2 : Explorer)
    (h : findStep K s i = some s2) :
    ∃ s1 me myLast mw, openTrajectory K s i = some (s1, me, myLast, mw) ∧
      (s2 = s1 ∨ ∃ j c, i < j ∧ s1.mComponents[j]? = some c ∧
        LinkOk K s1.mStrips me myLast mw c ∧ s2 = linked s1 i me j c) := by
  unfold findStep at h
  split at h
  · cases h
  · rename_i s1 me myLast mw hopen
    refine ⟨s1, me, myLast, mw, hopen, ?_⟩
    split at h
    · cases h
    · left; simpa using h.symm
    · rename_i j hscan
      split at h
      · cases h
      · rename_i c hc
        right
        obtain ⟨hj, c1, hc1, hok⟩ := scanCandidates_link K _ _ _ _ _ _ _ hscan
        rw [List.getElem?_drop] at hc1
        have hidx : i + 1 + (j - (i + 1)) = j := by omega
        rw [hidx, hc] at hc1
        simp only [Option.some.injEq] at hc1
        subst hc1
        refine ⟨j, c, by omega, hc, hok, ?_⟩
        simp only [Option.some.injEq] at h
        exact h.symm

theorem findStep_inv (K : ImplDecls) (s : Explorer) (i : Nat) (s2 : Explorer)
    (hn : s.mComponents.length ≤ 32768) (h : findStep K s i = some s2) :
    s2.mStrips = s.mStrips ∧ s2.mComponents.length = s.mComponents.length ∧
    (∀ m, m < i → s2.mComponents[m]? = s.mComponents[m]?) ∧
    (∃ c, s2.mComponents[i]? = some c ∧ CompGood K s.mStrips s.mComponents.length i c) ∧
    (∀ t ∈ s2.mTrajectories,
      (∃ t0 ∈ s.mTrajectories, t.first = t0.first) ∨ t.first = toInt16 i) := by
  obtain ⟨s1, me, myLast, mw, hopen, hcase⟩ := findStep_spec K s i s2 h
  have ho := openTrajectory_spec K s i s1 me myLast mw hopen
  obtain ⟨me0, hme0, -⟩ := ho.fields
  have hi : i < s.mComponents.length := (List.getElem?_eq_some_iff.mp hme0).1
  rcases hcase with h2 | ⟨j, c, hij, hc, hok, h2⟩
  · subst h2
    refine ⟨ho.strips, by simp [ho.comps], ?_, ⟨me, ?_, ?_⟩, ho.firsts⟩
    · intro m hm
      rw [ho.comps, List.getElem?_set_ne (by omega)]
    · rw [ho.comps]; simp [hi]
    · exact ⟨Or.inl ho.next, ho.first, ⟨myLast, ho.last⟩⟩
  · subst h2
    have hj : j < s.mComponents.length := by
      have := (List.getElem?_eq_some_iff.mp hc).1
      simpa [ho.comps] using this
    refine ⟨ho.strips, by simp [linked, ho.comps], ?_, ⟨{ me with next := toInt16 j }, ?_, ?_⟩,
      ho.firsts⟩
    · intro m hm
      simp only [linked]
      rw [List.getElem?_set_ne (by omega), List.getElem?_set_ne (by omega), ho.comps,
        List.getElem?_set_ne (by omega)]
    · simp [linked, ho.comps, hi]
    · refine ⟨Or.inr ⟨j, hij, hj, ?_⟩, ho.first, ⟨myLast, ho.last⟩⟩
      exact toInt16_of_range _ (by omega) (by omega)

theorem findLoop_inv (K : ImplDecls) (k : Nat) : ∀ (i : Nat) (s s2 : Explorer),
    s.mComponents.length ≤ 32768 → findLoop K k i s = some s2 →
    s2.mStrips = s.mStrips ∧ s2.mComponents.length = s.mComponents.length ∧
    (∀ m, m < i → s2.mComponents[m]? = s.mComponents[m]?) ∧
    (∀ m, i ≤ m → m < i + k →
      ∃ c, s2.mComponents[m]? = some c ∧ CompGood K s.mStrips s.mComponents.length m c) ∧
    (∀ t ∈ s2.mTrajectories, (∃ t0 ∈ s.mTrajectories, t.first = t0.first) ∨
      ∃ m, i ≤ m ∧ m < i + k ∧ t.first = toInt16 m) := by
  induction k with
  | zero =>
    intro i s s2 _ h
    simp only [findLoop, Option.some.injEq] at h
    subst h
    refine ⟨rfl, rfl, fun _ _ => rfl, fun m h1 h2 => by omega, fun t ht => Or.inl ⟨t, ht, rfl⟩⟩
  | succ k ih =>
    intro i s s2 hn h
    simp only [findLoop] at h
    split at h
    · cases h
    · rename_i s1 hstep
      obtain ⟨a1, a2, a3, ⟨c, a4, a5⟩, a6⟩ := findStep_inv K s i s1 hn hstep
      obtain ⟨b1, b2, b3, b4, b5⟩ := ih (i + 1) s1 s2 (by omega) h
      refine ⟨by rw [b1, a1], by rw [b2, a2], ?_, ?_, ?_⟩
      · intro m hm
        rw [b3 m (by omega), a3 m hm]
      · intro m h1 h2
        rcases Nat.eq_or_lt_of_le h1 with h3 | h3
        · subst h3
          exact ⟨c, by rw [b3 i (by omega), a4], a5⟩
        · obtain ⟨c2, hc2, hg⟩ := b4 m (by omega) (by omega)
          exact ⟨c2, hc2, by rw [a1, a2] at hg; exact hg⟩
      · intro t ht
        rcases b5 t ht with ⟨t0, ht0, he⟩ | ⟨m, h1, h2, he⟩
        · rcases a6 t0 ht0 with ⟨t1, ht1, he1⟩ | he1
          · exact Or.inl ⟨t1, ht1, by rw [he, he1]⟩
          · exact Or.inr ⟨i, le_refl _, by omega, by rw [he, he1]⟩
        · exact Or.inr ⟨m, by omega, by omega, he⟩

/-! ## Theorems: the chain walk of `analyzeTrajectories` -/

theorem walkChain_total (K : ImplDecls) (comps : List Component)
    (hgood : ∀ (m : Nat) (c : Component), comps[m]? = some c →
      c.next = K.NO_COMPONENT ∨ ∃ j : Nat, m < j ∧ j < comps.length ∧ c.next = (j : Int))
    (fuel : Nat) : ∀ (acc : Int) (idx : Nat) (c : Component), comps[idx]? = some c →
      comps.length - idx ≤ fuel → ∃ r, walkChain K comps fuel acc (idx : Int) c = some r := by
  induction fuel with
  | zero =>
    intro acc idx c hc hf
    have := (List.getElem?_eq_some_iff.mp hc).1
    omega
  | succ fuel ih =>
    intro acc idx c hc hf
    simp only [walkChain]
    split
    · exact ⟨_, rfl⟩
    · rename_i hne
      rcases hgood idx c hc with h1 | ⟨j, h1, h2, h3⟩
      · exact absurd h1 hne
      · obtain ⟨cj, hcj⟩ : ∃ cj, comps[j]? = some cj :=
          ⟨comps[j], List.getElem?_eq_getElem h2⟩
        rw [h3, getAt_natCast, hcj]
        exact ih _ j cj hcj (by omega)

theorem walkChain_chain (K : ImplDecls) (comps : List Component) (fuel : Nat) :
    ∀ (acc idx : Int) (c : Component) (cnt e : Int) (ce : Component),
      getAt comps idx = some c → walkChain K comps fuel acc idx c = some (cnt, e, ce) →
      getAt comps e = some ce ∧ ce.next = K.NO_COMPONENT ∧
      (chainIndices K comps fuel idx).getLast? = some e ∧
      cnt = acc + (((chainIndices K comps fuel idx).filterMap (getAt comps)).map
        Component.numStrips).sum := by
  induction fuel with
  | zero => intro acc idx c cnt e ce _ h; simp [walkChain] at h
  | succ fuel ih =>
    intro acc idx c cnt e ce hc h
    simp only [walkChain] at h
    simp only [chainIndices, hc]
    split at h
    · rename_i hnext
      simp only [Option.some.injEq, Prod.mk.injEq] at h
      obtain ⟨h1, h2, h3⟩ := h
      subst h1 h2 h3
      simp [hnext, hc]
    · rename_i hnext
      split at h
      · cases h
      · rename_i c1 hc1
        obtain ⟨a1, a2, a3, a4⟩ := ih _ _ _ _ _ _ hc1 h
        refine ⟨a1, a2, ?_, ?_⟩
        · simp only [hnext, if_false]
          rw [List.getLast?_cons, a3]; rfl
        · simp only [hnext, if_false, List.filterMap_cons, hc, List.map_cons, List.sum_cons]
          rw [a4]; ring

theorem analyzeTrajectory_eq (K : ImplDecls) (strips : List Strip) (comps : List Component)
    (t : Trajectory) (fc ce : Component) (cnt0 e : Int) (fs ls : Strip)
    (hfc : getAt comps t.first = some fc)
    (hwalk : walkChain K comps comps.length 0 t.first fc = some (cnt0, e, ce))
    (hfs : getAt strips fc.first = some fs) (hls : getAt strips ce.last = some ls) :
    analyzeTrajectory K strips comps t =
      some (if cnt0 + ce.numStrips < K.MIN_STRIPS then { t with score := Score.zero }
        else { t with last := toInt16 e, score := ⟨sqDist fs ls⟩ }) := by
  simp only [analyzeTrajectory, hfc, hwalk, hfs, hls, sqDist]
  split <;> rfl

/-- After `findTrajectories`, every component is `CompGood` and every trajectory starts at a
component. -/
theorem findTrajectories_inv (K : ImplDecls) (s s1 : Explorer)
    (hn : s.mComponents.length ≤ 32768) (h : findTrajectories K s = some s1) :
    s1.mStrips = s.mStrips ∧ s1.mComponents.length = s.mComponents.length ∧
    (∀ (m : Nat) (c : Component), s1.mComponents[m]? = some c →
      CompGood K s1.mStrips s1.mComponents.length m c) ∧
    (∀ t ∈ s1.mTrajectories, ∃ m : Nat, m < s1.mComponents.length ∧ t.first = (m : Int)) := by
  unfold findTrajectories at h
  obtain ⟨b1, b2, -, b4, b5⟩ :=
    findLoop_inv K _ 0 { s with mTrajectories := [] } s1 hn h
  simp only at b1 b2 b4 b5
  refine ⟨b1, b2, ?_, ?_⟩
  · intro m c hc
    have hm : m < s.mComponents.length := by
      have := (List.getElem?_eq_some_iff.mp hc).1
      omega
    obtain ⟨c1, hc1, hg⟩ := b4 m (by omega) (by omega)
    rw [hc] at hc1
    simp only [Option.some.injEq] at hc1
    subst hc1
    rw [b1, b2]; exact hg
  · intro t ht
    rcases b5 t ht with ⟨t0, ht0, -⟩ | ⟨m, -, h2, he⟩
    · simp at ht0
    · refine ⟨m, by omega, ?_⟩
      rw [he]; exact toInt16_of_range _ (by omega) (by omega)

/-! ## Theorems: fields that are never written, and the run cut at one iteration -/

theorem findStep_static (K : ImplDecls) (s : Explorer) (i : Nat) (s2 : Explorer)
    (h : findStep K s i = some s2) (m : Nat) (c2 : Component)
    (hc2 : s2.mComponents[m]? = some c2) : ∃ c, s.mComponents[m]? = some c ∧ SameShape c c2 := by
  obtain ⟨s1, me, myLast, mw, hopen, hcase⟩ := findStep_spec K s i s2 h
  have ho := openTrajectory_spec K s i s1 me myLast mw hopen
  obtain ⟨me0, hme0, f1, f2, f3, f4⟩ := ho.fields
  have hi : i < s.mComponents.length := (List.getElem?_eq_some_iff.mp hme0).1
  rcases hcase with h2 | ⟨j, c, hij, hc, hok, h2⟩
  · subst h2
    rw [ho.comps] at hc2
    by_cases hmi : m = i
    · subst hmi
      simp only [List.getElem?_set_self hi, Option.some.injEq] at hc2
      subst hc2
      exact ⟨me0, hme0, f1, f2, f3, f4⟩
    · rw [List.getElem?_set_ne (Ne.symm hmi)] at hc2
      exact ⟨c2, hc2, rfl, rfl, rfl, rfl⟩
  · subst h2
    simp only [linked] at hc2
    by_cases hmi : m = i
    · subst hmi
      have hlen : m < (s1.mComponents.set j { c with trajectory := me.trajectory }).length := by
        simp [ho.comps, hi]
      simp only [List.getElem?_set_self hlen, Option.some.injEq] at hc2
      subst hc2
      exact ⟨me0, hme0, f1, f2, f3, f4⟩
    · rw [List.getElem?_set_ne (Ne.symm hmi)] at hc2
      by_cases hmj : m = j
      · subst hmj
        have hlt := (List.getElem?_eq_some_iff.mp hc).1
        simp only [List.getElem?_set_self hlt, Option.some.injEq] at hc2
        subst hc2
        rw [ho.comps, List.getElem?_set_ne (Ne.symm hmi)] at hc
        exact ⟨c, hc, rfl, rfl, rfl, rfl⟩
      · rw [List.getElem?_set_ne (Ne.symm hmj), ho.comps,
          List.getElem?_set_ne (Ne.symm hmi)] at hc2
        exact ⟨c2, hc2, rfl, rfl, rfl, rfl⟩

theorem findLoop_static (K : ImplDecls) (k : Nat) : ∀ (i : Nat) (s s2 : Explorer),
    findLoop K k i s = some s2 → ∀ (m : Nat) (c2 : Component), s2.mComponents[m]? = some c2 →
      ∃ c, s.mComponents[m]? = some c ∧ SameShape c c2 := by
  induction k with
  | zero =>
    intro i s s2 h m c2 hc2
    simp only [findLoop, Option.some.injEq] at h
    subst h
    exact ⟨c2, hc2, rfl, rfl, rfl, rfl⟩
  | succ k ih =>
    intro i s s2 h m c2 hc2
    simp only [findLoop] at h
    split at h
    · cases h
    · rename_i s1 hstep
      obtain ⟨c1, hc1, g1, g2, g3, g4⟩ := ih (i + 1) s1 s2 h m c2 hc2
      obtain ⟨c, hc, e1, e2, e3, e4⟩ := findStep_static K s i s1 hstep m c1 hc1
      exact ⟨c, hc, by rw [g1, e1], by rw [g2, e2], by rw [g3, e3], by rw [g4, e4]⟩

theorem findLoop_add (K : ImplDecls) (a b : Nat) : ∀ (i : Nat) (s : Explorer),
    findLoop K (a + b) i s = (findLoop K a i s).bind (findLoop K b (i + a)) := by
  induction a with
  | zero => intro i s; simp [findLoop]
  | succ a ih =>
    intro i s
    have hab : a + 1 + b = (a + b) + 1 := by omega
    rw [hab]
    simp only [findLoop]
    cases findStep K s i with
    | none => rfl
    | some s1 =>
      simp only [ih (i + 1) s1]
      have hia : i + 1 + a = i + (a + 1) := by omega
      rw [hia]

/-- The run of `findTrajectories`, cut at iteration `i`. -/
theorem findTrajectories_at (K : ImplDecls) (s sEnd : Explorer)
    (h : findTrajectories K s = some sEnd) (i : Nat) (hi : i < s.mComponents.length) :
    ∃ sPre sMid, findPrefix K s i = some sPre ∧ findStep K sPre i = some sMid ∧
      findLoop K (s.mComponents.length - (i + 1)) (i + 1) sMid = some sEnd := by
  unfold findTrajectories at h
  have hsplit : s.mComponents.length = i + ((s.mComponents.length - (i + 1)) + 1) := by omega
  rw [hsplit, findLoop_add] at h
  cases hpre : findLoop K i 0 { s with mTrajectories := [] } with
  | none => rw [hpre] at h; cases h
  | some sPre =>
    rw [hpre] at h
    simp only [Option.some_bind, Nat.zero_add, findLoop] at h
    split at h
    · cases h
    · rename_i sMid hstep
      exact ⟨sPre, sMid, hpre, hstep, h⟩

/-- Everything `analyzeTrajectories` reads for one trajectory built by `findTrajectories`
exists, and the chain walk ends at the chain's final component. -/
theorem walk_of_found (K : ImplDecls) (s s1 : Explorer)
    (hn : s.mComponents.length ≤ 32768) (hfind : findTrajectories K s = some s1)
    (t : Trajectory) (ht : t ∈ s1.mTrajectories) :
    ∃ fc cnt0 e ce fs ls, getAt s1.mComponents t.first = some fc ∧
      walkChain K s1.mComponents s1.mComponents.length 0 t.first fc = some (cnt0, e, ce) ∧
      getAt s1.mStrips fc.first = some fs ∧ getAt s1.mStrips ce.last = some ls ∧
      getAt s1.mComponents e = some ce ∧ ce.next = K.NO_COMPONENT ∧
      (chainIndices K s1.mComponents s1.mComponents.length t.first).getLast? = some e ∧
      e < 32768 := by
  obtain ⟨-, i2, i3, i4⟩ := findTrajectories_inv K s s1 hn hfind
  obtain ⟨m, hm, hfirst⟩ := i4 t ht
  have hfc : s1.mComponents[m]? = some s1.mComponents[m] := List.getElem?_eq_getElem hm
  have hfc2 : getAt s1.mComponents t.first = some s1.mComponents[m] := by
    rw [hfirst, getAt_natCast]; exact hfc
  obtain ⟨⟨cnt0, e, ce⟩, hwalk⟩ := walkChain_total K s1.mComponents
    (fun m c hc => (i3 m c hc).1) s1.mComponents.length 0 m _ hfc (by omega)
  rw [← hfirst] at hwalk
  obtain ⟨a1, a2, a3, -⟩ := walkChain_chain K s1.mComponents _ _ _ _ _ _ _ hfc2 hwalk
  obtain ⟨-, ⟨fs, hfs⟩, -⟩ := i3 m _ hfc
  obtain ⟨e0, e1⟩ := getAt_eq_some a1
  obtain ⟨-, -, ⟨ls, hls⟩⟩ := i3 e.toNat ce e1
  have e2 := (getAt_lt_length a1).2
  exact ⟨_, cnt0, e, ce, fs, ls, hfc2, hwalk, hfs, hls, a1, a2, a3, by omega⟩

/-! ## Theorems: claims about the trajectory stage -/

/-- C1 (the code departs from the claim): for a trajectory whose chain is the single component
`c`, the total number of linked strips is `c.numStrips`, but `analyzeTrajectories` compares
`2 * c.numStrips` with `MIN_STRIPS`: whenever `MIN_STRIPS ≤ 2 * c.numStrips` the trajectory is
scored with its displacement, also when `c.numStrips < MIN_STRIPS`. -/
theorem analyzeTrajectory_counts_lone_component_twice (K : ImplDecls) (strips : List Strip)
    (comps : List Component) (t : Trajectory) (c : Component) (fs ls : Strip)
    (hc : getAt comps t.first = some c) (hnext : c.next = K.NO_COMPONENT)
    (hfs : getAt strips c.first = some fs) (hls : getAt strips c.last = some ls)
    (hmin : K.MIN_STRIPS ≤ 2 * c.numStrips) :
    linkedStrips K comps t.first = c.numStrips ∧
    countedStrips K comps t = some (2 * c.numStrips) ∧
    analyzeTrajectory K strips comps t =
      some { t with last := toInt16 t.first, score := ⟨sqDist fs ls⟩ } := by
  have hlen := getAt_lt_length hc
  obtain ⟨n, hn⟩ : ∃ n, comps.length = n + 1 := ⟨comps.length - 1, by omega⟩
  have hwalk : walkChain K comps comps.length 0 t.first c = some (c.numStrips, t.first, c) := by
    rw [hn]; simp [walkChain, hnext]
  refine ⟨?_, ?_, ?_⟩
  · simp [linkedStrips, hn, chainIndices, hc, hnext]
  · simp only [countedStrips, hc, hwalk]; congr 1; ring
  · rw [analyzeTrajectory_eq K strips comps t c c _ _ fs ls hc hwalk hfs hls]
    have : ¬ (c.numStrips + c.numStrips < K.MIN_STRIPS) := by omega
    simp [this]

/-- C1, at a scene of one component of three strips with `MIN_STRIPS = 4`: the trajectory
links `MIN_STRIPS - 1` strips, and its score is `sqrt(100)`, not 0. -/
theorem analyzeTrajectory_counts_lone_component_twice_witness :
    findTrajectories demoDecls loneScene = some loneSceneFound ∧
    linkedStrips demoDecls loneSceneFound.mComponents 0 = demoDecls.MIN_STRIPS - 1 ∧
    countedStrips demoDecls loneSceneFound.mComponents ⟨0, 0, 10, ⟨0⟩⟩ = some 6 ∧
    analyzeTrajectory demoDecls loneSceneFound.mStrips loneSceneFound.mComponents
      ⟨0, 0, 10, ⟨0⟩⟩ = some ⟨0, 0, 10, ⟨100⟩⟩ :=
  ⟨by decide,
   analyzeTrajectory_counts_lone_component_twice demoDecls loneSceneFound.mStrips
    loneSceneFound.mComponents ⟨0, 0, 10, ⟨0⟩⟩ ⟨0, 2, 3, 2, -1, 0⟩ ⟨0, 10, 2⟩ ⟨10, 10, 2⟩
    (by decide) (by decide) (by decide) (by decide) (by decide)⟩

/-- C3: if `findTrajectories` links component `i` to component `j` (`next(i) = j`, not the
sentinel), then the x coordinate of the first strip of `j` minus the x coordinate of the last
strip of `i` is at most the `maxWidth` that the trajectory of `i` had when `i` was scanned,
that is, in the state right after `openTrajectory` in iteration `i`. The components need not
be sorted for this. -/
theorem findTrajectories_link_within_maxWidth (K : ImplDecls) (s sEnd : Explorer)
    (hn : s.mComponents.length ≤ 32768) (hfind : findTrajectories K s = some sEnd)
    (i j : Nat) (ci : Component) (hci : sEnd.mComponents[i]? = some ci)
    (hlink : ci.next = (j : Int)) (hsent : ci.next ≠ K.NO_COMPONENT) :
    ∃ sPre s1 me myLast mw t cj candFirst,
      findPrefix K s i = some sPre ∧ openTrajectory K sPre i = some (s1, me, myLast, mw) ∧
      getAt s1.mTrajectories ci.trajectory = some t ∧ t.maxWidth = mw ∧
      getAt sEnd.mStrips ci.last = some myLast ∧
      sEnd.mComponents[j]? = some cj ∧ getAt sEnd.mStrips cj.first = some candFirst ∧
      candFirst.x - myLast.x ≤ t.maxWidth := by
  obtain ⟨-, i2, -, -⟩ := findTrajectories_inv K s sEnd hn hfind
  have hi : i < s.mComponents.length := by
    have := (List.getElem?_eq_some_iff.mp hci).1
    omega
  obtain ⟨sPre, sMid, hpre, hstep, hrest⟩ := findTrajectories_at K s sEnd hfind i hi
  obtain ⟨-, p2, -⟩ := findLoop_inv K i 0 { s with mTrajectories := [] } sPre hn hpre
  simp only at p2
  obtain ⟨m1, m2, -⟩ := findStep_inv K sPre i sMid (by omega) hstep
  obtain ⟨r1, r2, r3, -⟩ := findLoop_inv K _ (i + 1) sMid sEnd (by omega) hrest
  have hmid : sMid.mComponents[i]? = some ci := by rw [← r3 i (by omega)]; exact hci
  obtain ⟨s1, me, myLast, mw, hopen, hcase⟩ := findStep_spec K sPre i sMid hstep
  have ho := openTrajectory_spec K sPre i s1 me myLast mw hopen
  have hi1 : i < sPre.mComponents.length := by omega
  rcases hcase with h2 | ⟨j1, c, hij, hc, hok, h2⟩
  · subst h2
    rw [ho.comps, List.getElem?_set_self hi1] at hmid
    simp only [Option.some.injEq] at hmid
    subst hmid
    exact absurd ho.next hsent
  · subst h2
    have hj1 : j1 < sPre.mComponents.length := by
      have := (List.getElem?_eq_some_iff.mp hc).1
      simpa [ho.comps] using this
    have hlen : i < (s1.mComponents.set j1 { c with trajectory := me.trajectory }).length := by
      simp [ho.comps, hi1]
    simp only [linked, List.getElem?_set_self hlen, Option.some.injEq] at hmid
    subst hmid
    simp only at hlink hsent ⊢
    have hjj : j1 = j := by
      have := toInt16_of_range (j1 : Int) (by omega) (by omega)
      rw [this] at hlink
      exact_mod_cast hlink
    subst hjj
    obtain ⟨t, ht, htw⟩ := ho.traj
    obtain ⟨cf, hcf, hdx, -⟩ := hok.candFirst
    have hjEnd : j1 < sEnd.mComponents.length := by omega
    obtain ⟨c1, hc1, g1, -⟩ := findLoop_static K _ (i + 1) _ sEnd hrest j1 sEnd.mComponents[j1]
      (List.getElem?_eq_getElem hjEnd)
    have hc1eq : c1 = { c with trajectory := me.trajectory } := by
      have hlt := (List.getElem?_eq_some_iff.mp hc).1
      simp only [linked, List.getElem?_set_ne (Nat.ne_of_lt hij), List.getElem?_set_self hlt,
        Option.some.injEq] at hc1
      exact hc1.symm
    subst hc1eq
    simp only at g1
    refine ⟨sPre, s1, me, myLast, mw, t, sEnd.mComponents[j1], cf, hpre, hopen, ht, htw, ?_,
      List.getElem?_eq_getElem hjEnd, ?_, by rw [htw]; exact hdx⟩
    · rw [r1]; simp only [linked]; rw [ho.strips]; exact ho.last
    · rw [r1, g1]; exact hcf

/-- C3 at the scene with components at x = 0, 5 and 40: the first component (3 wide) is linked
to the second (gap 2), which raises the running `maxWidth` to 5; the third (gap 30) is linked
into no chain and gets a trajectory of its own. -/
theorem findTrajectories_link_within_maxWidth_witness :
    demoScene.mComponents.length ≤ 32768 ∧
    findTrajectories demoDecls demoScene = some demoSceneFound ∧
    (∃ sPre s1 me myLast mw t cj candFirst,
      findPrefix demoDecls demoScene 0 = some sPre ∧
      openTrajectory demoDecls sPre 0 = some (s1, me, myLast, mw) ∧
      getAt s1.mTrajectories (0 : Int) = some t ∧ t.maxWidth = mw ∧
      getAt demoSceneFound.mStrips (3 : Int) = some myLast ∧
      demoSceneFound.mComponents[1]? = some cj ∧
      getAt demoSceneFound.mStrips cj.first = some candFirst ∧
      candFirst.x - myLast.x ≤ t.maxWidth) ∧
    demoSceneFound.mComponents.map Component.next = [1, -1, -1] ∧
    demoSceneFound.mComponents.map Component.trajectory = [0, 0, 1] :=
  ⟨by decide, by decide,
    findTrajectories_link_within_maxWidth demoDecls demoScene demoSceneFound (by decide)
      (by decide) 0 1 ⟨0, 3, 4, 2, 1, 0⟩ (by decide) (by decide) (by decide),
    by decide, by decide⟩

/-! ## Theorems: buffers and byte counts -/

theorem resizeVec_length (v : List Nat) (n : Nat) : (resizeVec v n).length = n := by
  simp only [resizeVec, List.length_append, List.length_take, List.length_replicate]
  omega

theorem overwrite_length (buf out : List Nat) : (overwrite buf out).length = buf.length := by
  simp only [overwrite, List.length_append, List.length_take, List.length_drop]
  omega

theorem overwrite_full (buf out : List Nat) (h : out.length = buf.length) :
    overwrite buf out = out := by
  simp only [overwrite]
  rw [List.take_of_length_le (by omega), List.drop_of_length_le (by omega), List.append_nil]

theorem toSizeT_natCast (a : Nat) (ha : a < 2 ^ 64) : toSizeT (a : Int) = a := by
  unfold toSizeT
  have h : ((a : Int) % 2 ^ 64) = (a : Int) := Int.emod_eq_of_lt (by omega) (by exact_mod_cast ha)
  rw [h]; simp

theorem getNumBytes_natCast (a b : Nat) (ha : a < 2 ^ 31) (hb : b < 2 ^ 31) :
    getNumBytes .GRAY ⟨a, b⟩ = .ok (a * b) ∧ getNumBytes .BGR ⟨a, b⟩ = .ok (3 * (a * b)) ∧
    getNumBytes .YUV420SP ⟨a, b⟩ = .ok (3 * (a * b) / 2) := by
  have hab : a * b < 2 ^ 31 * 2 ^ 31 := Nat.mul_lt_mul'' ha hb
  have h1 : a * b % 2 ^ 64 = a * b := Nat.mod_eq_of_lt (by omega)
  have h3 : a * b * 3 % 2 ^ 64 = 3 * (a * b) := by
    rw [Nat.mod_eq_of_lt (by omega)]; ring
  simp only [getNumBytes, toSizeT_natCast a (by omega), toSizeT_natCast b (by omega), h1, h3,
    and_self]

/-! ## Theorems: claims about image buffers -/

/-- C4: for dimensions in the non-negative range of `int`, `getNumBytes` returns
`width*height` for GRAY, `3*width*height` for BGR and `floor(3*width*height/2)` for YUV420SP;
for every other format (UNKNOWN) it throws; and whenever `getNumBytes` returns `n`, the buffer
of an image has exactly `n` bytes after `resize`, and after `assign` from an array of at least
`n` bytes. -/
theorem getNumBytes_exact (w h : Int) (hw0 : 0 ≤ w) (hw1 : w < 2 ^ 31) (hh0 : 0 ≤ h)
    (hh1 : h < 2 ^ 31) :
    (∃ n : Nat, getNumBytes .GRAY ⟨w, h⟩ = .ok n ∧ (n : Int) = w * h) ∧
    (∃ n : Nat, getNumBytes .BGR ⟨w, h⟩ = .ok n ∧ (n : Int) = 3 * w * h) ∧
    (∃ n : Nat, getNumBytes .YUV420SP ⟨w, h⟩ = .ok n ∧ (n : Int) = 3 * w * h / 2) ∧
    (∀ format : Format, format ≠ .GRAY → format ≠ .BGR → format ≠ .YUV420SP →
      getNumBytes format ⟨w, h⟩ = .error (.runtime_error .getNumBytesUnsupported)) ∧
    (∀ (img : Image) (format : Format) (n : Nat) (data : List Nat),
      getNumBytes format ⟨w, h⟩ = .ok n →
      ((img.resize format ⟨w, h⟩).raised = none ∧
        (img.resize format ⟨w, h⟩).state.mData.length = n) ∧
      (n ≤ data.length → (img.assign format ⟨w, h⟩ data).raised = none ∧
        (img.assign format ⟨w, h⟩ data).state.mData.length = n)) := by
  obtain ⟨a, rfl⟩ := Int.eq_ofNat_of_zero_le hw0
  obtain ⟨b, rfl⟩ := Int.eq_ofNat_of_zero_le hh0
  obtain ⟨g1, g2, g3⟩ := getNumBytes_natCast a b (by omega) (by omega)
  refine ⟨⟨_, g1, by push_cast; ring⟩, ⟨_, g2, by push_cast; ring⟩, ⟨_, g3, ?_⟩, ?_, ?_⟩
  · push_cast
    congr 1; ring
  · intro format h1 h2 h3
    cases format <;> simp_all [getNumBytes]
  · intro img format n data hn
    refine ⟨?_, ?_⟩
    · simp [Image.resize, hn, resizeVec_length]
    · intro hlen
      simp [Image.assign, hn, hlen, overwrite_length, resizeVec_length]

/-- C4 at the 4x2 image of the tests. -/
theorem getNumBytes_exact_witness :
    (∃ n : Nat, getNumBytes .GRAY ⟨4, 2⟩ = .ok n ∧ (n : Int) = 4 * 2) ∧
    (∃ n : Nat, getNumBytes .BGR ⟨4, 2⟩ = .ok n ∧ (n : Int) = 3 * 4 * 2) ∧
    (∃ n : Nat, getNumBytes .YUV420SP ⟨4, 2⟩ = .ok n ∧ (n : Int) = 3 * 4 * 2 / 2) ∧
    (∀ format : Format, format ≠ .GRAY → format ≠ .BGR → format ≠ .YUV420SP →
      getNumBytes format ⟨4, 2⟩ = .error (.runtime_error .getNumBytesUnsupported)) ∧
    (∀ (img : Image) (format : Format) (n : Nat) (data : List Nat),
      getNumBytes format ⟨4, 2⟩ = .ok n →
      ((img.resize format ⟨4, 2⟩).raised = none ∧
        (img.resize format ⟨4, 2⟩).state.mData.length = n) ∧
      (n ≤ data.length → (img.assign format ⟨4, 2⟩ data).raised = none ∧
        (img.assign format ⟨4, 2⟩ data).state.mData.length = n)) :=
  getNumBytes_exact 4 2 (by decide) (by decide) (by decide) (by decide)

/-- C5: for every supported format (any but UNKNOWN), all dims and every source array of at
least `getNumBytes(format, dims)` bytes, `Image::assign` does not throw and leaves an image
with the given format and dims whose buffer has exactly `getNumBytes(format, dims)` bytes,
equal to the first that many bytes of the source. -/
theorem assign_copies_source (img : Image) (format : Format) (dims : Dims) (data : List Nat)
    (hf : format ≠ .UNKNOWN) :
    ∃ n, getNumBytes format dims = .ok n ∧
      (n ≤ data.length →
        (img.assign format dims data).raised = none ∧
        (img.assign format dims data).state.mFormat = format ∧
        (img.assign format dims data).state.mDims = dims ∧
        (img.assign format dims data).state.mData.length = n ∧
        (img.assign format dims data).state.mData = data.take n) := by
  obtain ⟨n, hn⟩ : ∃ n, getNumBytes format dims = .ok n := by
    cases format
    · exact absurd rfl hf
    all_goals exact ⟨_, rfl⟩
  refine ⟨n, hn, ?_⟩
  intro hlen
  have hfull : overwrite (resizeVec img.mData n) (data.take n) = data.take n :=
    overwrite_full _ _ (by rw [resizeVec_length, List.length_take]; omega)
  simp only [Image.assign, hn, hlen, if_true, hfull, List.length_take, true_and]
  exact ⟨Nat.min_eq_left hlen, trivial⟩

/-- C5 at the BGR image of the tests, assigned to an image that held the GRAY one. -/
theorem assign_copies_source_witness :
    Format.BGR ≠ Format.UNKNOWN ∧
    (Image.assign ⟨.GRAY, IM_4X2_DIMS, IM_4x2_GRAY⟩ .BGR IM_4X2_DIMS IM_4x2_BGR =
      ⟨⟨.BGR, IM_4X2_DIMS, IM_4x2_BGR⟩, none⟩) ∧
    ∃ n, getNumBytes .BGR IM_4X2_DIMS = .ok n ∧
      (n ≤ IM_4x2_BGR.length →
        (Image.assign ⟨.GRAY, IM_4X2_DIMS, IM_4x2_GRAY⟩ .BGR IM_4X2_DIMS IM_4x2_BGR).raised
          = none ∧
        (Image.assign ⟨.GRAY, IM_4X2_DIMS, IM_4x2_GRAY⟩ .BGR IM_4X2_DIMS
          IM_4x2_BGR).state.mFormat = .BGR ∧
        (Image.assign ⟨.GRAY, IM_4X2_DIMS, IM_4x2_GRAY⟩ .BGR IM_4X2_DIMS
          IM_4x2_BGR).state.mDims = IM_4X2_DIMS ∧
        (Image.assign ⟨.GRAY, IM_4X2_DIMS, IM_4x2_GRAY⟩ .BGR IM_4X2_DIMS
          IM_4x2_BGR).state.mData.length = n ∧
        (Image.assign ⟨.GRAY, IM_4X2_DIMS, IM_4x2_GRAY⟩ .BGR IM_4X2_DIMS
          IM_4x2_BGR).state.mData = IM_4x2_BGR.take n) :=
  ⟨by decide, by decide,
    assign_copies_source ⟨.GRAY, IM_4X2_DIMS, IM_4x2_GRAY⟩ .BGR IM_4X2_DIMS IM_4x2_BGR
      (by decide)⟩

/-- C6 (as stated, refuted): `Image::assign` is given the 12 bytes of the YUV420SP test image
under the format GRAY and the dims 4x2, for which 8 bytes are expected; it raises nothing and
keeps the first 8 bytes. -/
theorem assign_accepts_mismatched_count :
    getNumBytes .GRAY IM_4X2_DIMS = .ok 8 ∧ IM_4x2_YUV420SP.length = 12 ∧
    Image.assign Image.default .GRAY IM_4X2_DIMS IM_4x2_YUV420SP =
      ⟨⟨.GRAY, IM_4X2_DIMS, IM_4x2_GRAY⟩, none⟩ := by
  decide

/-- C6 (amended): `Image::assign` receives a pointer and no byte count, and compares no sizes.
It throws exactly when the format is unsupported (the error of `getNumBytes`), and then leaves
the image as it was; for a supported format and a source array of at least
`getNumBytes(format, dims)` bytes, also a longer one, it raises nothing; with a shorter array
it reads past the end of the array. -/
theorem assign_throws_iff_unsupported (img : Image) (format : Format) (dims : Dims)
    (data : List Nat) :
    ((∃ w, (img.assign format dims data).raised = some (.runtime_error w)) ↔
      format = .UNKNOWN) ∧
    (format = .UNKNOWN → (img.assign format dims data).state = img) ∧
    (∀ n, getNumBytes format dims = .ok n →
      ((img.assign format dims data).raised = none ↔ n ≤ data.length) ∧
      ((img.assign format dims data).raised = some .outOfBounds ↔ data.length < n)) := by
  cases format
  · simp [Image.assign, getNumBytes]
  all_goals
    refine ⟨?_, ?_, ?_⟩
    · simp only [Image.assign, getNumBytes]
      split <;> simp
    · intro h; cases h
    · intro n hn
      simp only [Image.assign, hn]
      split
      · rename_i hle
        simp only [true_iff, false_iff, not_lt, reduceCtorEq]
        exact ⟨hle, hle⟩
      · rename_i hle
        simp only [false_iff, true_iff, reduceCtorEq, not_false_eq_true]
        exact ⟨hle, by omega⟩

/-- C7: for a source of a supported format and a destination image other than the source,
`convert(src, dst, f)` raises nothing if and only if `f` is the source format or the pair
(source format, `f`) is one of (BGR, GRAY), (GRAY, BGR), (YUV420SP, BGR), (YUV420SP, GRAY);
then the destination has format `f` and the dims of the source; for every other pair the call
throws `std::runtime_error`. -/
theorem convert_succeeds_iff (cv : Cv) (src d : Image) (f : Format)
    (hs : src.mFormat ≠ .UNKNOWN) :
    ((convert cv src (.other d) f).raised = none ↔
      (f = src.mFormat ∨ (src.mFormat = .BGR ∧ f = .GRAY) ∨ (src.mFormat = .GRAY ∧ f = .BGR) ∨
        (src.mFormat = .YUV420SP ∧ f = .BGR) ∨ (src.mFormat = .YUV420SP ∧ f = .GRAY))) ∧
    ((convert cv src (.other d) f).raised = none →
      (convert cv src (.other d) f).state.mFormat = f ∧
      (convert cv src (.other d) f).state.mDims = src.mDims) ∧
    ((convert cv src (.other d) f).raised ≠ none →
      ∃ w, (convert cv src (.other d) f).raised = some (.runtime_error w)) := by
  obtain ⟨sf, sd, sdata⟩ := src
  cases sf <;> cases f <;>
    simp_all [convert, copy, copyPixels, convertInto, Image.resize, Image.wrap, getNumBytes,
      getCvSize, getCvType, conversionCode]

/-- C7 at the BGR image of the tests, converted to GRAY with the stand-in for OpenCV. -/
theorem convert_succeeds_iff_witness :
    Format.BGR ≠ Format.UNKNOWN ∧
    (convert demoCv ⟨.BGR, IM_4X2_DIMS, IM_4x2_BGR⟩ (.other Image.default) .GRAY).raised
      = none ∧
    (convert demoCv ⟨.BGR, IM_4X2_DIMS, IM_4x2_BGR⟩ (.other Image.default) .YUV420SP).raised
      = some (.runtime_error .convertFailed) ∧
    (((convert demoCv ⟨.BGR, IM_4X2_DIMS, IM_4x2_BGR⟩ (.other Image.default) .GRAY).raised
        = none ↔
      (Format.GRAY = Format.BGR ∨ (Format.BGR = Format.BGR ∧ Format.GRAY = Format.GRAY) ∨
        (Format.BGR = Format.GRAY ∧ Format.GRAY = Format.BGR) ∨
        (Format.BGR = Format.YUV420SP ∧ Format.GRAY = Format.BGR) ∨
        (Format.BGR = Format.YUV420SP ∧ Format.GRAY = Format.GRAY))) ∧
    ((convert demoCv ⟨.BGR, IM_4X2_DIMS, IM_4x2_BGR⟩ (.other Image.default) .GRAY).raised
        = none →
      (convert demoCv ⟨.BGR, IM_4X2_DIMS, IM_4x2_BGR⟩ (.other Image.default)
        .GRAY).state.mFormat = .GRAY ∧
      (convert demoCv ⟨.BGR, IM_4X2_DIMS, IM_4x2_BGR⟩ (.other Image.default)
        .GRAY).state.mDims = IM_4X2_DIMS) ∧
    ((convert demoCv ⟨.BGR, IM_4X2_DIMS, IM_4x2_BGR⟩ (.other Image.default) .GRAY).raised
        ≠ none →
      ∃ w, (convert demoCv ⟨.BGR, IM_4X2_DIMS, IM_4x2_BGR⟩ (.other Image.default)
        .GRAY).raised = some (.runtime_error w))) :=
  ⟨by decide, by decide, by decide,
    convert_succeeds_iff demoCv ⟨.BGR, IM_4X2_DIMS, IM_4x2_BGR⟩ Image.default .GRAY
      (by decide)⟩

/-- C9: for a BGR image of dims `(w, h)` in the non-negative range of `int`, converting it to
GRAY into a second image and that result to BGR into a third raises nothing; the second image
is GRAY with dims `(w, h)` and exactly `w*h` bytes, the third is BGR with dims `(w, h)` and
exactly `3*w*h` bytes. -/
theorem convert_bgr_gray_bgr (cv : Cv) (src d1 d2 : Image) (hf : src.mFormat = .BGR)
    (hw0 : 0 ≤ src.mDims.width) (hw1 : src.mDims.width < 2 ^ 31)
    (hh0 : 0 ≤ src.mDims.height) (hh1 : src.mDims.height < 2 ^ 31) :
    (convert cv src (.other d1) .GRAY).raised = none ∧
    (convert cv src (.other d1) .GRAY).state.mFormat = .GRAY ∧
    (convert cv src (.other d1) .GRAY).state.mDims = src.mDims ∧
    ((convert cv src (.other d1) .GRAY).state.mData.length : Int) =
      src.mDims.width * src.mDims.height ∧
    (convert cv (convert cv src (.other d1) .GRAY).state (.other d2) .BGR).raised = none ∧
    (convert cv (convert cv src (.other d1) .GRAY).state (.other d2) .BGR).state.mFormat
      = .BGR ∧
    (convert cv (convert cv src (.other d1) .GRAY).state (.other d2) .BGR).state.mDims
      = src.mDims ∧
    ((convert cv (convert cv src (.other d1) .GRAY).state (.other d2)
      .BGR).state.mData.length : Int) = 3 * src.mDims.width * src.mDims.height := by
  obtain ⟨sf, ⟨w, h⟩, sdata⟩ := src
  simp only at hf hw0 hw1 hh0 hh1
  subst hf
  obtain ⟨a, rfl⟩ := Int.eq_ofNat_of_zero_le hw0
  obtain ⟨b, rfl⟩ := Int.eq_ofNat_of_zero_le hh0
  obtain ⟨g1, g2, -⟩ := getNumBytes_natCast a b (by omega) (by omega)
  have e1 : convert cv ⟨.BGR, ⟨a, b⟩, sdata⟩ (.other d1) .GRAY =
      ⟨⟨.GRAY, ⟨a, b⟩, overwrite (resizeVec d1.mData (a * b))
        (cv.cvtColor ⟨⟨a, b⟩, .CV_8UC3, sdata⟩ .COLOR_BGR2GRAY)⟩, none⟩ := by
    simp [convert, convertInto, Image.resize, Image.wrap, g1, getCvSize, getCvType,
      conversionCode]
  rw [e1]
  have e2 : ∀ data1, convert cv ⟨.GRAY, ⟨a, b⟩, data1⟩ (.other d2) .BGR =
      ⟨⟨.BGR, ⟨a, b⟩, overwrite (resizeVec d2.mData (3 * (a * b)))
        (cv.cvtColor ⟨⟨a, b⟩, .CV_8UC1, data1⟩ .COLOR_GRAY2BGR)⟩, none⟩ := by
    intro data1
    simp [convert, convertInto, Image.resize, Image.wrap, g2, getCvSize, getCvType,
      conversionCode]
  rw [e2]
  simp only [overwrite_length, resizeVec_length, true_and]
  refine ⟨by push_cast; ring, by push_cast; ring⟩

/-- C9 at the BGR image of the tests. -/
theorem convert_bgr_gray_bgr_witness :
    (convert demoCv ⟨.BGR, IM_4X2_DIMS, IM_4x2_BGR⟩ (.other Image.default) .GRAY).raised
      = none ∧
    (convert demoCv ⟨.BGR, IM_4X2_DIMS, IM_4x2_BGR⟩ (.other Image.default) .GRAY).state.mFormat
      = .GRAY ∧
    (convert demoCv ⟨.BGR, IM_4X2_DIMS, IM_4x2_BGR⟩ (.other Image.default) .GRAY).state.mDims
      = IM_4X2_DIMS ∧
    ((convert demoCv ⟨.BGR, IM_4X2_DIMS, IM_4x2_BGR⟩ (.other Image.default)
      .GRAY).state.mData.length : Int) = 4 * 2 ∧
    (convert demoCv (convert demoCv ⟨.BGR, IM_4X2_DIMS, IM_4x2_BGR⟩ (.other Image.default)
      .GRAY).state (.other Image.default) .BGR).raised = none ∧
    (convert demoCv (convert demoCv ⟨.BGR, IM_4X2_DIMS, IM_4x2_BGR⟩ (.other Image.default)
      .GRAY).state (.other Image.default) .BGR).state.mFormat = .BGR ∧
    (convert demoCv (convert demoCv ⟨.BGR, IM_4X2_DIMS, IM_4x2_BGR⟩ (.other Image.default)
      .GRAY).state (.other Image.default) .BGR).state.mDims = IM_4X2_DIMS ∧
    ((convert demoCv (convert demoCv ⟨.BGR, IM_4X2_DIMS, IM_4x2_BGR⟩ (.other Image.default)
      .GRAY).state (.other Image.default) .BGR).state.mData.length : Int) = 3 * 4 * 2 :=
  convert_bgr_gray_bgr demoCv ⟨.BGR, IM_4X2_DIMS, IM_4x2_BGR⟩ Image.default Image.default
    (by decide) (by decide) (by decide) (by decide) (by decide)

theorem resizeAll_within (W H : Int) : ∀ (calls : List (Format × Dims)) (r : Region),
    r.mDims.width ≤ W → r.mDims.height ≤ H →
    (r.resizeAll calls).mDims.width ≤ W ∧ (r.resizeAll calls).mDims.height ≤ H := by
  intro calls
  induction calls with
  | nil => intro r hw hh; exact ⟨hw, hh⟩
  | cons c rest ih =>
    intro r hw hh
    obtain ⟨format, dims⟩ := c
    simp only [Region.resizeAll]
    apply ih
    · simp only [Region.resize]
      split
      · exact hw
      · rename_i hgrow
        simp only [not_or, not_lt] at hgrow
        exact le_trans hgrow.1 hw
    · simp only [Region.resize]
      split
      · exact hh
      · rename_i hgrow
        simp only [not_or, not_lt] at hgrow
        exact le_trans hgrow.2 hh

/-- C10: after any sequence of `Region::resize` calls, successful or failing, the width and
height of a region do not exceed the width and height it was constructed with, and a further
`resize` that requests a width or a height larger than the constructed one throws "a region
must not grow in size" and leaves the region as it was. -/
theorem region_never_grows (format : Format) (pos : Pos) (dims : Dims) (data rowStep : Nat)
    (calls : List (Format × Dims)) :
    ((Region.new format pos dims data rowStep).resizeAll calls).mDims.width ≤ dims.width ∧
    ((Region.new format pos dims data rowStep).resizeAll calls).mDims.height ≤ dims.height ∧
    ∀ (f : Format) (d : Dims), d.width > dims.width ∨ d.height > dims.height →
      (((Region.new format pos dims data rowStep).resizeAll calls).resize f d).raised =
        some (.runtime_error .regionMustNotGrow) ∧
      (((Region.new format pos dims data rowStep).resizeAll calls).resize f d).state =
        (Region.new format pos dims data rowStep).resizeAll calls := by
  obtain ⟨hw, hh⟩ := resizeAll_within dims.width dims.height calls
    (Region.new format pos dims data rowStep) (le_refl _) (le_refl _)
  refine ⟨hw, hh, ?_⟩
  intro f d hd
  have hgrow : d.width > ((Region.new format pos dims data rowStep).resizeAll calls).mDims.width ∨
      d.height > ((Region.new format pos dims data rowStep).resizeAll calls).mDims.height := by
    rcases hd with h1 | h1
    · left; omega
    · right; omega
  simp [Region.resize, hgrow]

/-! ## Theorems: claims about strips and about reading images -/

/-- C11: the contact predicate is symmetric: `overlapY(a, b) == overlapY(b, a)` for any two
strips. -/
theorem overlapY_symm (a b : StripRepr) : StripRepr.overlapY a b = StripRepr.overlapY b a := by
  simp only [StripRepr.overlapY]
  congr 1
  apply propext
  constructor <;> intro h <;> split at h <;> split <;> omega

/-- C14: constructing an `Image` from a file with a format other than BGR or GRAY throws
"reading image: unsupported format", whatever `cv::imread` would return for the file name. -/
theorem fromFile_unsupported_format (fs : Files) (filename : String) (format : Format)
    (hb : format ≠ .BGR) (hg : format ≠ .GRAY) :
    Image.fromFile fs filename format = .error (.runtime_error .readingUnsupportedFormat) := by
  cases format
  · rfl
  · exact absurd rfl hg
  · exact absurd rfl hb
  · rfl

/-- C14 with the formats UNKNOWN and YUV420SP, for the file of the tests (which exists) and
for the file name of the tests that names no file; with BGR the same file is read. -/
theorem fromFile_unsupported_format_witness :
    Image.fromFile demoFiles IM_4x2_FILE .UNKNOWN =
      .error (.runtime_error .readingUnsupportedFormat) ∧
    Image.fromFile demoFiles MISSING_FILE .YUV420SP =
      .error (.runtime_error .readingUnsupportedFormat) ∧
    Image.fromFile demoFiles IM_4x2_FILE .BGR = .ok ⟨.BGR, IM_4X2_DIMS, IM_4x2_BGR⟩ ∧
    Image.fromFile demoFiles MISSING_FILE .BGR = .error (.runtime_error .failedToOpenImage) :=
  ⟨fromFile_unsupported_format demoFiles IM_4x2_FILE .UNKNOWN (by decide) (by decide),
    fromFile_unsupported_format demoFiles MISSING_FILE .YUV420SP (by decide) (by decide),
    by decide, by decide⟩

/-! ## Theorems: claims about the level pyramid and the preprocessing -/

theorem decimateIgnored_prev (R : Routines) : ∀ (levels : List IgnoredLevel) (dec : Decimator)
    (prev : Image),
    (decimateIgnored R dec prev levels).2.1 =
      match (decimateIgnored R dec prev levels).2.2.getLast? with
      | some level => level.image
      | none => prev := by
  intro levels
  induction levels with
  | nil => intro dec prev; rfl
  | cons level rest ih =>
    intro dec prev
    simp only [decimateIgnored]
    rw [ih]
    cases hrest : (decimateIgnored R (R.decimate dec prev level.image).1
        (R.decimate dec prev level.image).2 rest).2.2 with
    | nil => simp
    | cons l ls =>
      rw [List.getLast?_cons_cons, List.getLast?_eq_getLast _ (List.cons_ne_nil l ls)]

/-- C12: `createLevelPyramid` rotates the rings by swaps. If the source level holds
`(image1, image2, image3) = (a, b, c)` and the caller passes `x`, then afterwards the source
level holds `(x, a, b)` and the caller's object holds `c`. If the processing level holds
`(a, b, c)`, then afterwards it holds `(d, a, b)`, where `d` is what the decimator writes into
the oldest image `c` from the newest image of the preceding level: the last ignored level if
there is one, else the source level. The difference images and the mask are not touched. -/
theorem createLevelPyramid_rotates (R : Routines) (s : ExplorerV1) (x : Image) :
    (createLevelPyramid R s x).1.mSourceLevel =
      { image1 := x, image2 := s.mSourceLevel.image1, image3 := s.mSourceLevel.image2 } ∧
    (createLevelPyramid R s x).2 = s.mSourceLevel.image3 ∧
    (createLevelPyramid R s x).1.mLevel.image2 = s.mLevel.image1 ∧
    (createLevelPyramid R s x).1.mLevel.image3 = s.mLevel.image2 ∧
    (∃ dec : Decimator, (createLevelPyramid R s x).1.mLevel.image1 =
      (R.decimate dec
        (match (createLevelPyramid R s x).1.mIgnoredLevels.getLast? with
          | some level => level.image
          | none => (createLevelPyramid R s x).1.mSourceLevel.image1)
        s.mLevel.image3).2) ∧
    (createLevelPyramid R s x).1.mLevel.diff1 = s.mLevel.diff1 ∧
    (createLevelPyramid R s x).1.mLevel.diff2 = s.mLevel.diff2 ∧
    (createLevelPyramid R s x).1.mLevel.preprocessed = s.mLevel.preprocessed := by
  refine ⟨rfl, rfl, rfl, rfl, ⟨(decimateIgnored R s.mDecimator x s.mIgnoredLevels).1, ?_⟩,
    rfl, rfl, rfl⟩
  simp only [createLevelPyramid, Image.swap]
  rw [← decimateIgnored_prev]

/-- C13: with `n` the value of `mFrameNum`, `preprocess` leaves the mask `preprocessed` as it
was for `n <= 2` and leaves the whole level, so also `diff1` and `diff2`, as it was for
`n <= 1`; for `n >= 3`, when the new difference images and the mask have formats that `wrap`
supports, nothing is thrown and the bitwise OR of the new difference images is written through
the mask. -/
theorem preprocess_warm_up (R : Routines) (n : Int) (level : ProcessedLevel) :
    (n ≤ 2 → (preprocessLevel R n level).state.preprocessed = level.preprocessed ∧
      (preprocessLevel R n level).raised = none) ∧
    (n ≤ 1 → (preprocessLevel R n level).state = level) ∧
    (3 ≤ n → ∀ diff1Mat diff2Mat preprocessedMat,
      (diffStage R level).diff1.wrap = .ok diff1Mat →
      (diffStage R level).diff2.wrap = .ok diff2Mat →
      level.preprocessed.wrap = .ok preprocessedMat →
      (preprocessLevel R n level).raised = none ∧
      (preprocessLevel R n level).state.diff1 = (diffStage R level).diff1 ∧
      (preprocessLevel R n level).state.diff2 = level.diff1 ∧
      (preprocessLevel R n level).state.preprocessed =
        { level.preprocessed with
          mData := overwrite level.preprocessed.mData (R.bitwise_or diff1Mat diff2Mat) }) := by
  refine ⟨?_, ?_, ?_⟩
  · intro hn
    have h3 : ¬ n ≥ 3 := by omega
    simp only [preprocessLevel, h3, if_false]
    split <;> simp [diffStage]
  · intro hn
    have h2 : ¬ n ≥ 2 := by omega
    have h3 : ¬ n ≥ 3 := by omega
    simp [preprocessLevel, h2, h3]
  · intro hn d1 d2 pm hd1 hd2 hpm
    have h2 : n ≥ 2 := by omega
    have h3 : n ≥ 3 := by omega
    have hpre : (diffStage R level).preprocessed = level.preprocessed := rfl
    simp [preprocessLevel, h2, h3, combineStage, hd1, hd2, hpre, hpm]
    simp [diffStage, Image.swap]

/-- C13 at the example level: the second frame leaves the mask alone, the third writes it. -/
theorem preprocess_warm_up_witness :
    (preprocessLevel demoRoutines 2 demoLevel).state.preprocessed = demoLevel.preprocessed ∧
    (preprocessLevel demoRoutines 1 demoLevel).state = demoLevel ∧
    (preprocessLevel demoRoutines 3 demoLevel).raised = none ∧
    (preprocessLevel demoRoutines 3 demoLevel).state.preprocessed =
      ⟨.GRAY, IM_4X2_DIMS, List.replicate 8 255⟩ :=
  ⟨((preprocess_warm_up demoRoutines 2 demoLevel).1 (by decide)).1,
    (preprocess_warm_up demoRoutines 1 demoLevel).2.1 (by decide),
    ((preprocess_warm_up demoRoutines 3 demoLevel).2.2 (by decide)
      ⟨⟨4, 2⟩, .CV_8UC1, List.replicate 8 0⟩ ⟨⟨4, 2⟩, .CV_8UC1, IM_4x2_GRAY⟩
      ⟨⟨4, 2⟩, .CV_8UC1, IM_4x2_GRAY⟩ (by decide) (by decide) (by decide)).1,
    by decide⟩

/-! ## Theorems: the scan in full -/

theorem linkOk_iff (K : ImplDecls) (strips : List Strip) (me : Component) (myLast : Strip)
    (mw : Int) (c : Component) (cf : Strip) (hcf : getAt strips c.first = some cf) :
    LinkOk K strips me myLast mw c ↔
      cf.x - myLast.x ≤ mw ∧ c.trajectory = K.NO_TRAJECTORY ∧
      Fmo.abs (cf.y - myLast.y) ≤ 2 * (cf.x - myLast.x) ∧
      me.approxHalfHeight ≤ 2 * c.approxHalfHeight ∧
      c.approxHalfHeight ≤ 2 * me.approxHalfHeight := by
  constructor
  · intro h
    obtain ⟨cf1, h1, h2, h3⟩ := h.candFirst
    rw [hcf] at h1
    simp only [Option.some.injEq] at h1
    subst h1
    exact ⟨h2, h.unclaimed, h3, h.thickness⟩
  · intro h
    exact ⟨⟨cf, hcf, h.1, h.2.2.1⟩, h.2.1, h.2.2.2⟩

theorem scanCandidates_cons (K : ImplDecls) (strips : List Strip) (me : Component)
    (myLast : Strip) (mw : Int) (c : Component) (rest : List Component) (j : Nat) (cf : Strip)
    (hcf : getAt strips c.first = some cf) :
    (mw < cf.x - myLast.x → scanCandidates K strips me myLast mw (c :: rest) j = some none) ∧
    (LinkOk K strips me myLast mw c →
      scanCandidates K strips me myLast mw (c :: rest) j = some (some j)) ∧
    (cf.x - myLast.x ≤ mw → ¬ LinkOk K strips me myLast mw c →
      scanCandidates K strips me myLast mw (c :: rest) j =
        scanCandidates K strips me myLast mw rest (j + 1)) := by
  rw [linkOk_iff K strips me myLast mw c cf hcf]
  simp only [scanCandidates, hcf]
  refine ⟨?_, ?_, ?_⟩
  · intro h; simp [h]
  · intro h
    obtain ⟨h1, h2, h3, h4, h5⟩ := h
    have e1 : ¬ (cf.x - myLast.x > mw) := by omega
    have e3 : ¬ (Fmo.abs (cf.y - myLast.y) > 2 * (cf.x - myLast.x)) := by omega
    have e4 : ¬ (me.approxHalfHeight > 2 * c.approxHalfHeight ∨
        c.approxHalfHeight > 2 * me.approxHalfHeight) := by omega
    simp [e1, h2, e3, e4]
  · intro h hno
    have e1 : ¬ (cf.x - myLast.x > mw) := by omega
    simp only [e1, if_false]
    split
    · rfl
    · rename_i h2
      split
      · rfl
      · rename_i h3
        split
        · rfl
        · rename_i h4
          exfalso
          apply hno
          refine ⟨h, by simpa using h2, by omega, by omega, by omega⟩

theorem scanCandidates_before_link (K : ImplDecls) (strips : List Strip) (me : Component)
    (myLast : Strip) (mw : Int) (cands : List Component) (j0 j : Nat)
    (h : scanCandidates K strips me myLast mw cands j0 = some (some j)) :
    ∀ k, k < j - j0 → ∃ ck cf, cands[k]? = some ck ∧ getAt strips ck.first = some cf ∧
      cf.x - myLast.x ≤ mw ∧ ¬ LinkOk K strips me myLast mw ck := by
  induction cands generalizing j0 with
  | nil => simp [scanCandidates] at h
  | cons c rest ih =>
    cases hcf : getAt strips c.first with
    | none => simp [scanCandidates, hcf] at h
    | some cf =>
      obtain ⟨a1, a2, a3⟩ := scanCandidates_cons K strips me myLast mw c rest j0 cf hcf
      by_cases hfar : mw < cf.x - myLast.x
      · rw [a1 hfar] at h; cases h
      · by_cases hok : LinkOk K strips me myLast mw c
        · rw [a2 hok] at h
          simp only [Option.some.injEq] at h
          subst h
          intro k hk
          omega
        · rw [a3 (by omega) hok] at h
          intro k hk
          cases k with
          | zero => exact ⟨c, cf, by simp, hcf, by omega, hok⟩
          | succ k =>
            obtain ⟨ck, cfk, b1, b2, b3, b4⟩ := ih (j0 + 1) h k (by omega)
            exact ⟨ck, cfk, by simpa using b1, b2, b3, b4⟩

theorem scanCandidates_no_link (K : ImplDecls) (strips : List Strip) (me : Component)
    (myLast : Strip) (mw : Int) (cands : List Component) (j0 : Nat)
    (h : scanCandidates K strips me myLast mw cands j0 = some none) :
    ∀ (m : Nat) (c : Component), cands[m]? = some c → LinkOk K strips me myLast mw c →
      ∃ k ck cf, k < m ∧ cands[k]? = some ck ∧ getAt strips ck.first = some cf ∧
        mw < cf.x - myLast.x := by
  induction cands generalizing j0 with
  | nil => intro m c hc; simp at hc
  | cons c0 rest ih =>
    cases hcf : getAt strips c0.first with
    | none => simp [scanCandidates, hcf] at h
    | some cf =>
      obtain ⟨a1, a2, a3⟩ := scanCandidates_cons K strips me myLast mw c0 rest j0 cf hcf
      intro m c hc hok
      by_cases hfar : mw < cf.x - myLast.x
      · cases m with
        | zero =>
          simp only [List.getElem?_cons_zero, Option.some.injEq] at hc
          subst hc
          have := (linkOk_iff K strips me myLast mw c0 cf hcf).mp hok
          omega
        | succ m => exact ⟨0, c0, cf, by omega, by simp, hcf, hfar⟩
      · by_cases hok0 : LinkOk K strips me myLast mw c0
        · rw [a2 hok0] at h; cases h
        · rw [a3 (by omega) hok0] at h
          cases m with
          | zero =>
            simp only [List.getElem?_cons_zero, Option.some.injEq] at hc
            subst hc
            exact absurd hok hok0
          | succ m =>
            simp only [List.getElem?_cons_succ] at hc
            obtain ⟨k, ck, cfk, b1, b2, b3, b4⟩ := ih (j0 + 1) h m c hc hok
            exact ⟨k + 1, ck, cfk, by omega, by simpa using b2, b3, b4⟩

/-! ## Theorems: the run seen from the scan of one component -/

theorem findStep_scan (K : ImplDecls) (s : Explorer) (i : Nat) (s2 : Explorer)
    (h : findStep K s i = some s2) :
    ∃ s1 me myLast mw, openTrajectory K s i = some (s1, me, myLast, mw) ∧
      ((scanCandidates K s1.mStrips me myLast mw (s1.mComponents.drop (i + 1)) (i + 1) =
          some none ∧ s2 = s1) ∨
        ∃ j c, scanCandidates K s1.mStrips me myLast mw (s1.mComponents.drop (i + 1)) (i + 1) =
          some (some j) ∧ s1.mComponents[j]? = some c ∧ s2 = linked s1 i me j c) := by
  unfold findStep at h
  split at h
  · cases h
  · rename_i s1 me myLast mw hopen
    refine ⟨s1, me, myLast, mw, hopen, ?_⟩
    split at h
    · cases h
    · rename_i hscan
      left
      exact ⟨hscan, by simpa using h.symm⟩
    · rename_i j hscan
      split at h
      · cases h
      · rename_i c hc
        right
        simp only [Option.some.injEq] at h
        exact ⟨j, c, hscan, hc, h.symm⟩

theorem drop_succ_getElem? {α : Type} (l : List α) (i j : Nat) (hij : i < j) :
    (l.drop (i + 1))[j - (i + 1)]? = l[j]? := by
  rw [List.getElem?_drop]
  congr 1
  omega

/-- The run of `findTrajectories` seen from iteration `i`: the state before it, the state the
scan works on and the state after it, and what the rest of the run keeps of it. -/
theorem findTrajectories_cut (K : ImplDecls) (s sEnd : Explorer)
    (hn : s.mComponents.length ≤ 32768) (hfind : findTrajectories K s = some sEnd)
    (i : Nat) (ci : Component) (hci : sEnd.mComponents[i]? = some ci) :
    ∃ sPre sMid s1 me myLast mw,
      findPrefix K s i = some sPre ∧ findStep K sPre i = some sMid ∧
      openTrajectory K sPre i = some (s1, me, myLast, mw) ∧
      Opened K sPre i s1 me myLast mw ∧
      sMid.mComponents[i]? = some ci ∧ sEnd.mStrips = s1.mStrips ∧
      s1.mComponents.length = s.mComponents.length ∧
      sEnd.mComponents.length = s.mComponents.length ∧
      (∀ (m : Nat) (c2 : Component), sEnd.mComponents[m]? = some c2 →
        ∃ c, sMid.mComponents[m]? = some c ∧ SameShape c c2) ∧
      ((scanCandidates K s1.mStrips me myLast mw (s1.mComponents.drop (i + 1)) (i + 1) =
          some none ∧ sMid = s1) ∨
        ∃ j c, scanCandidates K s1.mStrips me myLast mw (s1.mComponents.drop (i + 1)) (i + 1) =
          some (some j) ∧ s1.mComponents[j]? = some c ∧ sMid = linked s1 i me j c) := by
  obtain ⟨-, i2, -, -⟩ := findTrajectories_inv K s sEnd hn hfind
  have hi : i < s.mComponents.length := by
    have := (List.getElem?_eq_some_iff.mp hci).1
    omega
  obtain ⟨sPre, sMid, hpre, hstep, hrest⟩ := findTrajectories_at K s sEnd hfind i hi
  obtain ⟨-, p2, -⟩ := findLoop_inv K i 0 { s with mTrajectories := [] } sPre hn hpre
  simp only at p2
  obtain ⟨m1, m2, -⟩ := findStep_inv K sPre i sMid (by omega) hstep
  obtain ⟨r1, r2, r3, -⟩ := findLoop_inv K _ (i + 1) sMid sEnd (by omega) hrest
  have hmid : sMid.mComponents[i]? = some ci := by rw [← r3 i (by omega)]; exact hci
  obtain ⟨s1, me, myLast, mw, hopen, hcase⟩ := findStep_scan K sPre i sMid hstep
  have ho := openTrajectory_spec K sPre i s1 me myLast mw hopen
  refine ⟨sPre, sMid, s1, me, myLast, mw, hpre, hstep, hopen, ho, hmid, ?_, ?_, i2,
    findLoop_static K _ (i + 1) sMid sEnd hrest, hcase⟩
  · rw [r1, m1, ho.strips]
  · rw [ho.comps, List.length_set, p2]

/-- A link of the final state, traced back to the scan that made it. -/
theorem findTrajectories_link (K : ImplDecls) (s sEnd : Explorer)
    (hn : s.mComponents.length ≤ 32768) (hfind : findTrajectories K s = some sEnd)
    (i j : Nat) (ci : Component) (hci : sEnd.mComponents[i]? = some ci)
    (hlink : ci.next = (j : Int)) (hsent : ci.next ≠ K.NO_COMPONENT) :
    ∃ me myLast mw cScan cj,
      LinkOk K sEnd.mStrips me myLast mw cScan ∧ i < j ∧
      sEnd.mComponents[j]? = some cj ∧ SameShape cScan cj ∧
      ci = { me with next := toInt16 j } ∧ getAt sEnd.mStrips ci.last = some myLast := by
  obtain ⟨sPre, sMid, s1, me, myLast, mw, -, -, -, ho, hmid, hstrips, hlen1, hlenEnd, hstatic,
    hcase⟩ := findTrajectories_cut K s sEnd hn hfind i ci hci
  have hi1 : i < s1.mComponents.length := by
    have := (List.getElem?_eq_some_iff.mp hci).1
    omega
  have hiPre : i < sPre.mComponents.length := by
    have := hi1
    rw [ho.comps, List.length_set] at this
    exact this
  rcases hcase with ⟨-, h2⟩ | ⟨j1, c, hscan, hc, h2⟩
  · subst h2
    rw [ho.comps, List.getElem?_set_self hiPre] at hmid
    simp only [Option.some.injEq] at hmid
    subst hmid
    exact absurd ho.next hsent
  · subst h2
    obtain ⟨hj1, c1, hc1, hok⟩ := scanCandidates_link K _ _ _ _ _ _ _ hscan
    rw [drop_succ_getElem? _ _ _ (by omega), hc] at hc1
    simp only [Option.some.injEq] at hc1
    subst hc1
    have hj1lt : j1 < s1.mComponents.length := (List.getElem?_eq_some_iff.mp hc).1
    have hlen : i < (s1.mComponents.set j1 { c with trajectory := me.trajectory }).length := by
      simp [hi1]
    simp only [linked, List.getElem?_set_self hlen, Option.some.injEq] at hmid
    subst hmid
    simp only at hlink hsent ⊢
    have hjj : j1 = j := by
      have := toInt16_of_range (j1 : Int) (by omega) (by omega)
      rw [this] at hlink
      exact_mod_cast hlink
    subst hjj
    have hjEnd : j1 < sEnd.mComponents.length := by omega
    obtain ⟨c2, hc2, hshape⟩ := hstatic j1 sEnd.mComponents[j1] (List.getElem?_eq_getElem hjEnd)
    have hc2eq : c2 = { c with trajectory := me.trajectory } := by
      simp only [linked, List.getElem?_set_ne (Nat.ne_of_lt (by omega : i < j1)),
        List.getElem?_set_self hj1lt, Option.some.injEq] at hc2
      exact hc2.symm
    subst hc2eq
    refine ⟨me, myLast, mw, c, sEnd.mComponents[j1], by rw [hstrips]; exact hok, by omega,
      List.getElem?_eq_getElem hjEnd, hshape, rfl, ?_⟩
    rw [hstrips, ho.strips]; exact ho.last

/-! ## Theorems: claims about first fit, angle and thickness -/

theorem abs_nonneg_int (v : Int) : 0 ≤ Fmo.abs v ∧ v ≤ Fmo.abs v ∧ -v ≤ Fmo.abs v := by
  unfold Fmo.abs
  split <;> omega

/-- C16: `findTrajectories` is first-fit. In the state that iteration `i` scans, either some
candidate fits component `i` (see `Fits`), and then `next(i)` is the least such index `j` and
component `j` carries the trajectory id of `i` when the iteration ends; or no candidate fits,
and then `next(i)` is `NO_COMPONENT`. -/
theorem findTrajectories_first_fit (K : ImplDecls) (s sEnd : Explorer)
    (hn : s.mComponents.length ≤ 32768) (hfind : findTrajectories K s = some sEnd)
    (i : Nat) (ci : Component) (hci : sEnd.mComponents[i]? = some ci) :
    ∃ sPre s1 me myLast mw sMid,
      findPrefix K s i = some sPre ∧ openTrajectory K sPre i = some (s1, me, myLast, mw) ∧
      findStep K sPre i = some sMid ∧
      ((∃ j : Nat, Fits K s1 me myLast mw i j ∧ (∀ j2, Fits K s1 me myLast mw i j2 → j ≤ j2) ∧
          ci.next = (j : Int) ∧
          ∃ cj, sMid.mComponents[j]? = some cj ∧ cj.trajectory = ci.trajectory) ∨
        ((∀ j, ¬ Fits K s1 me myLast mw i j) ∧ ci.next = K.NO_COMPONENT)) := by
  obtain ⟨sPre, sMid, s1, me, myLast, mw, hpre, hstep, hopen, ho, hmid, -, hlen1, -, -,
    hcase⟩ := findTrajectories_cut K s sEnd hn hfind i ci hci
  refine ⟨sPre, s1, me, myLast, mw, sMid, hpre, hopen, hstep, ?_⟩
  have hiPre : i < sPre.mComponents.length := by
    obtain ⟨me0, hme0, -⟩ := ho.fields
    exact (List.getElem?_eq_some_iff.mp hme0).1
  have hi1 : i < s1.mComponents.length := by rw [ho.comps, List.length_set]; exact hiPre
  rcases hcase with ⟨hscan, h2⟩ | ⟨j, c, hscan, hc, h2⟩
  · right
    subst h2
    rw [ho.comps, List.getElem?_set_self hiPre] at hmid
    simp only [Option.some.injEq] at hmid
    subst hmid
    refine ⟨?_, ho.next⟩
    intro j hfit
    obtain ⟨hij, ⟨cj, hcj, hok⟩, hall⟩ := hfit
    obtain ⟨k, ck, cf, hk, hck, hcf, hfar⟩ :=
      scanCandidates_no_link K _ _ _ _ _ _ hscan (j - (i + 1)) cj
        (by rw [drop_succ_getElem? _ _ _ hij]; exact hcj) hok
    obtain ⟨ck2, cf2, e1, e2, e3⟩ := hall (i + 1 + k) (by omega) (by omega)
    rw [List.getElem?_drop, e1] at hck
    simp only [Option.some.injEq] at hck
    subst hck
    rw [e2] at hcf
    simp only [Option.some.injEq] at hcf
    subst hcf
    omega
  · left
    subst h2
    obtain ⟨hj, c1, hc1, hok⟩ := scanCandidates_link K _ _ _ _ _ _ _ hscan
    have hij : i < j := by omega
    rw [drop_succ_getElem? _ _ _ hij, hc] at hc1
    simp only [Option.some.injEq] at hc1
    subst hc1
    have hbefore := scanCandidates_before_link K _ _ _ _ _ _ _ hscan
    have hjlt : j < s1.mComponents.length := (List.getElem?_eq_some_iff.mp hc).1
    have hlen : i < (s1.mComponents.set j { c with trajectory := me.trajectory }).length := by
      simp [hi1]
    simp only [linked, List.getElem?_set_self hlen, Option.some.injEq] at hmid
    subst hmid
    refine ⟨j, ⟨hij, ⟨c, hc, hok⟩, ?_⟩, ?_, ?_, ?_⟩
    · intro k hik hkj
      rcases Nat.eq_or_lt_of_le hkj with h3 | h3
      · subst h3
        obtain ⟨cf, hcf, hdx, -⟩ := hok.candFirst
        exact ⟨c, cf, hc, hcf, hdx⟩
      · obtain ⟨ck, cf, b1, b2, b3, -⟩ := hbefore (k - (i + 1)) (by omega)
        rw [drop_succ_getElem? _ _ _ hik] at b1
        exact ⟨ck, cf, b1, b2, b3⟩
    · intro j2 hfit2
      by_contra hlt
      obtain ⟨hij2, ⟨cj2, hcj2, hok2⟩, -⟩ := hfit2
      obtain ⟨ck, cf, b1, -, -, b4⟩ := hbefore (j2 - (i + 1)) (by omega)
      rw [drop_succ_getElem? _ _ _ hij2, hcj2] at b1
      simp only [Option.some.injEq] at b1
      subst b1
      exact b4 hok2
    · exact toInt16_of_range _ (by omega) (by omega)
    · refine ⟨{ c with trajectory := me.trajectory }, ?_, rfl⟩
      simp only [linked]
      rw [List.getElem?_set_ne (Nat.ne_of_lt hij), List.getElem?_set_self hjlt]

/-- C16 at `demoScene`, for its first component. -/
theorem findTrajectories_first_fit_witness :
    demoScene.mComponents.length ≤ 32768 ∧
    findTrajectories demoDecls demoScene = some demoSceneFound ∧
    ∃ sPre s1 me myLast mw sMid,
      findPrefix demoDecls demoScene 0 = some sPre ∧
      openTrajectory demoDecls sPre 0 = some (s1, me, myLast, mw) ∧
      findStep demoDecls sPre 0 = some sMid ∧
      ((∃ j : Nat, Fits demoDecls s1 me myLast mw 0 j ∧
          (∀ j2, Fits demoDecls s1 me myLast mw 0 j2 → j ≤ j2) ∧
          (⟨0, 3, 4, 2, 1, 0⟩ : Component).next = (j : Int) ∧
          ∃ cj, sMid.mComponents[j]? = some cj ∧
            cj.trajectory = (⟨0, 3, 4, 2, 1, 0⟩ : Component).trajectory) ∨
        ((∀ j, ¬ Fits demoDecls s1 me myLast mw 0 j) ∧
          (⟨0, 3, 4, 2, 1, 0⟩ : Component).next = demoDecls.NO_COMPONENT)) :=
  ⟨by decide, by decide,
    findTrajectories_first_fit demoDecls demoScene demoSceneFound (by decide) (by decide) 0
      ⟨0, 3, 4, 2, 1, 0⟩ (by decide)⟩

/-- C19: every link made by `findTrajectories` respects the angle limit. If `next(i) = j` (not
the sentinel), then the absolute difference of the y coordinates of the first strip of `j` and
the last strip of `i` is at most twice the horizontal gap between them, so the gap is not
negative. -/
theorem findTrajectories_link_angle (K : ImplDecls) (s sEnd : Explorer)
    (hn : s.mComponents.length ≤ 32768) (hfind : findTrajectories K s = some sEnd)
    (i j : Nat) (ci : Component) (hci : sEnd.mComponents[i]? = some ci)
    (hlink : ci.next = (j : Int)) (hsent : ci.next ≠ K.NO_COMPONENT) :
    ∃ myLast cj candFirst,
      getAt sEnd.mStrips ci.last = some myLast ∧ sEnd.mComponents[j]? = some cj ∧
      getAt sEnd.mStrips cj.first = some candFirst ∧
      Fmo.abs (candFirst.y - myLast.y) ≤ 2 * (candFirst.x - myLast.x) ∧
      candFirst.y - myLast.y ≤ 2 * (candFirst.x - myLast.x) ∧
      myLast.y - candFirst.y ≤ 2 * (candFirst.x - myLast.x) ∧
      0 ≤ candFirst.x - myLast.x := by
  obtain ⟨me, myLast, mw, cScan, cj, hok, -, hcj, hshape, -, hlast⟩ :=
    findTrajectories_link K s sEnd hn hfind i j ci hci hlink hsent
  obtain ⟨cf, hcf, -, hangle⟩ := hok.candFirst
  obtain ⟨a0, a1, a2⟩ := abs_nonneg_int (cf.y - myLast.y)
  refine ⟨myLast, cj, cf, hlast, hcj, by rw [hshape.1]; exact hcf, hangle, by omega, by omega,
    by omega⟩

/-- C19 at `demoScene`, for the link from its first to its second component. -/
theorem findTrajectories_link_angle_witness :
    demoScene.mComponents.length ≤ 32768 ∧
    findTrajectories demoDecls demoScene = some demoSceneFound ∧
    ∃ myLast cj candFirst,
      getAt demoSceneFound.mStrips (3 : Int) = some myLast ∧
      demoSceneFound.mComponents[1]? = some cj ∧
      getAt demoSceneFound.mStrips cj.first = some candFirst ∧
      Fmo.abs (candFirst.y - myLast.y) ≤ 2 * (candFirst.x - myLast.x) ∧
      candFirst.y - myLast.y ≤ 2 * (candFirst.x - myLast.x) ∧
      myLast.y - candFirst.y ≤ 2 * (candFirst.x - myLast.x) ∧
      0 ≤ candFirst.x - myLast.x :=
  ⟨by decide, by decide,
    findTrajectories_link_angle demoDecls demoScene demoSceneFound (by decide) (by decide) 0 1
      ⟨0, 3, 4, 2, 1, 0⟩ (by decide) (by decide) (by decide)⟩

/-- C20: every link made by `findTrajectories` joins components of consistent thickness. If
`next(i) = j` (not the sentinel), then `approxHalfHeight(i) <= 2 * approxHalfHeight(j)` and
`approxHalfHeight(j) <= 2 * approxHalfHeight(i)`. -/
theorem findTrajectories_link_thickness (K : ImplDecls) (s sEnd : Explorer)
    (hn : s.mComponents.length ≤ 32768) (hfind : findTrajectories K s = some sEnd)
    (i j : Nat) (ci : Component) (hci : sEnd.mComponents[i]? = some ci)
    (hlink : ci.next = (j : Int)) (hsent : ci.next ≠ K.NO_COMPONENT) :
    ∃ cj, sEnd.mComponents[j]? = some cj ∧
      ci.approxHalfHeight ≤ 2 * cj.approxHalfHeight ∧
      cj.approxHalfHeight ≤ 2 * ci.approxHalfHeight := by
  obtain ⟨me, myLast, mw, cScan, cj, hok, -, hcj, hshape, hme, -⟩ :=
    findTrajectories_link K s sEnd hn hfind i j ci hci hlink hsent
  obtain ⟨h1, h2⟩ := hok.thickness
  subst hme
  refine ⟨cj, hcj, ?_, ?_⟩
  · rw [hshape.2.2.2]; exact h1
  · rw [hshape.2.2.2]; exact h2

/-- C20 at `demoScene`, for the link from its first to its second component. -/
theorem findTrajectories_link_thickness_witness :
    demoScene.mComponents.length ≤ 32768 ∧
    findTrajectories demoDecls demoScene = some demoSceneFound ∧
    ∃ cj, demoSceneFound.mComponents[1]? = some cj ∧
      (⟨0, 3, 4, 2, 1, 0⟩ : Component).approxHalfHeight ≤ 2 * cj.approxHalfHeight ∧
      cj.approxHalfHeight ≤ 2 * (⟨0, 3, 4, 2, 1, 0⟩ : Component).approxHalfHeight :=
  ⟨by decide, by decide,
    findTrajectories_link_thickness demoDecls demoScene demoSceneFound (by decide) (by decide)
      0 1 ⟨0, 3, 4, 2, 1, 0⟩ (by decide) (by decide) (by decide)⟩

/-! ## Theorems: the early exit against the exhaustive scan -/

theorem map_set_same {α β : Type} (f : α → β) (l : List α) (i : Nat) (a a0 : α)
    (h0 : l[i]? = some a0) (hf : f a = f a0) : (l.set i a).map f = l.map f := by
  apply List.ext_getElem?
  intro m
  simp only [List.getElem?_map]
  by_cases hm : i = m
  · subst hm
    have hlt := (List.getElem?_eq_some_iff.mp h0).1
    rw [List.getElem?_set_self hlt, h0]
    simp [hf]
  · rw [List.getElem?_set_ne hm]

theorem findStep_firstXs (K : ImplDecls) (s : Explorer) (i : Nat) (s2 : Explorer)
    (h : findStep K s i = some s2) :
    s2.mStrips = s.mStrips ∧
    firstXs s2.mStrips s2.mComponents = firstXs s.mStrips s.mComponents := by
  obtain ⟨s1, me, myLast, mw, hopen, hcase⟩ := findStep_spec K s i s2 h
  have ho := openTrajectory_spec K s i s1 me myLast mw hopen
  obtain ⟨me0, hme0, f1, -⟩ := ho.fields
  have hi : i < s.mComponents.length := (List.getElem?_eq_some_iff.mp hme0).1
  have e1 : firstXs s.mStrips s1.mComponents = firstXs s.mStrips s.mComponents := by
    rw [ho.comps]
    exact map_set_same _ _ i me me0 hme0 (by simp only [f1])
  rcases hcase with h2 | ⟨j, c, hij, hc, -, h2⟩
  · subst h2
    exact ⟨ho.strips, by rw [ho.strips, e1]⟩
  · subst h2
    refine ⟨ho.strips, ?_⟩
    simp only [linked]
    rw [ho.strips, ← e1]
    have hjlt : j < s1.mComponents.length := (List.getElem?_eq_some_iff.mp hc).1
    have hi1 : s1.mComponents[i]? = some me := by
      rw [ho.comps, List.getElem?_set_self hi]
    have e2 : firstXs s.mStrips (s1.mComponents.set j { c with trajectory := me.trajectory }) =
        firstXs s.mStrips s1.mComponents :=
      map_set_same _ _ j _ c hc rfl
    rw [← e2]
    refine map_set_same _ _ i _ me ?_ rfl
    rw [List.getElem?_set_ne (Nat.ne_of_gt hij)]
    exact hi1

theorem firstXs_cons (strips : List Strip) (c : Component) (rest : List Component)
    (x : Int) (xs : List Int) (h : firstXs strips (c :: rest) = (x :: xs).map some) :
    (∃ cf, getAt strips c.first = some cf ∧ cf.x = x) ∧ firstXs strips rest = xs.map some := by
  simp only [firstXs, List.map_cons, List.cons.injEq, Option.map_eq_some'] at h
  exact ⟨h.1, h.2⟩

theorem scanExhaustive_far (K : ImplDecls) (strips : List Strip) (me : Component)
    (myLast : Strip) (mw : Int) : ∀ (cands : List Component) (xs : List Int) (j : Nat),
    firstXs strips cands = xs.map some → (∀ x ∈ xs, mw < x - myLast.x) →
    scanCandidatesExhaustive K strips me myLast mw cands j = some none := by
  intro cands
  induction cands with
  | nil => intro xs j _ _; rfl
  | cons c rest ih =>
    intro xs j hxs hfar
    cases xs with
    | nil => simp [firstXs] at hxs
    | cons x xs =>
      obtain ⟨⟨cf, hcf, hx⟩, hrest⟩ := firstXs_cons strips c rest x xs hxs
      have hdx : cf.x - myLast.x > mw := by
        have := hfar x (List.mem_cons_self _ _)
        omega
      simp only [scanCandidatesExhaustive, hcf, hdx, if_true]
      exact ih xs (j + 1) hrest (fun y hy => hfar y (List.mem_cons_of_mem _ hy))

theorem scan_eq_exhaustive (K : ImplDecls) (strips : List Strip) (me : Component)
    (myLast : Strip) (mw : Int) : ∀ (cands : List Component) (xs : List Int) (j : Nat),
    firstXs strips cands = xs.map some → xs.Pairwise (· ≤ ·) →
    scanCandidates K strips me myLast mw cands j =
      scanCandidatesExhaustive K strips me myLast mw cands j := by
  intro cands
  induction cands with
  | nil => intro xs j _ _; rfl
  | cons c rest ih =>
    intro xs j hxs hsorted
    cases xs with
    | nil => simp [firstXs] at hxs
    | cons x xs =>
      obtain ⟨⟨cf, hcf, hx⟩, hrest⟩ := firstXs_cons strips c rest x xs hxs
      obtain ⟨hle, hsorted2⟩ := List.pairwise_cons.mp hsorted
      have hrec := ih xs (j + 1) hrest hsorted2
      simp only [scanCandidates, scanCandidatesExhaustive, hcf, hrec]
      by_cases hdx : cf.x - myLast.x > mw
      · simp only [hdx, if_true]
        symm
        apply scanExhaustive_far K strips me myLast mw rest xs (j + 1) hrest
        intro y hy
        have := hle y hy
        omega
      · simp only [hdx, if_false]

theorem findStep_eq_exhaustive (K : ImplDecls) (s : Explorer) (i : Nat)
    (hsorted : SortedByFirstX s.mStrips s.mComponents) :
    findStep K s i = findStepExhaustive K s i := by
  unfold findStep findStepExhaustive
  cases hopen : openTrajectory K s i with
  | none => rfl
  | some r =>
    obtain ⟨s1, me, myLast, mw⟩ := r
    have ho := openTrajectory_spec K s i s1 me myLast mw hopen
    obtain ⟨me0, hme0, f1, -⟩ := ho.fields
    obtain ⟨xs, hxs, hpair⟩ := hsorted
    have e1 : firstXs s1.mStrips s1.mComponents = xs.map some := by
      rw [ho.strips, ho.comps, ← hxs]
      exact map_set_same _ _ i me me0 hme0 (by simp only [f1])
    have e2 : firstXs s1.mStrips (s1.mComponents.drop (i + 1)) = (xs.drop (i + 1)).map some := by
      have : firstXs s1.mStrips (s1.mComponents.drop (i + 1)) =
          (firstXs s1.mStrips s1.mComponents).drop (i + 1) := by
        simp only [firstXs, List.map_drop]
      rw [this, e1, List.map_drop]
    have hscan := scan_eq_exhaustive K s1.mStrips me myLast mw (s1.mComponents.drop (i + 1))
      (xs.drop (i + 1)) (i + 1) e2 (hpair.sublist (List.drop_sublist _ _))
    simp only [hscan]

theorem findLoop_eq_exhaustive (K : ImplDecls) (k : Nat) : ∀ (i : Nat) (s : Explorer),
    SortedByFirstX s.mStrips s.mComponents →
    findLoop K k i s = findLoopExhaustive K k i s := by
  induction k with
  | zero => intro i s _; rfl
  | succ k ih =>
    intro i s hsorted
    simp only [findLoop, findLoopExhaustive, ← findStep_eq_exhaustive K s i hsorted]
    cases hstep : findStep K s i with
    | none => rfl
    | some s1 =>
      obtain ⟨e1, e2⟩ := findStep_firstXs K s i s1 hstep
      exact ih (i + 1) s1 (by unfold SortedByFirstX; rw [e2]; exact hsorted)

/-! ## Theorems: claims about the sortedness precondition -/

/-- C17: if the components are sorted in non-decreasing order of the x coordinate of their
first strip, `findTrajectories` with its early exit has the same result as the exhaustive
variant, which skips a candidate that is too far and keeps scanning: the same `next` links,
the same trajectory ids and the same trajectories (and a run of one reads outside a vector if
and only if the run of the other does). -/
theorem findTrajectories_eq_exhaustive (K : ImplDecls) (s : Explorer)
    (hsorted : SortedByFirstX s.mStrips s.mComponents) :
    findTrajectories K s = findTrajectoriesExhaustive K s := by
  unfold findTrajectories findTrajectoriesExhaustive
  exact findLoop_eq_exhaustive K _ 0 { s with mTrajectories := [] } hsorted

/-- C17 at `demoScene`, whose components start at x = 0, 5 and 40. -/
theorem findTrajectories_eq_exhaustive_witness :
    SortedByFirstX demoScene.mStrips demoScene.mComponents ∧
    findTrajectoriesExhaustive demoDecls demoScene = some demoSceneFound ∧
    findTrajectories demoDecls demoScene = findTrajectoriesExhaustive demoDecls demoScene :=
  ⟨⟨[0, 5, 40], by decide, by decide⟩, by decide,
    findTrajectories_eq_exhaustive demoDecls demoScene ⟨[0, 5, 40], by decide, by decide⟩⟩

/-- C18: the sortedness precondition is not defended against. The scene `unsortedScene`, with
components starting at x = 0, 40 and 5, is not sorted; `findTrajectories` returns for it and
leaves the first component with `next = NO_COMPONENT`, although the third component is, in the
state the scan of the first works on, unclaimed, within `maxWidth` of the last strip of the
first, and passes the angle check and the thickness check (`LinkOk`); the exhaustive variant
links the first component to the third. -/
theorem findTrajectories_unsorted_misses_link :
    ¬ SortedByFirstX unsortedScene.mStrips unsortedScene.mComponents ∧
    findTrajectories demoDecls unsortedScene = some unsortedSceneFound ∧
    unsortedSceneFound.mComponents.map Component.next =
      [demoDecls.NO_COMPONENT, demoDecls.NO_COMPONENT, demoDecls.NO_COMPONENT] ∧
    (∃ sPre s1 me myLast mw ck,
      findPrefix demoDecls unsortedScene 0 = some sPre ∧
      openTrajectory demoDecls sPre 0 = some (s1, me, myLast, mw) ∧
      s1.mComponents[2]? = some ck ∧ LinkOk demoDecls s1.mStrips me myLast mw ck) ∧
    findTrajectoriesExhaustive demoDecls unsortedScene = some unsortedSceneExhaustive ∧
    unsortedSceneExhaustive.mComponents.map Component.next = [2, -1, -1] := by
  refine ⟨?_, by decide, by decide, ?_, by decide, by decide⟩
  · rintro ⟨xs, hxs, hpair⟩
    have hfirst : firstXs unsortedScene.mStrips unsortedScene.mComponents =
        [some 0, some 40, some 5] := by decide
    rw [hfirst] at hxs
    rcases xs with _ | ⟨a, _ | ⟨b, _ | ⟨c, _ | ⟨d, t⟩⟩⟩⟩ <;>
      simp only [List.map_cons, List.map_nil, List.cons.injEq, Option.some.injEq,
        reduceCtorEq, and_false, and_true, false_and] at hxs
    obtain ⟨rfl, rfl, rfl⟩ := hxs
    simp at hpair
  · refine ⟨{ unsortedScene with mTrajectories := [] },
      { mStrips := unsortedScene.mStrips
        mComponents := [⟨0, 3, 4, 2, -1, 0⟩, ⟨4, 4, 1, 2, -1, -1⟩, ⟨5, 5, 1, 2, -1, -1⟩]
        mTrajectories := [⟨0, 0, 3, ⟨0⟩⟩] },
      ⟨0, 3, 4, 2, -1, 0⟩, ⟨3, 10, 2⟩, 3, ⟨5, 5, 1, 2, -1, -1⟩, by decide, by decide,
      by decide, ?_⟩
    exact ⟨⟨⟨5, 10, 2⟩, by decide, by decide, by decide⟩, by decide, by decide⟩

/-! ## Theorems: the runs of a column -/

theorem runsFrom_append (l : List Bool) : ∀ (pre : List Bool) (pos : Nat) (st : Option Nat),
    (pre = [] ∧ st = none) ∨ pre.getLast? = some false →
    runsFrom (pre ++ l) pos st = runsFrom pre pos st ++ runsFrom l (pos + pre.length) none := by
  intro pre
  induction pre with
  | nil =>
    intro pos st h
    rcases h with ⟨-, h⟩ | h
    · subst h; simp [runsFrom]
    · simp at h
  | cons b t ih =>
    intro pos st h
    have hlast : (b :: t).getLast? = some false := by
      rcases h with ⟨h, -⟩ | h
      · cases h
      · exact h
    have hcond : ∀ st2 : Option Nat, (t = [] → st2 = none) →
        (t = [] ∧ st2 = none) ∨ t.getLast? = some false := by
      intro st2 h2
      cases t with
      | nil => exact Or.inl ⟨rfl, h2 rfl⟩
      | cons c u => right; rw [List.getLast?_cons_cons] at hlast; exact hlast
    have hb : t = [] → b = false := by
      intro ht; subst ht; simpa using hlast
    have hlen : pos + 1 + t.length = pos + (b :: t).length := by
      simp only [List.length_cons]; omega
    cases b with
    | true =>
      have ht : t ≠ [] := fun ht => by simpa using hb ht
      cases st with
      | none =>
        simp only [List.cons_append, runsFrom, List.append_eq]
        rw [ih (pos + 1) (some pos) (hcond _ (fun h => absurd h ht)), hlen]
      | some s =>
        simp only [List.cons_append, runsFrom, List.append_eq]
        rw [ih (pos + 1) (some s) (hcond _ (fun h => absurd h ht)), hlen]
    | false =>
      cases st with
      | none =>
        simp only [List.cons_append, runsFrom, List.append_eq]
        rw [ih (pos + 1) none (hcond _ (fun _ => rfl)), hlen]
      | some s =>
        simp only [List.cons_append, runsFrom, List.append_eq]
        rw [ih (pos + 1) none (hcond _ (fun _ => rfl)), hlen]

theorem runsFrom_trues_open (post : List Bool) (hpost : post = [] ∨ post.head? = some false) :
    ∀ (h pos s : Nat), runsFrom (List.replicate h true ++ post) pos (some s) =
      (s, pos + h - s) :: runsFrom post (pos + h) none := by
  intro h
  induction h with
  | zero =>
    intro pos s
    rcases hpost with h1 | h1
    · subst h1; simp [runsFrom]
    · cases post with
      | nil => simp at h1
      | cons b t =>
        simp only [List.head?_cons, Option.some.injEq] at h1
        subst h1
        simp [runsFrom]
  | succ h ih =>
    intro pos s
    simp only [List.replicate_succ, List.cons_append, runsFrom, List.append_eq]
    rw [ih (pos + 1) s]
    have e : pos + 1 + h = pos + (h + 1) := by omega
    rw [e]

theorem runsFrom_trues (post : List Bool) (hpost : post = [] ∨ post.head? = some false)
    (h pos : Nat) (hh : 0 < h) :
    runsFrom (List.replicate h true ++ post) pos none =
      (pos, h) :: runsFrom post (pos + h) none := by
  obtain ⟨k, rfl⟩ : ∃ k, h = k + 1 := ⟨h - 1, by omega⟩
  simp only [List.replicate_succ, List.cons_append, runsFrom, List.append_eq]
  rw [runsFrom_trues_open post hpost k (pos + 1) pos]
  have e1 : pos + 1 + k - pos = k + 1 := by omega
  have e2 : pos + 1 + k = pos + (k + 1) := by omega
  rw [e1, e2]

theorem runsFrom_falses (rest : List Bool) : ∀ (g pos : Nat),
    runsFrom (List.replicate g false ++ rest) pos none = runsFrom rest (pos + g) none := by
  intro g
  induction g with
  | zero => intro pos; simp
  | succ g ih =>
    intro pos
    simp only [List.replicate_succ, List.cons_append, runsFrom, List.append_eq]
    rw [ih (pos + 1)]
    have e : pos + 1 + g = pos + (g + 1) := by omega
    rw [e]

theorem runsFrom_bounds : ∀ (l : List Bool) (pos : Nat) (st : Option Nat),
    (∀ s, st = some s → s ≤ pos) → ∀ r ∈ runsFrom l pos st,
      r.1 + r.2 ≤ pos + l.length ∧ (match st with | none => pos | some s => s) ≤ r.1 := by
  intro l
  induction l with
  | nil =>
    intro pos st hst r hr
    cases st with
    | none => simp [runsFrom] at hr
    | some s =>
      simp only [runsFrom, List.mem_singleton] at hr
      subst hr
      have := hst s rfl
      simp only [List.length_nil]
      omega
  | cons b t ih =>
    intro pos st hst r hr
    cases b with
    | false =>
      cases st with
      | none =>
        simp only [runsFrom] at hr
        have hb := ih (pos + 1) none (fun s h => by cases h) r hr
        simp only [List.length_cons] at hb ⊢
        omega
      | some s =>
        have hs := hst s rfl
        simp only [runsFrom] at hr
        rcases List.mem_cons.mp hr with h1 | h1
        · subst h1
          simp only [List.length_cons]
          omega
        · have hb := ih (pos + 1) none (fun s h => by cases h) r h1
          simp only [List.length_cons] at hb ⊢
          omega
    | true =>
      cases st with
      | none =>
        simp only [runsFrom] at hr
        have hb := ih (pos + 1) (some pos) (fun s h => by cases h; omega) r hr
        simp only [List.length_cons] at hb ⊢
        omega
      | some s =>
        have hs := hst s rfl
        simp only [runsFrom] at hr
        have hb := ih (pos + 1) (some s) (fun s2 h => by cases h; omega) r hr
        simp only [List.length_cons] at hb ⊢
        omega

theorem gapFilter_subset (minGap : Int) : ∀ (l : List (Nat × Nat)) (prev : Option (Nat × Nat)),
    ∀ e ∈ gapFilter minGap prev l, e ∈ l := by
  intro l
  induction l with
  | nil => intro prev e he; simp [gapFilter] at he
  | cons r rest ih =>
    intro prev e he
    simp only [gapFilter] at he
    split at he
    · rcases List.mem_cons.mp he with h1 | h1
      · subst h1; exact List.mem_cons_self _ _
      · exact List.mem_cons_of_mem _ (ih _ e h1)
    · exact List.mem_cons_of_mem _ (ih _ e he)

theorem gapFilter_pair (minGap : Int) (r1 r2 : Nat × Nat) (b : List (Nat × Nat))
    (hgap : runGap r1 r2 < minGap) : ∀ (a : List (Nat × Nat)) (prev : Option (Nat × Nat)),
    ∀ e ∈ gapFilter minGap prev (a ++ r1 :: r2 :: b), e ∈ a ∨ e ∈ b := by
  have hno : decide (minGap ≤ runGap r1 r2) = false := by
    simp only [decide_eq_false_iff_not, not_le]; exact hgap
  intro a
  induction a with
  | nil =>
    intro prev e he
    simp only [List.nil_append, gapFilter, hno, Bool.and_false, Bool.false_and, if_false,
      Bool.false_eq_true] at he
    exact Or.inr (gapFilter_subset minGap b _ e he)
  | cons c a ih =>
    intro prev e he
    simp only [List.cons_append, gapFilter] at he
    split at he
    · rcases List.mem_cons.mp he with h1 | h1
      · subst h1; exact Or.inl (List.mem_cons_self _ _)
      · rcases ih _ e h1 with h2 | h2
        · exact Or.inl (List.mem_cons_of_mem _ h2)
        · exact Or.inr h2
    · rcases ih _ e he with h2 | h2
      · exact Or.inl (List.mem_cons_of_mem _ h2)
      · exact Or.inr h2

/-! ## Theorems: the strip generator, two runs with only background between them -/

/-- Two runs with only background between them: if a column of a binary image holds two
foreground runs of height at least `minHeight` (rows `pre.length` to `pre.length + h1` and, `g`
background rows below, a run of height `h2`) with `0 < g < minGap`, then both are runs that are
not noise, and every run of the column that becomes a strip lies wholly above the first or
wholly below the second of them. -/
theorem keptRuns_background_gap (img : Image) (x : Nat) (minHeight minGap step : Int)
    (pre post : List Bool) (h1 g h2 : Nat)
    (hcol : maskColumn img x = pre ++ (List.replicate h1 true ++
      (List.replicate g false ++ (List.replicate h2 true ++ post))))
    (hpre : pre = [] ∨ pre.getLast? = some false)
    (hpost : post = [] ∨ post.head? = some false)
    (hh1 : 0 < h1) (hh2 : 0 < h2) (hv1 : minHeight ≤ h1) (hv2 : minHeight ≤ h2)
    (hg0 : 0 < g) (hg : (g : Int) < minGap) :
    (pre.length, h1) ∈ validRuns minHeight (maskColumn img x) ∧
    (pre.length + h1 + g, h2) ∈ validRuns minHeight (maskColumn img x) ∧
    columnStrips minHeight minGap step x (maskColumn img x) =
      (keptRuns minHeight minGap (maskColumn img x)).map (runToStrip step x) ∧
    ∀ r ∈ keptRuns minHeight minGap (maskColumn img x),
      r.1 + r.2 ≤ pre.length ∨ pre.length + h1 + g + h2 ≤ r.1 := by
  have hmid : (List.replicate g false ++ (List.replicate h2 true ++ post)) = [] ∨
      (List.replicate g false ++ (List.replicate h2 true ++ post)).head? = some false := by
    right
    obtain ⟨k, rfl⟩ : ∃ k, g = k + 1 := ⟨g - 1, by omega⟩
    simp [List.replicate_succ]
  have hruns : runsFrom (maskColumn img x) 0 none = runsFrom pre 0 none ++
      ((pre.length, h1) :: (pre.length + h1 + g, h2) ::
        runsFrom post (pre.length + h1 + g + h2) none) := by
    rw [hcol, runsFrom_append _ pre 0 none
      (by rcases hpre with h | h
          · exact Or.inl ⟨h, rfl⟩
          · exact Or.inr h),
      Nat.zero_add, runsFrom_trues _ hmid h1 _ hh1, runsFrom_falses,
      runsFrom_trues post hpost h2 _ hh2]
  have hvalid : validRuns minHeight (maskColumn img x) =
      (runsFrom pre 0 none).filter (fun r => decide (minHeight ≤ (r.2 : Int))) ++
      ((pre.length, h1) :: (pre.length + h1 + g, h2) ::
        (runsFrom post (pre.length + h1 + g + h2) none).filter
          (fun r => decide (minHeight ≤ (r.2 : Int)))) := by
    simp only [validRuns, hruns, List.filter_append, List.filter_cons, hv1, hv2, decide_True,
      if_true]
  refine ⟨?_, ?_, rfl, ?_⟩
  · rw [hvalid]; simp
  · rw [hvalid]; simp
  · intro r hr
    simp only [keptRuns, hvalid] at hr
    have hgap : runGap (pre.length, h1) (pre.length + h1 + g, h2) < minGap := by
      simp only [runGap]
      push_cast
      omega
    rcases gapFilter_pair minGap _ _ _ hgap _ none r hr with h | h
    · left
      have hmem := (List.mem_filter.mp h).1
      have := (runsFrom_bounds pre 0 none (fun s hs => by cases hs) r hmem).1
      omega
    · right
      have hmem := (List.mem_filter.mp h).1
      have := (runsFrom_bounds post _ none (fun s hs => by cases hs) r hmem).2
      simpa using this

/-- The one-column image `demoMask`, whose runs of heights 2 and 3 are one row apart: with
`minHeight = 2` and `minGap = 2` the generator yields no strip; with `minGap = 1` it yields
two. -/
theorem keptRuns_background_gap_example :
    maskColumn demoMask 0 = [false, true, true, false, true, true, true, false] ∧
    stripGen demoMask 2 2 2 = ([], 0) ∧
    (stripGen demoMask 2 1 2).1 = [⟨⟨1, 4⟩, ⟨1, 2⟩⟩, ⟨⟨1, 11⟩, ⟨1, 3⟩⟩] ∧
    ((1, 2) ∈ validRuns 2 (maskColumn demoMask 0) ∧
      (1 + 2 + 1, 3) ∈ validRuns 2 (maskColumn demoMask 0) ∧
      columnStrips 2 2 2 0 (maskColumn demoMask 0) =
        (keptRuns 2 2 (maskColumn demoMask 0)).map (runToStrip 2 0) ∧
      ∀ r ∈ keptRuns 2 2 (maskColumn demoMask 0), r.1 + r.2 ≤ 1 ∨ 1 + 2 + 1 + 3 ≤ r.1) :=
  ⟨by decide, by decide, by decide,
    keptRuns_background_gap demoMask 0 2 2 2 [false] [false] 2 1 3 (by decide)
      (by decide) (by decide) (by decide) (by decide) (by decide) (by decide) (by decide)
      (by decide)⟩

/-! ## Theorems: claims about the region, the conversion in place and the strip count -/

theorem resizeVec_of_le (v : List Nat) (n : Nat) (h : n ≤ v.length) :
    resizeVec v n = v.take n := by
  simp only [resizeVec]
  have : n - v.length = 0 := by omega
  rw [this]
  simp

/-- C26: `Region::resize` throws if and only if the requested width exceeds the current width
of the region or the requested height its current height, and then leaves the region as it
was; a request within the current extent succeeds for every format, also UNKNOWN, and stores
format and dims; after a successful strict shrink a `resize` to the dims the region had before
throws. -/
theorem region_resize_current_extent (r : Region) (f f2 : Format) (d : Dims) :
    ((r.resize f d).raised ≠ none ↔ d.width > r.mDims.width ∨ d.height > r.mDims.height) ∧
    ((r.resize f d).raised ≠ none →
      (r.resize f d).raised = some (.runtime_error .regionMustNotGrow) ∧
      (r.resize f d).state = r) ∧
    ((r.resize f d).raised = none →
      (r.resize f d).state = { r with mFormat := f, mDims := d }) ∧
    ((r.resize f d).raised = none → d.width < r.mDims.width ∨ d.height < r.mDims.height →
      ((r.resize f d).state.resize f2 r.mDims).raised =
        some (.runtime_error .regionMustNotGrow)) := by
  by_cases hgrow : d.width > r.mDims.width ∨ d.height > r.mDims.height
  · simp [Region.resize, hgrow]
  · simp only [Region.resize, hgrow, if_false, ne_eq, not_true_eq_false, false_iff,
      not_false_eq_true, true_and, false_implies, forall_const]
    intro hshrink
    have hback : r.mDims.width > d.width ∨ r.mDims.height > d.height := by omega
    simp [hback]

/-- C26 at a region of 4x2: shrinking to 2x2 succeeds with the format UNKNOWN, and resizing
back to 4x2 then throws. -/
theorem region_resize_current_extent_witness :
    ((Region.new .GRAY ⟨0, 0⟩ ⟨4, 2⟩ 0 4).resize .UNKNOWN ⟨2, 2⟩).raised = none ∧
    ((Region.new .GRAY ⟨0, 0⟩ ⟨4, 2⟩ 0 4).resize .UNKNOWN ⟨2, 2⟩).state.mFormat = .UNKNOWN ∧
    ((Region.new .GRAY ⟨0, 0⟩ ⟨4, 2⟩ 0 4).resize .UNKNOWN ⟨2, 2⟩).state.mDims = ⟨2, 2⟩ ∧
    ((((Region.new .GRAY ⟨0, 0⟩ ⟨4, 2⟩ 0 4).resize .UNKNOWN ⟨2, 2⟩).state.resize .GRAY
      (Region.new .GRAY ⟨0, 0⟩ ⟨4, 2⟩ 0 4).mDims).raised =
        some (.runtime_error .regionMustNotGrow)) :=
  ⟨by decide, by decide, by decide,
    (region_resize_current_extent (Region.new .GRAY ⟨0, 0⟩ ⟨4, 2⟩ 0 4) .UNKNOWN .GRAY
      ⟨2, 2⟩).2.2.2 (by decide) (by decide)⟩

/-- C27: converting a YUV420SP image to GRAY in place (`convert(img, img, GRAY)`), for dims in
the non-negative range of `int` and a buffer of at least `width*height` bytes, raises nothing
and does what `img.resize(GRAY, dims)` does, whatever `cv::cvtColor` is: the dims stay, the
format becomes GRAY and the buffer becomes the first `width*height` bytes of the original
buffer. -/
theorem convert_in_place_yuv_to_gray (cv : Cv) (img : Image) (hf : img.mFormat = .YUV420SP)
    (hw0 : 0 ≤ img.mDims.width) (hw1 : img.mDims.width < 2 ^ 31)
    (hh0 : 0 ≤ img.mDims.height) (hh1 : img.mDims.height < 2 ^ 31)
    (hlen : img.mDims.width * img.mDims.height ≤ (img.mData.length : Int)) :
    convert cv img .same .GRAY = img.resize .GRAY img.mDims ∧
    convert cv img .same .GRAY =
      ⟨{ mFormat := .GRAY, mDims := img.mDims,
         mData := img.mData.take (img.mDims.width * img.mDims.height).toNat }, none⟩ ∧
    (((convert cv img .same .GRAY).state.mData.length : Int) =
      img.mDims.width * img.mDims.height) := by
  obtain ⟨sf, ⟨w, h⟩, data⟩ := img
  simp only at hf hw0 hw1 hh0 hh1 hlen
  subst hf
  obtain ⟨a, rfl⟩ := Int.eq_ofNat_of_zero_le hw0
  obtain ⟨b, rfl⟩ := Int.eq_ofNat_of_zero_le hh0
  obtain ⟨g1, -, -⟩ := getNumBytes_natCast a b (by omega) (by omega)
  have hab : a * b ≤ data.length := by exact_mod_cast hlen
  have hconv : convert cv ⟨.YUV420SP, ⟨a, b⟩, data⟩ .same .GRAY =
      Image.resize ⟨.YUV420SP, ⟨a, b⟩, data⟩ .GRAY ⟨a, b⟩ := by
    simp [convert]
  have hres : Image.resize ⟨.YUV420SP, ⟨a, b⟩, data⟩ .GRAY ⟨a, b⟩ =
      ⟨{ mFormat := .GRAY, mDims := ⟨a, b⟩, mData := data.take (a * b) }, none⟩ := by
    simp only [Image.resize, g1, resizeVec_of_le data (a * b) hab]
  have hnat : ((a : Int) * (b : Int)).toNat = a * b := by
    have : ((a : Int) * (b : Int)) = ((a * b : Nat) : Int) := by push_cast; ring
    rw [this]; exact Int.toNat_ofNat (a * b)
  refine ⟨hconv, ?_, ?_⟩
  · rw [hconv, hres, hnat]
  · rw [hconv, hres]
    simp only [List.length_take]
    rw [Nat.min_eq_left hab]
    push_cast; ring

/-- C27 at the YUV420SP image of the tests: the luma plane is the GRAY test image. -/
theorem convert_in_place_yuv_to_gray_witness :
    convert demoCv ⟨.YUV420SP, IM_4X2_DIMS, IM_4x2_YUV420SP⟩ .same .GRAY =
      Image.resize ⟨.YUV420SP, IM_4X2_DIMS, IM_4x2_YUV420SP⟩ .GRAY IM_4X2_DIMS ∧
    convert demoCv ⟨.YUV420SP, IM_4X2_DIMS, IM_4x2_YUV420SP⟩ .same .GRAY =
      ⟨{ mFormat := .GRAY, mDims := IM_4X2_DIMS,
         mData := IM_4x2_YUV420SP.take (IM_4X2_DIMS.width * IM_4X2_DIMS.height).toNat },
        none⟩ ∧
    (((convert demoCv ⟨.YUV420SP, IM_4X2_DIMS, IM_4x2_YUV420SP⟩ .same
      .GRAY).state.mData.length : Int) = IM_4X2_DIMS.width * IM_4X2_DIMS.height) :=
  convert_in_place_yuv_to_gray demoCv ⟨.YUV420SP, IM_4X2_DIMS, IM_4x2_YUV420SP⟩ (by decide)
    (by decide) (by decide) (by decide) (by decide) (by decide)

/-- C24: for every trajectory built by `findTrajectories`, the strip count that
`analyzeTrajectories` compares with `MIN_STRIPS` is the sum of `numStrips` over the components
of the chain plus the `numStrips` of the final component of the chain once more. For a chain of
a single component with `n` strips the count is `2 * n`, and the trajectory is rejected (score
0) when `2 * n < MIN_STRIPS` and scored with its displacement otherwise. -/
theorem countedStrips_counts_final_twice (K : ImplDecls) (s s1 : Explorer)
    (hn : s.mComponents.length ≤ 32768) (hfind : findTrajectories K s = some s1)
    (t : Trajectory) (ht : t ∈ s1.mTrajectories) :
    ∃ fc e ce, getAt s1.mComponents t.first = some fc ∧
      (chainIndices K s1.mComponents s1.mComponents.length t.first).getLast? = some e ∧
      getAt s1.mComponents e = some ce ∧ ce.next = K.NO_COMPONENT ∧
      countedStrips K s1.mComponents t =
        some (linkedStrips K s1.mComponents t.first + ce.numStrips) ∧
      (fc.next = K.NO_COMPONENT →
        linkedStrips K s1.mComponents t.first = fc.numStrips ∧
        countedStrips K s1.mComponents t = some (2 * fc.numStrips) ∧
        ∃ fs ls, getAt s1.mStrips fc.first = some fs ∧ getAt s1.mStrips fc.last = some ls ∧
          analyzeTrajectory K s1.mStrips s1.mComponents t =
            some (if 2 * fc.numStrips < K.MIN_STRIPS then { t with score := Score.zero }
              else { t with last := toInt16 t.first, score := ⟨sqDist fs ls⟩ })) := by
  obtain ⟨fc, cnt0, e, ce, fs, ls, h1, h2, h3, h4, h5, h6, h7, -⟩ :=
    walk_of_found K s s1 hn hfind t ht
  obtain ⟨-, -, -, hsum⟩ := walkChain_chain K s1.mComponents _ _ _ _ _ _ _ h1 h2
  have hcount : countedStrips K s1.mComponents t =
      some (linkedStrips K s1.mComponents t.first + ce.numStrips) := by
    simp only [countedStrips, h1, h2, linkedStrips, hsum, zero_add]
  refine ⟨fc, e, ce, h1, h7, h5, h6, hcount, ?_⟩
  intro hlone
  have hlen := getAt_lt_length h1
  obtain ⟨k, hk⟩ : ∃ k, s1.mComponents.length = k + 1 :=
    ⟨s1.mComponents.length - 1, by omega⟩
  have hwalk : walkChain K s1.mComponents s1.mComponents.length 0 t.first fc =
      some (fc.numStrips, t.first, fc) := by
    rw [hk]; simp [walkChain, hlone]
  rw [hwalk] at h2
  simp only [Option.some.injEq, Prod.mk.injEq] at h2
  obtain ⟨e1, e2, e3⟩ := h2
  subst e1 e2 e3
  have hlinked : linkedStrips K s1.mComponents t.first = fc.numStrips := by
    simp [linkedStrips, hk, chainIndices, h1, hlone]
  refine ⟨hlinked, ?_, fs, ls, h3, h4, ?_⟩
  · rw [hcount, hlinked]; congr 1; ring
  · rw [analyzeTrajectory_eq K _ _ t fc fc _ _ fs ls h1 hwalk h3 h4]
    have e : fc.numStrips + fc.numStrips = 2 * fc.numStrips := by ring
    rw [e]

/-- C24 at the scene of one component of three strips, with `MIN_STRIPS = 4`: the count is 6,
so the trajectory is not rejected. -/
theorem countedStrips_counts_final_twice_witness :
    loneScene.mComponents.length ≤ 32768 ∧
    findTrajectories demoDecls loneScene = some loneSceneFound ∧
    (⟨0, 0, 10, ⟨0⟩⟩ : Trajectory) ∈ loneSceneFound.mTrajectories ∧
    countedStrips demoDecls loneSceneFound.mComponents ⟨0, 0, 10, ⟨0⟩⟩ = some 6 ∧
    ∃ fc e ce, getAt loneSceneFound.mComponents (0 : Int) = some fc ∧
      (chainIndices demoDecls loneSceneFound.mComponents loneSceneFound.mComponents.length
        (0 : Int)).getLast? = some e ∧
      getAt loneSceneFound.mComponents e = some ce ∧ ce.next = demoDecls.NO_COMPONENT ∧
      countedStrips demoDecls loneSceneFound.mComponents ⟨0, 0, 10, ⟨0⟩⟩ =
        some (linkedStrips demoDecls loneSceneFound.mComponents (0 : Int) + ce.numStrips) ∧
      (fc.next = demoDecls.NO_COMPONENT →
        linkedStrips demoDecls loneSceneFound.mComponents (0 : Int) = fc.numStrips ∧
        countedStrips demoDecls loneSceneFound.mComponents ⟨0, 0, 10, ⟨0⟩⟩ =
          some (2 * fc.numStrips) ∧
        ∃ fs ls, getAt loneSceneFound.mStrips fc.first = some fs ∧
          getAt loneSceneFound.mStrips fc.last = some ls ∧
          analyzeTrajectory demoDecls loneSceneFound.mStrips loneSceneFound.mComponents
              ⟨0, 0, 10, ⟨0⟩⟩ =
            some (if 2 * fc.numStrips < demoDecls.MIN_STRIPS then
                { (⟨0, 0, 10, ⟨0⟩⟩ : Trajectory) with score := Score.zero }
              else { (⟨0, 0, 10, ⟨0⟩⟩ : Trajectory) with
                last := toInt16 (0 : Int), score := ⟨sqDist fs ls⟩ })) :=
  ⟨by decide, by decide, by decide, by decide,
    countedStrips_counts_final_twice demoDecls loneScene loneSceneFound (by decide) (by decide)
      ⟨0, 0, 10, ⟨0⟩⟩ (by decide)⟩

/-! ## Theorems: the mask across two frames -/

theorem wrap_data (img : Image) (m : CvMat) (h : img.wrap = .ok m) : m.data = img.mData := by
  unfold Image.wrap at h
  split at h
  · cases h
  · split at h
    · cases h
    · cases h; rfl

theorem combineStage_returns (R : Routines) (level : ProcessedLevel)
    (h : (combineStage R level).raised = none) :
    ∃ d1 d2 pm, level.diff1.wrap = .ok d1 ∧ level.diff2.wrap = .ok d2 ∧
      level.preprocessed.wrap = .ok pm ∧
      (combineStage R level).state =
        { level with preprocessed := { level.preprocessed with
            mData := overwrite level.preprocessed.mData (R.bitwise_or d1 d2) } } := by
  unfold combineStage at h ⊢
  cases h1 : level.diff1.wrap with
  | error e => rw [h1] at h; simp at h
  | ok d1 =>
    cases h2 : level.diff2.wrap with
    | error e => rw [h1, h2] at h; simp at h
    | ok d2 =>
      cases h3 : level.preprocessed.wrap with
      | error e => rw [h1, h2, h3] at h; simp at h
      | ok pm => exact ⟨d1, d2, pm, rfl, rfl, rfl, rfl⟩

theorem preprocessLevel_returns (R : Routines) (n : Int) (level : ProcessedLevel) (hn : 3 ≤ n)
    (h : (preprocessLevel R n level).raised = none) :
    ∃ d1 d2 pm, (thresholdedDiff R level.image1 level.image2 level.diff2).wrap = .ok d1 ∧
      level.diff1.wrap = .ok d2 ∧ level.preprocessed.wrap = .ok pm ∧
      (preprocessLevel R n level).state =
        { level with
          diff1 := thresholdedDiff R level.image1 level.image2 level.diff2
          diff2 := level.diff1
          preprocessed := { level.preprocessed with
            mData := overwrite level.preprocessed.mData (R.bitwise_or d1 d2) } } := by
  have h2 : n ≥ 2 := by omega
  have h3 : n ≥ 3 := by omega
  simp only [preprocessLevel, h2, h3, if_true] at h ⊢
  obtain ⟨d1, d2, pm, e1, e2, e3, e4⟩ := combineStage_returns R _ h
  exact ⟨d1, d2, pm, e1, e2, e3, e4⟩

theorem preprocessLevel_diffs (R : Routines) (n : Int) (level : ProcessedLevel) (hn : 2 ≤ n) :
    (preprocessLevel R n level).state.diff1 =
      thresholdedDiff R level.image1 level.image2 level.diff2 ∧
    (preprocessLevel R n level).state.diff2 = level.diff1 ∧
    (preprocessLevel R n level).state.image1 = level.image1 ∧
    (preprocessLevel R n level).state.image2 = level.image2 ∧
    (preprocessLevel R n level).state.image3 = level.image3 := by
  have h2 : n ≥ 2 := by omega
  simp only [preprocessLevel, h2, if_true]
  split
  · simp only [combineStage]
    split
    · exact ⟨rfl, rfl, rfl, rfl, rfl⟩
    · split
      · exact ⟨rfl, rfl, rfl, rfl, rfl⟩
      · split
        · exact ⟨rfl, rfl, rfl, rfl, rfl⟩
        · exact ⟨rfl, rfl, rfl, rfl, rfl⟩
  · exact ⟨rfl, rfl, rfl, rfl, rfl⟩

theorem twoFrames_level (R : Routines) (s : ExplorerV1) (input : Image) (n : Int)
    (hn : 2 ≤ n - 1) :
    (∃ dec prev, (twoFrames R s input n).1.image1 = (R.decimate dec prev s.mLevel.image3).2) ∧
    (twoFrames R s input n).1.image2 = s.mLevel.image1 ∧
    (twoFrames R s input n).1.image3 = s.mLevel.image2 ∧
    (twoFrames R s input n).1.diff1 =
      thresholdedDiff R s.mLevel.image1 s.mLevel.image2 s.mLevel.diff2 ∧
    (twoFrames R s input n).1.diff2 = s.mLevel.diff1 ∧
    (twoFrames R s input n).1.preprocessed =
      (preprocessLevel R (n - 1) s.mLevel).state.preprocessed := by
  obtain ⟨e1, e2, e3, e4, e5⟩ := preprocessLevel_diffs R (n - 1) s.mLevel hn
  refine ⟨?_, ?_, ?_, ?_, ?_, ?_⟩
  · simp only [twoFrames, createLevelPyramid, Image.swap]
    rw [e5]
    exact ⟨_, _, rfl⟩
  · simp only [twoFrames, createLevelPyramid, Image.swap]
    rw [e3]
  · simp only [twoFrames, createLevelPyramid, Image.swap]
    rw [e4]
  · simp only [twoFrames, createLevelPyramid, Image.swap]
    rw [e1]
  · simp only [twoFrames, createLevelPyramid, Image.swap]
    rw [e2]
  · simp only [twoFrames, createLevelPyramid, Image.swap]

/-- C23: for every call of `preprocess` with `mFrameNum >= 3`, afterwards `diff2` holds the
previous `diff1` and `diff1` holds the thresholded absolute difference of `image1` and
`image2`, and when the call returns, `cv::bitwise_or` of the new `diff1` and `diff2` has been
written through `preprocessed`. Across the frames `n - 1 >= 2` and `n`, with
`createLevelPyramid` in between, the level holds the decimated frames `f(n)`, `f(n-1)`,
`f(n-2)`, and the mask of frame `n` is the OR of the thresholded difference of `f(n)` and
`f(n-1)` with that of `f(n-1)` and `f(n-2)`: the pixelwise OR of the two, as a function of the
three frames alone, when `cv::bitwise_or` is the pixelwise OR, the result of `fmo::absdiff`
does not depend on what its destination held, and the three buffers have one length. -/
theorem preprocess_mask_is_double_difference (R : Routines) :
    (∀ (n : Int) (level : ProcessedLevel), 3 ≤ n →
      (preprocessLevel R n level).state.diff2 = level.diff1 ∧
      (preprocessLevel R n level).state.diff1 =
        thresholdedDiff R level.image1 level.image2 level.diff2 ∧
      ((preprocessLevel R n level).raised = none →
        ∃ d1 d2, (preprocessLevel R n level).state.diff1.wrap = .ok d1 ∧
          (preprocessLevel R n level).state.diff2.wrap = .ok d2 ∧
          (preprocessLevel R n level).state.preprocessed.mData =
            overwrite level.preprocessed.mData (R.bitwise_or d1 d2))) ∧
    (∀ (s : ExplorerV1) (input : Image) (n : Int), 2 ≤ n - 1 →
      (twoFrames R s input n).2.raised = none →
      (∃ dec prev,
        (twoFrames R s input n).1.image1 = (R.decimate dec prev s.mLevel.image3).2) ∧
      (twoFrames R s input n).1.image2 = s.mLevel.image1 ∧
      (twoFrames R s input n).1.image3 = s.mLevel.image2 ∧
      ∃ d1 d2,
        (thresholdedDiff R (twoFrames R s input n).1.image1 s.mLevel.image1
          s.mLevel.diff1).wrap = .ok d1 ∧
        (thresholdedDiff R s.mLevel.image1 s.mLevel.image2 s.mLevel.diff2).wrap = .ok d2 ∧
        (twoFrames R s input n).2.state.preprocessed.mData =
          overwrite (twoFrames R s input n).1.preprocessed.mData (R.bitwise_or d1 d2) ∧
        ((∀ a b, R.bitwise_or a b = pixelwiseOr a.data b.data) →
          (∀ a b d e, R.absdiff a b d = R.absdiff a b e) →
          d1.data.length = (twoFrames R s input n).1.preprocessed.mData.length →
          d2.data.length = (twoFrames R s input n).1.preprocessed.mData.length →
          (twoFrames R s input n).2.state.preprocessed.mData =
            pixelwiseOr
              (thresholdedDiff R (twoFrames R s input n).1.image1 s.mLevel.image1
                Image.default).mData
              (thresholdedDiff R s.mLevel.image1 s.mLevel.image2 Image.default).mData)) := by
  refine ⟨?_, ?_⟩
  · intro n level hn
    obtain ⟨e1, e2, -⟩ := preprocessLevel_diffs R n level (by omega)
    refine ⟨e2, e1, ?_⟩
    intro hret
    obtain ⟨d1, d2, pm, w1, w2, -, hst⟩ := preprocessLevel_returns R n level hn hret
    refine ⟨d1, d2, ?_, ?_, ?_⟩
    · rw [e1]; exact w1
    · rw [e2]; exact w2
    · rw [hst]
  · intro s input n hn hret
    obtain ⟨l1, l2, l3, l4, l5, -⟩ := twoFrames_level R s input n hn
    have hret2 : (preprocessLevel R n (twoFrames R s input n).1).raised = none := hret
    obtain ⟨d1, d2, pm, w1, w2, -, hst⟩ :=
      preprocessLevel_returns R n (twoFrames R s input n).1 (by omega) hret2
    have hst2 : (twoFrames R s input n).2.state = _ := hst
    rw [l2, l5] at w1
    rw [l4] at w2
    have hmask : (twoFrames R s input n).2.state.preprocessed.mData =
        overwrite (twoFrames R s input n).1.preprocessed.mData (R.bitwise_or d1 d2) := by
      rw [hst2]
    refine ⟨l1, l2, l3, d1, d2, w1, w2, hmask, ?_⟩
    intro hor hdst hl1 hl2
    rw [hmask, hor, overwrite_full]
    · rw [wrap_data _ _ w1, wrap_data _ _ w2]
      simp only [thresholdedDiff]
      rw [hdst _ _ s.mLevel.diff1 Image.default, hdst _ _ s.mLevel.diff2 Image.default]
    · simp only [pixelwiseOr, List.length_zipWith]
      omega

/-- C23 at the example explorer: frames 1, 2, 3 show a bright pixel in columns 0, 1, 2; the
mask of frame 3 marks the three columns. -/
theorem preprocess_mask_is_double_difference_witness :
    (3 : Int) ≤ 3 ∧ (2 : Int) ≤ 3 - 1 ∧
    (preprocessLevel maskRoutines 3 maskExplorer.mLevel).raised = none ∧
    (twoFrames maskRoutines maskExplorer maskInput 3).2.raised = none ∧
    (twoFrames maskRoutines maskExplorer maskInput 3).1.image1 = maskInput ∧
    (twoFrames maskRoutines maskExplorer maskInput 3).2.state.preprocessed.mData =
      [255, 255, 255, 0, 0, 0, 0, 0] ∧
    ((preprocessLevel maskRoutines 3 maskExplorer.mLevel).state.diff2 =
        maskExplorer.mLevel.diff1 ∧
      (preprocessLevel maskRoutines 3 maskExplorer.mLevel).state.diff1 =
        thresholdedDiff maskRoutines maskExplorer.mLevel.image1 maskExplorer.mLevel.image2
          maskExplorer.mLevel.diff2) ∧
    ∃ d1 d2,
      (thresholdedDiff maskRoutines (twoFrames maskRoutines maskExplorer maskInput 3).1.image1
        maskExplorer.mLevel.image1 maskExplorer.mLevel.diff1).wrap = .ok d1 ∧
      (thresholdedDiff maskRoutines maskExplorer.mLevel.image1 maskExplorer.mLevel.image2
        maskExplorer.mLevel.diff2).wrap = .ok d2 ∧
      (twoFrames maskRoutines maskExplorer maskInput 3).2.state.preprocessed.mData =
        pixelwiseOr
          (thresholdedDiff maskRoutines (twoFrames maskRoutines maskExplorer maskInput 3).1.image1
            maskExplorer.mLevel.image1 Image.default).mData
          (thresholdedDiff maskRoutines maskExplorer.mLevel.image1 maskExplorer.mLevel.image2
            Image.default).mData :=
  ⟨by decide, by decide, by decide, by decide, by decide, by decide,
    ⟨((preprocess_mask_is_double_difference maskRoutines).1 3 maskExplorer.mLevel
        (by decide)).1,
      ((preprocess_mask_is_double_difference maskRoutines).1 3 maskExplorer.mLevel
        (by decide)).2.1⟩,
    match (preprocess_mask_is_double_difference maskRoutines).2 maskExplorer maskInput 3
      (by decide) (by decide) with
    | ⟨_, _, _, d1, d2, w1, w2, _, h⟩ =>
      ⟨d1, d2, w1, w2, h (fun _ _ => rfl) (fun _ _ _ _ => rfl)
        (by rw [wrap_data _ _ w1]; decide) (by rw [wrap_data _ _ w2]; decide)⟩⟩

/-! ## Theorems: one iteration of `findTrajectories` in detail -/

theorem openTrajectory_detail (K : ImplDecls) (s : Explorer) (i : Nat) (s1 : Explorer)
    (me : Component) (myLast : Strip) (mw : Int) (hi : i < 32768)
    (htl : s.mTrajectories.length ≤ i)
    (h : openTrajectory K s i = some (s1, me, myLast, mw)) :
    ∃ me0 τ told myFirst, StepDetail K s i s1 me0 τ told myFirst myLast none ∧
      me = { me0 with trajectory := (τ : Int), next := K.NO_COMPONENT } ∧
      mw = toInt16 (max told.maxWidth (myLast.x - myFirst.x)) ∧
      s1.mComponents = s.mComponents.set i me := by
  unfold openTrajectory at h
  split at h
  · cases h
  · rename_i me0 hme0
    have hilt : i < s.mComponents.length := by
      rcases Nat.lt_or_ge i s.mComponents.length with h1 | h1
      · exact h1
      · rw [List.getElem?_eq_none h1] at hme0; cases hme0
    simp only at h
    split at h
    · rename_i myTrajectory myFirst myLast0 htr hfi hla
      simp only [Option.some.injEq, Prod.mk.injEq] at h
      obtain ⟨hs1, hme, hl, hmw⟩ := h
      subst hs1 hl
      by_cases hfresh : me0.trajectory = K.NO_TRAJECTORY
      · simp only [hfresh, if_true] at htr hfi hla hme hmw ⊢
        have hlen : toInt16 (s.mTrajectories.length : Int) = (s.mTrajectories.length : Int) :=
          toInt16_of_range _ (by omega) (by omega)
        rw [hlen] at htr hme
        rw [getAt_natCast] at htr
        simp only [List.getElem?_append_right (le_refl _), Nat.sub_self,
          List.getElem?_cons_zero, Option.some.injEq] at htr
        subst htr
        simp only [hlen, Int.toNat_ofNat]
        refine ⟨me0, s.mTrajectories.length, K.newTrajectory i, myFirst, ?_, ?_, hmw.symm, ?_⟩
        · refine ⟨hme0, fun _ => ⟨rfl, rfl⟩, fun hne => absurd hfresh hne, hfi, hla, rfl, ?_,
            ?_, ?_, ?_, ?_, ?_, ?_⟩
          · simp [hfresh]
          · simp only [hmw]
            rw [List.getElem?_set_self (by simp)]
          · intro k hk
            simp only
            rw [List.getElem?_set_ne (Ne.symm hk)]
            rcases Nat.lt_or_ge k s.mTrajectories.length with h1 | h1
            · rw [List.getElem?_append_left h1]
            · rw [List.getElem?_eq_none (by simp; omega), List.getElem?_eq_none h1]
          · simp
          · simp only
            rw [List.getElem?_set_self hilt]
          · intro j hj; cases hj
          · intro m hm _
            simp only
            rw [List.getElem?_set_ne (Ne.symm hm)]
        · exact hme.symm
        · rw [← hme]
      · simp only [hfresh, if_false] at htr hfi hla hme hmw ⊢
        obtain ⟨h0, h1⟩ := getAt_eq_some htr
        have hτ : me0.trajectory = ((me0.trajectory.toNat : Nat) : Int) :=
          (Int.toNat_of_nonneg h0).symm
        have hτlt : me0.trajectory.toNat < s.mTrajectories.length := by
          rcases Nat.lt_or_ge me0.trajectory.toNat s.mTrajectories.length with h2 | h2
          · exact h2
          · rw [List.getElem?_eq_none h2] at h1; cases h1
        refine ⟨me0, me0.trajectory.toNat, myTrajectory, myFirst, ?_, ?_, hmw.symm, ?_⟩
        · refine ⟨hme0, fun hf => absurd hf hfresh, fun _ => ⟨hτ, h1⟩, hfi, hla, rfl, ?_,
            ?_, ?_, ?_, ?_, ?_, ?_⟩
          · simp [hfresh]
          · simp only [hmw]
            rw [List.getElem?_set_self hτlt]
          · intro k hk
            simp only
            rw [List.getElem?_set_ne (Ne.symm hk)]
          · simp
          · simp only
            rw [List.getElem?_set_self hilt, ← hτ]
          · intro j hj; cases hj
          · intro m hm _
            simp only
            rw [List.getElem?_set_ne (Ne.symm hm)]
        · rw [← hme, ← hτ]
        · rw [← hme]
    · cases h

theorem findStep_detail (K : ImplDecls) (s : Explorer) (i : Nat) (s2 : Explorer)
    (hn : s.mComponents.length ≤ 32768) (htl : s.mTrajectories.length ≤ i)
    (h : findStep K s i = some s2) :
    ∃ me0 τ told myFirst myLast link, StepDetail K s i s2 me0 τ told myFirst myLast link ∧
      ∃ s1 me, openTrajectory K s i =
        some (s1, me, myLast, toInt16 (max told.maxWidth (myLast.x - myFirst.x))) ∧
        StepDetail K s i s1 me0 τ told myFirst myLast none ∧
        me = { me0 with trajectory := (τ : Int), next := K.NO_COMPONENT } := by
  obtain ⟨s1, me, myLast, mw, hopen, hcase⟩ := findStep_scan K s i s2 h
  have hilt : i < s.mComponents.length := by
    unfold openTrajectory at hopen
    split at hopen
    · cases hopen
    · rename_i me0 hme0
      rcases Nat.lt_or_ge i s.mComponents.length with h1 | h1
      · exact h1
      · rw [List.getElem?_eq_none h1] at hme0; cases hme0
  obtain ⟨me0, τ, told, myFirst, D, hme, hmw, hcomps⟩ :=
    openTrajectory_detail K s i s1 me myLast mw (by omega) htl hopen
  subst hmw
  rcases hcase with ⟨-, hs2⟩ | ⟨j, c, hscan, hc, hs2⟩
  · rw [hs2]
    exact ⟨me0, τ, told, myFirst, myLast, none, D, s1, me, hopen, D, hme⟩
  · obtain ⟨hj, c1, hc1, hok⟩ := scanCandidates_link K _ _ _ _ _ _ _ hscan
    rw [List.getElem?_drop] at hc1
    have hidx : i + 1 + (j - (i + 1)) = j := by omega
    rw [hidx, hc] at hc1
    simp only [Option.some.injEq] at hc1
    subst hc1
    have hjlt : j < s.mComponents.length := by
      have h1 : j < s1.mComponents.length := by
        rcases Nat.lt_or_ge j s1.mComponents.length with h1 | h1
        · exact h1
        · rw [List.getElem?_eq_none h1] at hc; cases hc
      rw [D.clen] at h1; exact h1
    have hji : j ≠ i := by omega
    have hcs : s.mComponents[j]? = some c := by
      rw [← D.rest j hji (by simp)]; exact hc
    have h16 : toInt16 (j : Int) = (j : Int) := toInt16_of_range _ (by omega) (by omega)
    refine ⟨me0, τ, told, myFirst, myLast, some j, ?_, s1, me, hopen, D, hme⟩
    subst hs2
    refine ⟨D.me, D.fresh, D.old, D.first, D.last, D.strips, D.tlen, D.tau, D.others, ?_, ?_,
      ?_, ?_⟩
    · simp [linked, D.clen]
    · simp only [linked]
      rw [List.getElem?_set_self (by simp [D.clen]; exact hilt), hme, h16]
    · intro j2 hj2
      simp only [Option.some.injEq] at hj2
      subst hj2
      refine ⟨by omega, by omega, c, hcs, hok.unclaimed, ?_⟩
      simp only [linked]
      rw [List.getElem?_set_ne (Ne.symm hji), List.getElem?_set_self (by rw [D.clen]; exact hjlt),
        hme]
    · intro m hm hml
      have hmj : m ≠ j := fun e => hml (by rw [e])
      simp only [linked]
      rw [List.getElem?_set_ne (Ne.symm hm), List.getElem?_set_ne (Ne.symm hmj)]
      exact D.rest m hm (by simp)

theorem stepDetail_low (K : ImplDecls) (s : Explorer) (i : Nat) (s2 : Explorer)
    (me0 : Component) (τ : Nat) (told : Trajectory) (myFirst myLast : Strip)
    (link : Option Nat) (D : StepDetail K s i s2 me0 τ told myFirst myLast link) (m : Nat)
    (hm : m < i) : s2.mComponents[m]? = s.mComponents[m]? := by
  apply D.rest m (by omega)
  intro hl
  have := (D.target m hl).1
  omega

theorem stepDetail_tau_lt (K : ImplDecls) (s : Explorer) (i : Nat) (s2 : Explorer)
    (me0 : Component) (τ : Nat) (told : Trajectory) (myFirst myLast : Strip)
    (link : Option Nat) (D : StepDetail K s i s2 me0 τ told myFirst myLast link) :
    τ < s2.mTrajectories.length ∧ s.mTrajectories.length ≤ s2.mTrajectories.length := by
  constructor
  · rcases Nat.lt_or_ge τ s2.mTrajectories.length with h1 | h1
    · exact h1
    · have := D.tau
      rw [List.getElem?_eq_none h1] at this; cases this
  · rw [D.tlen]; split <;> omega

theorem foundLinks_step (K : ImplDecls) (n i : Nat) (s s2 : Explorer) (hn : n ≤ 32768)
    (hNT : K.NO_TRAJECTORY < 0) (hA : FoundLinks K n i s) (h : findStep K s i = some s2) :
    FoundLinks K n (i + 1) s2 := by
  obtain ⟨me0, τ, told, myFirst, myLast, link, D, -⟩ :=
    findStep_detail K s i s2 (by rw [hA.len]; exact hn) hA.tlen h
  have hlow := stepDetail_low K s i s2 me0 τ told myFirst myLast link D
  obtain ⟨hτ, hgrow⟩ := stepDetail_tau_lt K s i s2 me0 τ told myFirst myLast link D
  have hnew : ∀ (b : Nat) (cb : Component) (j : Nat) (cj : Component), b < i →
      s.mComponents[b]? = some cb → cb.next ≠ K.NO_COMPONENT →
      cb.next = (j : Int) → s.mComponents[j]? = some cj → cj.trajectory ≠ K.NO_TRAJECTORY := by
    intro b cb j cj hb hcb hne hnext hcj
    obtain ⟨j2, cj2, -, e1, e2, e3⟩ := hA.link b cb hb hcb hne
    have : j2 = j := by rw [e1] at hnext; exact_mod_cast hnext
    subst this
    rw [hcj] at e2
    simp only [Option.some.injEq] at e2
    subst e2
    have := (hA.valid b cb hb hcb).1
    omega
  have hci := D.ci
  refine ⟨?_, ?_, ?_, ?_, ?_⟩
  · rw [D.clen]; exact hA.len
  · rw [D.tlen]; have := hA.tlen; split <;> omega
  · intro m c hm hc
    rcases Nat.lt_or_ge m i with h1 | h1
    · rw [hlow m h1] at hc
      have := hA.valid m c h1 hc
      omega
    · have : m = i := by omega
      subst this
      rw [hci] at hc
      simp only [Option.some.injEq] at hc
      subst hc
      simp only
      omega
  · intro m c hm hc hne
    rcases Nat.lt_or_ge m i with h1 | h1
    · rw [hlow m h1] at hc
      obtain ⟨j, cj, hmj, e1, e2, e3⟩ := hA.link m c h1 hc hne
      have hv := (hA.valid m c h1 hc).1
      by_cases hji : j = i
      · subst hji
        rw [D.me] at e2
        simp only [Option.some.injEq] at e2
        subst e2
        have hold := (D.old (by omega)).1
        exact ⟨j, _, hmj, e1, hci, by simp only; omega⟩
      · by_cases hjl : link = some j
        · obtain ⟨-, -, cj2, f1, f2, -⟩ := D.target j hjl
          rw [e2] at f1
          simp only [Option.some.injEq] at f1
          subst f1
          omega
        · exact ⟨j, cj, hmj, e1, by rw [D.rest j hji hjl]; exact e2, e3⟩
    · have : m = i := by omega
      subst this
      rw [hci] at hc
      simp only [Option.some.injEq] at hc
      subst hc
      cases link with
      | none => exact absurd rfl hne
      | some j =>
        obtain ⟨g1, -, cj, -, -, g4⟩ := D.target j rfl
        exact ⟨j, _, g1, rfl, g4, rfl⟩
  · intro a b ca cb ha hb hca hcb hne heq
    rcases Nat.lt_or_ge a i with h1 | h1
    · rw [hlow a h1] at hca
      rcases Nat.lt_or_ge b i with h2 | h2
      · rw [hlow b h2] at hcb
        exact hA.uniq a b ca cb h1 h2 hca hcb hne heq
      · have : b = i := by omega
        subst this
        rw [hci] at hcb
        simp only [Option.some.injEq] at hcb
        subst hcb
        cases link with
        | none =>
          simp only at heq
          exact absurd heq hne
        | some j =>
          simp only at heq
          obtain ⟨-, -, cj, f1, f2, -⟩ := D.target j rfl
          exact absurd f2 (hnew a ca j cj h1 hca hne heq f1)
    · have : a = i := by omega
      subst this
      rcases Nat.lt_or_ge b a with h2 | h2
      · rw [hlow b h2] at hcb
        rw [hci] at hca
        simp only [Option.some.injEq] at hca
        subst hca
        cases link with
        | none => exact absurd rfl hne
        | some j =>
          simp only at heq hne
          obtain ⟨-, -, cj, f1, f2, -⟩ := D.target j rfl
          exact absurd f2 (hnew b cb j cj h2 hcb (by rw [← heq]; exact hne) heq.symm f1)
      · omega

theorem findLoop_induct (K : ImplDecls) (P : Nat → Explorer → Prop)
    (hstep : ∀ i s s2, P i s → findStep K s i = some s2 → P (i + 1) s2) (k : Nat) :
    ∀ (i : Nat) (s s2 : Explorer), P i s → findLoop K k i s = some s2 → P (i + k) s2 := by
  induction k with
  | zero =>
    intro i s s2 hP h
    simp only [findLoop, Option.some.injEq] at h
    subst h
    exact hP
  | succ k ih =>
    intro i s s2 hP h
    simp only [findLoop] at h
    split at h
    · cases h
    · rename_i s1 hs1
      have := ih (i + 1) s1 s2 (hstep i s s1 hP hs1) h
      have e : i + (k + 1) = i + 1 + k := by omega
      rw [e]; exact this

theorem foundLinks_prefix (K : ImplDecls) (s sPre : Explorer) (i : Nat)
    (hn : s.mComponents.length ≤ 32768) (hNT : K.NO_TRAJECTORY < 0)
    (h : findPrefix K s i = some sPre) : FoundLinks K s.mComponents.length i sPre := by
  have := findLoop_induct K (FoundLinks K s.mComponents.length)
    (fun i s1 s2 hP hs => foundLinks_step K _ i s1 s2 hn hNT hP hs) i 0
    { s with mTrajectories := [] } sPre
    ⟨rfl, by simp, fun m c hm => by omega, fun m c hm => by omega,
      fun a b ca cb ha => by omega⟩ h
  simpa using this

theorem chainIndices_length_le (K : ImplDecls) (comps : List Component) (fuel : Nat) :
    ∀ idx : Int, (chainIndices K comps fuel idx).length ≤ fuel := by
  induction fuel with
  | zero => intro idx; simp [chainIndices]
  | succ f ih =>
    intro idx
    simp only [chainIndices]
    split
    · simp
    · rename_i c hc
      split
      · simp
      · simp only [List.length_cons]
        have := ih c.next
        omega

theorem chainIndices_valid (K : ImplDecls) (comps : List Component) (fuel : Nat) :
    ∀ (idx x : Int), x ∈ chainIndices K comps fuel idx → ∃ cx, getAt comps x = some cx := by
  induction fuel with
  | zero => intro idx x hx; simp [chainIndices] at hx
  | succ f ih =>
    intro idx x hx
    simp only [chainIndices] at hx
    split at hx
    · simp at hx
    · rename_i c hc
      split at hx
      · simp only [List.mem_singleton] at hx
        subst hx; exact ⟨c, hc⟩
      · rcases List.mem_cons.mp hx with h1 | h1
        · subst h1; exact ⟨c, hc⟩
        · exact ih c.next x h1

/-- C25: after `findTrajectories` (with at most 32768 components and a negative
`NO_TRAJECTORY`), the link `next` of every component `i` is `NO_COMPONENT` or an index `j` with
`i < j < numComponents`, and two components with the same link are the same component; so for
every trajectory the chain walk of `analyzeTrajectories` ends within `numComponents`
iterations, visits at most `numComponents` components, every component index and the two strip
indices it reads are in range, and the body of the loop of `analyzeTrajectories` returns. -/
theorem findTrajectories_links_forward_and_unique (K : ImplDecls) (s sEnd : Explorer)
    (hn : s.mComponents.length ≤ 32768) (hNT : K.NO_TRAJECTORY < 0)
    (hfind : findTrajectories K s = some sEnd) :
    (∀ (i : Nat) (c : Component), sEnd.mComponents[i]? = some c →
      c.next = K.NO_COMPONENT ∨
        ∃ j : Nat, i < j ∧ j < sEnd.mComponents.length ∧ c.next = (j : Int)) ∧
    (∀ (a b : Nat) (ca cb : Component), sEnd.mComponents[a]? = some ca →
      sEnd.mComponents[b]? = some cb → ca.next ≠ K.NO_COMPONENT → ca.next = cb.next → a = b) ∧
    (∀ t ∈ sEnd.mTrajectories, ∃ fc cnt e ce fs ls,
      getAt sEnd.mComponents t.first = some fc ∧
      walkChain K sEnd.mComponents sEnd.mComponents.length 0 t.first fc = some (cnt, e, ce) ∧
      (chainIndices K sEnd.mComponents sEnd.mComponents.length t.first).length ≤
        sEnd.mComponents.length ∧
      (∀ x ∈ chainIndices K sEnd.mComponents sEnd.mComponents.length t.first,
        ∃ cx, getAt sEnd.mComponents x = some cx) ∧
      getAt sEnd.mStrips fc.first = some fs ∧ getAt sEnd.mStrips ce.last = some ls ∧
      ∃ t2, analyzeTrajectory K sEnd.mStrips sEnd.mComponents t = some t2) := by
  obtain ⟨-, hlen, hgood, -⟩ := findTrajectories_inv K s sEnd hn hfind
  have hA := foundLinks_prefix K s sEnd s.mComponents.length hn hNT hfind
  have hlt : ∀ (a : Nat) (ca : Component), sEnd.mComponents[a]? = some ca →
      a < s.mComponents.length := by
    intro a ca hca
    rcases Nat.lt_or_ge a sEnd.mComponents.length with h1 | h1
    · omega
    · rw [List.getElem?_eq_none h1] at hca; cases hca
  refine ⟨fun i c hc => (hgood i c hc).1, ?_, ?_⟩
  · intro a b ca cb hca hcb hne heq
    exact hA.uniq a b ca cb (hlt a ca hca) (hlt b cb hcb) hca hcb hne heq
  · intro t ht
    obtain ⟨fc, cnt0, e, ce, fs, ls, h1, h2, h3, h4, -, -, -, -⟩ :=
      walk_of_found K s sEnd hn hfind t ht
    exact ⟨fc, cnt0, e, ce, fs, ls, h1, h2, chainIndices_length_le K _ _ _,
      chainIndices_valid K _ _ _, h3, h4, _, analyzeTrajectory_eq K _ _ t fc ce _ _ fs ls h1 h2 h3 h4⟩

/-- C25 at the example scene: two trajectories, each with a chain walk that ends. -/
theorem findTrajectories_links_forward_and_unique_witness :
    demoScene.mComponents.length ≤ 32768 ∧ demoDecls.NO_TRAJECTORY < 0 ∧
    findTrajectories demoDecls demoScene = some demoSceneFound ∧
    (∀ (a b : Nat) (ca cb : Component), demoSceneFound.mComponents[a]? = some ca →
      demoSceneFound.mComponents[b]? = some cb → ca.next ≠ demoDecls.NO_COMPONENT →
      ca.next = cb.next → a = b) ∧
    (∀ t ∈ demoSceneFound.mTrajectories, ∃ fc cnt e ce fs ls,
      getAt demoSceneFound.mComponents t.first = some fc ∧
      walkChain demoDecls demoSceneFound.mComponents demoSceneFound.mComponents.length 0
        t.first fc = some (cnt, e, ce) ∧
      (chainIndices demoDecls demoSceneFound.mComponents demoSceneFound.mComponents.length
        t.first).length ≤ demoSceneFound.mComponents.length ∧
      (∀ x ∈ chainIndices demoDecls demoSceneFound.mComponents
          demoSceneFound.mComponents.length t.first,
        ∃ cx, getAt demoSceneFound.mComponents x = some cx) ∧
      getAt demoSceneFound.mStrips fc.first = some fs ∧
      getAt demoSceneFound.mStrips ce.last = some ls ∧
      ∃ t2, analyzeTrajectory demoDecls demoSceneFound.mStrips demoSceneFound.mComponents t =
        some t2) :=
  ⟨by decide, by decide, by decide,
    (findTrajectories_links_forward_and_unique demoDecls demoScene demoSceneFound (by decide)
      (by decide) (by decide)).2.1,
    (findTrajectories_links_forward_and_unique demoDecls demoScene demoSceneFound (by decide)
      (by decide) (by decide)).2.2⟩

/-! ## Theorems: the trajectories partition the components -/

theorem stepDetail_traj (K : ImplDecls) (s : Explorer) (i : Nat) (s2 : Explorer)
    (me0 : Component) (τ : Nat) (told : Trajectory) (myFirst myLast : Strip)
    (link : Option Nat) (D : StepDetail K s i s2 me0 τ told myFirst myLast link) (k : Nat)
    (t : Trajectory) (ht : s.mTrajectories[k]? = some t) :
    (k ≠ τ → s2.mTrajectories[k]? = some t) ∧
    (k = τ → t = told ∧ s2.mTrajectories[k]? =
      some { t with maxWidth := toInt16 (max t.maxWidth (myLast.x - myFirst.x)) }) := by
  have hk : k < s.mTrajectories.length := by
    rcases Nat.lt_or_ge k s.mTrajectories.length with h1 | h1
    · exact h1
    · rw [List.getElem?_eq_none h1] at ht; cases ht
  constructor
  · intro hne
    rw [D.others k hne]; exact ht
  · intro he
    subst he
    have hold : me0.trajectory ≠ K.NO_TRAJECTORY := by
      intro hf
      have := (D.fresh hf).1
      omega
    have h2 := (D.old hold).2
    rw [ht] at h2
    simp only [Option.some.injEq] at h2
    subst h2
    exact ⟨rfl, D.tau⟩

theorem foundRoots_step (K : ImplDecls) (n i : Nat) (s s2 : Explorer) (hn : n ≤ 32768)
    (hNT : K.NO_TRAJECTORY < 0) (hNC : K.NO_COMPONENT < 0) (hA : FoundLinks K n i s)
    (hB : FoundRoots K i s) (h : findStep K s i = some s2) : FoundRoots K (i + 1) s2 := by
  obtain ⟨me0, τ, told, myFirst, myLast, link, D, -⟩ :=
    findStep_detail K s i s2 (by rw [hA.len]; exact hn) hA.tlen h
  have hlow := stepDetail_low K s i s2 me0 τ told myFirst myLast link D
  have htraj := stepDetail_traj K s i s2 me0 τ told myFirst myLast link D
  have hci := D.ci
  have hilt : i < n := by
    rw [← hA.len]
    rcases Nat.lt_or_ge i s.mComponents.length with h1 | h1
    · exact h1
    · have := D.me
      rw [List.getElem?_eq_none h1] at this; cases this
  have h16 : toInt16 (i : Int) = (i : Int) := toInt16_of_range _ (by omega) (by omega)
  -- the link of component `i` after the step does not point at or before `i`
  have hnext : ∀ (ca : Component) (r : Nat), s2.mComponents[i]? = some ca → r ≤ i →
      ca.next ≠ (r : Int) := by
    intro ca r hca hr
    rw [hci] at hca
    simp only [Option.some.injEq] at hca
    subst hca
    cases link with
    | none => simp only; omega
    | some j =>
      have := (D.target j rfl).1
      simp only; omega
  -- a component without a trajectory is not linked to by an earlier component
  have hfreshUn : me0.trajectory = K.NO_TRAJECTORY →
      ∀ (a : Nat) (ca : Component), a < i → s.mComponents[a]? = some ca →
        ca.next ≠ (i : Int) := by
    intro hf a ca ha hca hnx
    obtain ⟨j, cj, -, e1, e2, e3⟩ := hA.link a ca ha hca (by omega)
    have : j = i := by rw [e1] at hnx; exact_mod_cast hnx
    subst this
    rw [D.me] at e2
    simp only [Option.some.injEq] at e2
    subst e2
    have := (hA.valid a ca ha hca).1
    omega
  -- a trajectory of the state before the step keeps its root
  have hkeep : ∀ (k : Nat) (t : Trajectory), s.mTrajectories[k]? = some t →
      ∃ (r : Nat) (c : Component), r < i + 1 ∧ t.first = (r : Int) ∧
        s2.mComponents[r]? = some c ∧ c.trajectory = (k : Int) ∧
        ∀ (a : Nat) (ca : Component), a < i + 1 → s2.mComponents[a]? = some ca →
          ca.next ≠ (r : Int) := by
    intro k t ht
    obtain ⟨r, c, hr, e1, e2, e3, e4⟩ := hB.rooted k t ht
    refine ⟨r, c, by omega, e1, by rw [hlow r hr]; exact e2, e3, ?_⟩
    intro a ca ha hca
    rcases Nat.lt_or_ge a i with h1 | h1
    · rw [hlow a h1] at hca
      exact e4 a ca h1 hca
    · have : a = i := by omega
      subst this
      exact hnext ca r hca (by omega)
  refine ⟨?_, ?_, ?_⟩
  · intro m c hm hc hne
    by_cases hl : link = some m
    · obtain ⟨ca, hca⟩ : ∃ ca, s2.mComponents[i]? = some ca := ⟨_, hci⟩
      refine ⟨i, ca, by omega, hca, ?_⟩
      rw [hci] at hca
      simp only [Option.some.injEq] at hca
      subst hca
      subst hl
      rfl
    · rw [D.rest m (by omega) hl] at hc
      obtain ⟨a, ca, ha, hca, hnx⟩ := hB.pending m c (by omega) hc hne
      exact ⟨a, ca, by omega, by rw [hlow a ha]; exact hca, hnx⟩
  · intro k t ht
    by_cases hk : k = τ
    · subst hk
      rw [D.tau] at ht
      simp only [Option.some.injEq] at ht
      subst ht
      simp only
      by_cases hf : me0.trajectory = K.NO_TRAJECTORY
      · obtain ⟨-, htold⟩ := D.fresh hf
        subst htold
        refine ⟨i, _, by omega, ?_, hci, rfl, ?_⟩
        · simp only [ImplDecls.newTrajectory]; exact h16
        · intro a ca ha hca
          rcases Nat.lt_or_ge a i with h1 | h1
          · rw [hlow a h1] at hca
            exact hfreshUn hf a ca h1 hca
          · have : a = i := by omega
            subst this
            exact hnext ca a hca (le_refl _)
      · exact hkeep k told (D.old hf).2
    · rw [D.others k hk] at ht
      exact hkeep k t ht
  · intro m c hm hc hun
    rcases Nat.lt_or_ge m i with h1 | h1
    · rw [hlow m h1] at hc
      obtain ⟨t, e1, e2⟩ := hB.rootOf m c h1 hc (by
        intro a ca ha hca
        exact hun a ca (by omega) (by rw [hlow a ha]; exact hca))
      obtain ⟨h0, e3⟩ := getAt_eq_some e1
      obtain ⟨g1, g2⟩ := htraj _ t e3
      by_cases hk : c.trajectory.toNat = τ
      · obtain ⟨-, g3⟩ := g2 hk
        refine ⟨{ t with maxWidth := toInt16 (max t.maxWidth (myLast.x - myFirst.x)) }, ?_, e2⟩
        unfold getAt
        rw [if_pos h0, g3]
      · refine ⟨t, ?_, e2⟩
        unfold getAt
        rw [if_pos h0, g1 hk]
    · have : m = i := by omega
      subst this
      have hf : me0.trajectory = K.NO_TRAJECTORY := by
        by_contra hne
        obtain ⟨a, ca, ha, hca, hnx⟩ := hB.pending m me0 (le_refl _) D.me hne
        exact hun a ca (by omega) (by rw [hlow a ha]; exact hca) hnx
      obtain ⟨-, htold⟩ := D.fresh hf
      subst htold
      rw [hci] at hc
      simp only [Option.some.injEq] at hc
      subst hc
      simp only
      refine ⟨_, (by rw [getAt_natCast]; exact D.tau), ?_⟩
      simp only [ImplDecls.newTrajectory]; exact h16

theorem foundRoots_prefix (K : ImplDecls) (s sPre : Explorer) (i : Nat)
    (hn : s.mComponents.length ≤ 32768) (hNT : K.NO_TRAJECTORY < 0)
    (hNC : K.NO_COMPONENT < 0)
    (hinit : ∀ c ∈ s.mComponents, c.trajectory = K.NO_TRAJECTORY)
    (h : findPrefix K s i = some sPre) : FoundRoots K i sPre := by
  have := findLoop_induct K
    (fun i s1 => FoundLinks K s.mComponents.length i s1 ∧ FoundRoots K i s1)
    (fun i s1 s2 hP hs => ⟨foundLinks_step K _ i s1 s2 hn hNT hP.1 hs,
      foundRoots_step K _ i s1 s2 hn hNT hNC hP.1 hP.2 hs⟩) i 0
    { s with mTrajectories := [] } sPre
    ⟨⟨rfl, by simp, fun m c hm => by omega, fun m c hm => by omega,
      fun a b ca cb ha => by omega⟩,
      ⟨fun m c _ hc hne => absurd (hinit c (List.getElem?_mem hc)) hne,
        fun τ t ht => by simp at ht, fun m c hm => by omega⟩⟩ h
  simpa using this.2

theorem chainIndices_same_id (K : ImplDecls) (n : Nat) (s : Explorer)
    (hA : FoundLinks K n n s) (fuel : Nat) :
    ∀ (idx : Nat) (c0 : Component), s.mComponents[idx]? = some c0 →
      ∀ x ∈ chainIndices K s.mComponents fuel (idx : Int),
        ∃ (m : Nat) (c : Component), x = (m : Int) ∧ idx ≤ m ∧ s.mComponents[m]? = some c ∧
          c.trajectory = c0.trajectory := by
  induction fuel with
  | zero => intro idx c0 _ x hx; simp [chainIndices] at hx
  | succ f ih =>
    intro idx c0 hc0 x hx
    have hlt : idx < n := by
      rw [← hA.len]
      rcases Nat.lt_or_ge idx s.mComponents.length with h1 | h1
      · exact h1
      · rw [List.getElem?_eq_none h1] at hc0; cases hc0
    simp only [chainIndices, getAt_natCast, hc0] at hx
    split at hx
    · simp only [List.mem_singleton] at hx
      exact ⟨idx, c0, hx, le_refl _, hc0, rfl⟩
    · rename_i hne
      rcases List.mem_cons.mp hx with h1 | h1
      · exact ⟨idx, c0, h1, le_refl _, hc0, rfl⟩
      · obtain ⟨j, cj, hj, e1, e2, e3⟩ := hA.link idx c0 hlt hc0 hne
        rw [e1] at h1
        obtain ⟨m, c, g1, g2, g3, g4⟩ := ih j cj e2 x h1
        exact ⟨m, c, g1, by omega, g3, by rw [g4, e3]⟩

theorem chainIndices_head (K : ImplDecls) (comps : List Component) (fuel idx : Nat)
    (c : Component) (hc : comps[idx]? = some c) (hf : 0 < fuel) :
    (idx : Int) ∈ chainIndices K comps fuel (idx : Int) := by
  obtain ⟨f, rfl⟩ : ∃ f, fuel = f + 1 := ⟨fuel - 1, by omega⟩
  simp only [chainIndices, getAt_natCast, hc]
  split <;> simp

theorem chainIndices_closed (K : ImplDecls) (n : Nat) (s : Explorer)
    (hA : FoundLinks K n n s) (fuel : Nat) :
    ∀ (idx : Nat), n - idx ≤ fuel → ∀ (a : Nat) (ca : Component),
      (a : Int) ∈ chainIndices K s.mComponents fuel (idx : Int) →
      s.mComponents[a]? = some ca → ca.next ≠ K.NO_COMPONENT →
      ca.next ∈ chainIndices K s.mComponents fuel (idx : Int) := by
  induction fuel with
  | zero => intro idx _ a ca ha; simp [chainIndices] at ha
  | succ f ih =>
    intro idx hfuel a ca ha hca hne
    have halt : a < n := by
      rw [← hA.len]
      rcases Nat.lt_or_ge a s.mComponents.length with h1 | h1
      · exact h1
      · rw [List.getElem?_eq_none h1] at hca; cases hca
    simp only [chainIndices, getAt_natCast] at ha ⊢
    cases hc : s.mComponents[idx]? with
    | none => rw [hc] at ha; simp at ha
    | some c =>
      rw [hc] at ha
      simp only at ha ⊢
      have hidx : idx < n := by
        rw [← hA.len]
        rcases Nat.lt_or_ge idx s.mComponents.length with h1 | h1
        · exact h1
        · rw [List.getElem?_eq_none h1] at hc; cases hc
      by_cases hcn : c.next = K.NO_COMPONENT
      · rw [if_pos hcn] at ha
        simp only [List.mem_singleton] at ha
        have : a = idx := by exact_mod_cast ha
        subst this
        rw [hc] at hca
        simp only [Option.some.injEq] at hca
        subst hca
        exact absurd hcn hne
      · rw [if_neg hcn] at ha ⊢
        obtain ⟨j, cj, hj, e1, e2, e3⟩ := hA.link idx c hidx hc hcn
        have hjn : j < n := by
          rw [← hA.len]
          rcases Nat.lt_or_ge j s.mComponents.length with h1 | h1
          · exact h1
          · rw [List.getElem?_eq_none h1] at e2; cases e2
        rcases List.mem_cons.mp ha with h1 | h1
        · have : a = idx := by exact_mod_cast h1
          subst this
          rw [hc] at hca
          simp only [Option.some.injEq] at hca
          subst hca
          apply List.mem_cons_of_mem
          rw [e1]
          exact chainIndices_head K _ f j cj e2 (by omega)
        · apply List.mem_cons_of_mem
          rw [e1] at h1 ⊢
          exact ih j (by omega) a ca h1 hca hne

theorem getElem?_lt_length {α : Type} {l : List α} {k : Nat} {a : α} (h : l[k]? = some a) :
    k < l.length := by
  rcases Nat.lt_or_ge k l.length with h1 | h1
  · exact h1
  · rw [List.getElem?_eq_none h1] at h; cases h

theorem chainIndices_iff_id (K : ImplDecls) (n : Nat) (s : Explorer)
    (hNC : K.NO_COMPONENT < 0) (hA : FoundLinks K n n s) (hB : FoundRoots K n s)
    (τ : Nat) (t : Trajectory) (ht : s.mTrajectories[τ]? = some t) (x : Int) :
    x ∈ chainIndices K s.mComponents s.mComponents.length t.first ↔
      ∃ (m : Nat) (c : Component), x = (m : Int) ∧ s.mComponents[m]? = some c ∧
        c.trajectory = (τ : Int) := by
  obtain ⟨r, cr, hr, e1, e2, e3, e4⟩ := hB.rooted τ t ht
  rw [e1, hA.len]
  constructor
  · intro hx
    obtain ⟨m, c, g1, -, g3, g4⟩ := chainIndices_same_id K n s hA n r cr e2 x hx
    exact ⟨m, c, g1, g3, by rw [g4, e3]⟩
  · rintro ⟨m, c, rfl, hc, hid⟩
    induction m using Nat.strong_induction_on generalizing c with
    | _ m ih =>
      have hm : m < n := by rw [← hA.len]; exact getElem?_lt_length hc
      by_cases hun : ∀ (a : Nat) (ca : Component), a < n → s.mComponents[a]? = some ca →
          ca.next ≠ (m : Int)
      · obtain ⟨t2, f1, f2⟩ := hB.rootOf m c hm hc hun
        rw [hid, getAt_natCast, ht] at f1
        simp only [Option.some.injEq] at f1
        subst f1
        have : r = m := by rw [e1] at f2; exact_mod_cast f2
        subst this
        exact chainIndices_head K _ n r c hc (by omega)
      · push_neg at hun
        obtain ⟨a, ca, ha, hca, hnx⟩ := hun
        have hne : ca.next ≠ K.NO_COMPONENT := by omega
        obtain ⟨j, cj, hj, g1, g2, g3⟩ := hA.link a ca ha hca hne
        have : j = m := by rw [g1] at hnx; exact_mod_cast hnx
        subst this
        rw [hc] at g2
        simp only [Option.some.injEq] at g2
        subst g2
        have hain := ih a hj ca hca (by rw [← g3, hid])
        have := chainIndices_closed K n s hA n r (by omega) a ca hain hca hne
        rw [hnx] at this
        exact this

/-- C21: starting from components that all carry `NO_TRAJECTORY` (at most 32768 of them, both
sentinels negative), after `findTrajectories` every component carries a trajectory index that
is valid in `mTrajectories`; a component is the `first` of a trajectory exactly if no earlier
component links to it, and the `first` of trajectory `τ` carries the index `τ`, so that
different trajectories have different `first` components; the chain from the `first` of
trajectory `τ` through `next` consists of exactly the components that carry the index `τ`; and
every component is in the chain of exactly one trajectory. -/
theorem findTrajectories_chains_partition (K : ImplDecls) (s sEnd : Explorer)
    (hn : s.mComponents.length ≤ 32768) (hNT : K.NO_TRAJECTORY < 0)
    (hNC : K.NO_COMPONENT < 0)
    (hinit : ∀ c ∈ s.mComponents, c.trajectory = K.NO_TRAJECTORY)
    (hfind : findTrajectories K s = some sEnd) :
    (∀ (m : Nat) (c : Component), sEnd.mComponents[m]? = some c →
      0 ≤ c.trajectory ∧ c.trajectory < (sEnd.mTrajectories.length : Int)) ∧
    (∀ (m : Nat) (c : Component), sEnd.mComponents[m]? = some c →
      ((∃ (τ : Nat) (t : Trajectory), sEnd.mTrajectories[τ]? = some t ∧ t.first = (m : Int)) ↔
        ¬ ∃ (a : Nat) (ca : Component), a < m ∧ sEnd.mComponents[a]? = some ca ∧
          ca.next = (m : Int))) ∧
    (∀ (τ : Nat) (t : Trajectory), sEnd.mTrajectories[τ]? = some t →
      ∃ (r : Nat) (c : Component), t.first = (r : Int) ∧ sEnd.mComponents[r]? = some c ∧
        c.trajectory = (τ : Int)) ∧
    (∀ (τ1 τ2 : Nat) (t1 t2 : Trajectory), sEnd.mTrajectories[τ1]? = some t1 →
      sEnd.mTrajectories[τ2]? = some t2 → t1.first = t2.first → τ1 = τ2) ∧
    (∀ (τ : Nat) (t : Trajectory), sEnd.mTrajectories[τ]? = some t → ∀ x : Int,
      (x ∈ chainIndices K sEnd.mComponents sEnd.mComponents.length t.first ↔
        ∃ (m : Nat) (c : Component), x = (m : Int) ∧ sEnd.mComponents[m]? = some c ∧
          c.trajectory = (τ : Int))) ∧
    (∀ (m : Nat) (c : Component), sEnd.mComponents[m]? = some c →
      ∃ (τ : Nat) (t : Trajectory), sEnd.mTrajectories[τ]? = some t ∧
        (m : Int) ∈ chainIndices K sEnd.mComponents sEnd.mComponents.length t.first ∧
        ∀ (τ2 : Nat) (t2 : Trajectory), sEnd.mTrajectories[τ2]? = some t2 →
          (m : Int) ∈ chainIndices K sEnd.mComponents sEnd.mComponents.length t2.first →
          τ2 = τ) := by
  have hA := foundLinks_prefix K s sEnd s.mComponents.length hn hNT hfind
  have hB := foundRoots_prefix K s sEnd s.mComponents.length hn hNT hNC hinit hfind
  have hlt : ∀ (a : Nat) (ca : Component), sEnd.mComponents[a]? = some ca →
      a < s.mComponents.length := by
    intro a ca hca
    rw [← hA.len]; exact getElem?_lt_length hca
  have hiff := chainIndices_iff_id K _ sEnd hNC hA hB
  have hroot : ∀ (τ : Nat) (t : Trajectory), sEnd.mTrajectories[τ]? = some t →
      ∃ (r : Nat) (c : Component), t.first = (r : Int) ∧ sEnd.mComponents[r]? = some c ∧
        c.trajectory = (τ : Int) := by
    intro τ t ht
    obtain ⟨r, c, -, e1, e2, e3, -⟩ := hB.rooted τ t ht
    exact ⟨r, c, e1, e2, e3⟩
  refine ⟨fun m c hc => hA.valid m c (hlt m c hc) hc, ?_, hroot, ?_, hiff, ?_⟩
  · intro m c hc
    constructor
    · rintro ⟨τ, t, ht, hfirst⟩ ⟨a, ca, ha, hca, hnx⟩
      obtain ⟨r, cr, -, e1, -, -, e4⟩ := hB.rooted τ t ht
      have : r = m := by rw [e1] at hfirst; exact_mod_cast hfirst
      subst this
      exact e4 a ca (hlt a ca hca) hca hnx
    · intro hno
      obtain ⟨t, f1, f2⟩ := hB.rootOf m c (hlt m c hc) hc (by
        intro a ca ha hca hnx
        obtain ⟨j, cj, hj, g1, -, -⟩ := hA.link a ca ha hca (by omega)
        have : j = m := by rw [g1] at hnx; exact_mod_cast hnx
        subst this
        exact hno ⟨a, ca, hj, hca, hnx⟩)
      obtain ⟨-, f3⟩ := getAt_eq_some f1
      exact ⟨_, t, f3, f2⟩
  · intro τ1 τ2 t1 t2 h1 h2 he
    obtain ⟨r1, c1, e1, e2, e3⟩ := hroot τ1 t1 h1
    obtain ⟨r2, c2, g1, g2, g3⟩ := hroot τ2 t2 h2
    have : r1 = r2 := by rw [e1, g1] at he; exact_mod_cast he
    subst this
    rw [e2] at g2
    simp only [Option.some.injEq] at g2
    subst g2
    rw [e3] at g3
    exact_mod_cast g3
  · intro m c hc
    obtain ⟨h0, h1⟩ := hA.valid m c (hlt m c hc) hc
    have hτ : c.trajectory = ((c.trajectory.toNat : Nat) : Int) := (Int.toNat_of_nonneg h0).symm
    have hlt2 : c.trajectory.toNat < sEnd.mTrajectories.length := by omega
    refine ⟨c.trajectory.toNat, sEnd.mTrajectories[c.trajectory.toNat], ?_, ?_, ?_⟩
    · exact List.getElem?_eq_getElem hlt2
    · exact (hiff _ _ (List.getElem?_eq_getElem hlt2) _).2 ⟨m, c, rfl, hc, hτ⟩
    · intro τ2 t2 ht2 hmem
      obtain ⟨m2, c2, e1, e2, e3⟩ := (hiff τ2 t2 ht2 _).1 hmem
      have : m2 = m := by exact_mod_cast e1.symm
      subst this
      rw [hc] at e2
      simp only [Option.some.injEq] at e2
      subst e2
      rw [hτ] at e3
      exact_mod_cast e3.symm

/-- C21 at the example scene: the chain of trajectory 0 is the components 0 and 1, and the
chain of each trajectory consists of the components that carry its index. -/
theorem findTrajectories_chains_partition_witness :
    demoScene.mComponents.length ≤ 32768 ∧ demoDecls.NO_TRAJECTORY < 0 ∧
    demoDecls.NO_COMPONENT < 0 ∧
    (∀ c ∈ demoScene.mComponents, c.trajectory = demoDecls.NO_TRAJECTORY) ∧
    findTrajectories demoDecls demoScene = some demoSceneFound ∧
    chainIndices demoDecls demoSceneFound.mComponents demoSceneFound.mComponents.length 0 =
      [0, 1] ∧
    (∀ (m : Nat) (c : Component), demoSceneFound.mComponents[m]? = some c →
      0 ≤ c.trajectory ∧ c.trajectory < (demoSceneFound.mTrajectories.length : Int)) ∧
    (∀ (τ : Nat) (t : Trajectory), demoSceneFound.mTrajectories[τ]? = some t → ∀ x : Int,
      (x ∈ chainIndices demoDecls demoSceneFound.mComponents
          demoSceneFound.mComponents.length t.first ↔
        ∃ (m : Nat) (c : Component), x = (m : Int) ∧
          demoSceneFound.mComponents[m]? = some c ∧ c.trajectory = (τ : Int))) :=
  ⟨by decide, by decide, by decide, by decide, by decide, by decide,
    (findTrajectories_chains_partition demoDecls demoScene demoSceneFound (by decide)
      (by decide) (by decide) (by decide) (by decide)).1,
    (findTrajectories_chains_partition demoDecls demoScene demoSceneFound (by decide)
      (by decide) (by decide) (by decide) (by decide)).2.2.2.2.1⟩

/-! ## Theorems: the width limit of a trajectory -/

theorem toInt16_of_int16 (v : Int) (h0 : -32768 ≤ v) (h1 : v < 32768) : toInt16 v = v := by
  unfold toInt16
  omega

theorem getAt_mem {α : Type} {v : List α} {i : Int} {a : α} (h : getAt v i = some a) :
    a ∈ v :=
  List.getElem?_mem (getAt_eq_some h).2

theorem stepDetail_nowrap (K : ImplDecls) (s : Explorer) (i : Nat) (s2 : Explorer)
    (me0 : Component) (τ : Nat) (told : Trajectory) (myFirst myLast : Strip)
    (link : Option Nat) (D : StepDetail K s i s2 me0 τ told myFirst myLast link)
    (hinit : -32768 ≤ K.initMaxWidth ∧ K.initMaxWidth < 32768) (hW : FoundWidths i s) :
    toInt16 (max told.maxWidth (myLast.x - myFirst.x)) =
      max told.maxWidth (myLast.x - myFirst.x) ∧
    -32768 ≤ max told.maxWidth (myLast.x - myFirst.x) ∧
    max told.maxWidth (myLast.x - myFirst.x) < 32768 := by
  have h1 := hW.xs _ (getAt_mem D.first)
  have h2 := hW.xs _ (getAt_mem D.last)
  have h3 : -32768 ≤ told.maxWidth ∧ told.maxWidth < 32768 := by
    by_cases hf : me0.trajectory = K.NO_TRAJECTORY
    · rw [(D.fresh hf).2]; exact hinit
    · exact hW.range _ (List.getElem?_mem (D.old hf).2)
  have h4 : -32768 ≤ max told.maxWidth (myLast.x - myFirst.x) ∧
      max told.maxWidth (myLast.x - myFirst.x) < 32768 := by
    constructor
    · exact le_trans h3.1 (le_max_left _ _)
    · exact max_lt h3.2 (by omega)
  exact ⟨toInt16_of_int16 _ h4.1 h4.2, h4⟩

theorem stepDetail_mono (K : ImplDecls) (s : Explorer) (i : Nat) (s2 : Explorer)
    (me0 : Component) (τ : Nat) (told : Trajectory) (myFirst myLast : Strip)
    (link : Option Nat) (D : StepDetail K s i s2 me0 τ told myFirst myLast link)
    (hinit : -32768 ≤ K.initMaxWidth ∧ K.initMaxWidth < 32768) (hW : FoundWidths i s)
    (k : Nat) (t : Trajectory) (ht : s.mTrajectories[k]? = some t) :
    ∃ t2, s2.mTrajectories[k]? = some t2 ∧ t.maxWidth ≤ t2.maxWidth := by
  obtain ⟨g1, g2⟩ := stepDetail_traj K s i s2 me0 τ told myFirst myLast link D k t ht
  by_cases hk : k = τ
  · obtain ⟨e1, e2⟩ := g2 hk
    subst e1
    refine ⟨_, e2, ?_⟩
    simp only
    rw [(stepDetail_nowrap K s i s2 me0 τ t myFirst myLast link D hinit hW).1]
    exact le_max_left _ _
  · exact ⟨t, g1 hk, le_refl _⟩

theorem foundWidths_step (K : ImplDecls) (n i : Nat) (s s2 : Explorer) (hn : n ≤ 32768)
    (hinit : -32768 ≤ K.initMaxWidth ∧ K.initMaxWidth < 32768) (hA : FoundLinks K n i s)
    (hW : FoundWidths i s) (h : findStep K s i = some s2) : FoundWidths (i + 1) s2 := by
  obtain ⟨me0, τ, told, myFirst, myLast, link, D, -⟩ :=
    findStep_detail K s i s2 (by rw [hA.len]; exact hn) hA.tlen h
  have hlow := stepDetail_low K s i s2 me0 τ told myFirst myLast link D
  obtain ⟨hw1, hw2, hw3⟩ := stepDetail_nowrap K s i s2 me0 τ told myFirst myLast link D hinit hW
  have hmono := stepDetail_mono K s i s2 me0 τ told myFirst myLast link D hinit hW
  refine ⟨?_, ?_, ?_⟩
  · rw [D.strips]; exact hW.xs
  · intro t ht
    obtain ⟨k, hk⟩ := List.getElem?_of_mem ht
    by_cases hkτ : k = τ
    · subst hkτ
      rw [D.tau] at hk
      simp only [Option.some.injEq] at hk
      subst hk
      simp only
      rw [hw1]
      exact ⟨hw2, hw3⟩
    · rw [D.others k hkτ] at hk
      exact hW.range t (List.getElem?_mem hk)
  · intro m c f l hm hc hf hl
    rw [D.strips] at hf hl
    rcases Nat.lt_or_ge m i with h1 | h1
    · rw [hlow m h1] at hc
      obtain ⟨t, e1, e2⟩ := hW.width m c f l h1 hc hf hl
      obtain ⟨h0, e3⟩ := getAt_eq_some e1
      obtain ⟨t2, g1, g2⟩ := hmono _ t e3
      refine ⟨t2, ?_, by omega⟩
      unfold getAt
      rw [if_pos h0, g1]
    · have : m = i := by omega
      subst this
      rw [D.ci] at hc
      simp only [Option.some.injEq] at hc
      subst hc
      simp only at hf hl ⊢
      rw [D.first] at hf
      rw [D.last] at hl
      simp only [Option.some.injEq] at hf hl
      subst hf hl
      refine ⟨_, (by rw [getAt_natCast]; exact D.tau), ?_⟩
      simp only
      rw [hw1]
      exact le_max_right _ _

theorem findLoop_widths (K : ImplDecls) (n : Nat) (hn : n ≤ 32768) (hNT : K.NO_TRAJECTORY < 0)
    (hinit : -32768 ≤ K.initMaxWidth ∧ K.initMaxWidth < 32768) (k i : Nat) (s s2 : Explorer)
    (hA : FoundLinks K n i s) (hW : FoundWidths i s) (h : findLoop K k i s = some s2) :
    FoundLinks K n (i + k) s2 ∧ FoundWidths (i + k) s2 ∧
    ∀ (idx : Nat) (t : Trajectory), s.mTrajectories[idx]? = some t →
      ∃ t2, s2.mTrajectories[idx]? = some t2 ∧ t.maxWidth ≤ t2.maxWidth := by
  refine findLoop_induct K
    (fun j s1 => FoundLinks K n j s1 ∧ FoundWidths j s1 ∧
      ∀ (idx : Nat) (t : Trajectory), s.mTrajectories[idx]? = some t →
        ∃ t2, s1.mTrajectories[idx]? = some t2 ∧ t.maxWidth ≤ t2.maxWidth)
    ?_ k i s s2 ⟨hA, hW, fun idx t ht => ⟨t, ht, le_refl _⟩⟩ h
  intro j s1 s3 hP hs
  obtain ⟨hA1, hW1, hm1⟩ := hP
  refine ⟨foundLinks_step K n j s1 s3 hn hNT hA1 hs,
    foundWidths_step K n j s1 s3 hn hinit hA1 hW1 hs, ?_⟩
  intro idx t ht
  obtain ⟨t1, e1, e2⟩ := hm1 idx t ht
  obtain ⟨me0, τ, told, myFirst, myLast, link, D, -⟩ :=
    findStep_detail K s1 j s3 (by rw [hA1.len]; exact hn) hA1.tlen hs
  obtain ⟨t2, g1, g2⟩ :=
    stepDetail_mono K s1 j s3 me0 τ told myFirst myLast link D hinit hW1 idx t1 e1
  exact ⟨t2, g1, le_trans e2 g2⟩

/-- C22: when `findTrajectories` processes component `i` (at most 32768 components,
`NO_TRAJECTORY` negative, strip x coordinates in `[0, 32768)`, initial `maxWidth` of a
trajectory in the `int16_t` range), the `maxWidth` of its trajectory becomes the maximum of the
previous value (`told.maxWidth`, of the trajectory it had or of the one just opened) and the x
distance from the first to the last strip of component `i`; this is the limit the forward scan
of `i` compares with. The `maxWidth` of every trajectory present before the iteration is not
smaller after it, nor at the end. During the scan the limit is at least the width of every
component up to `i` that carries the trajectory of `i`, in particular of every component whose
chain through `next` leads to `i`. -/
theorem findTrajectories_maxWidth_running_max (K : ImplDecls) (s sEnd : Explorer)
    (hn : s.mComponents.length ≤ 32768) (hNT : K.NO_TRAJECTORY < 0)
    (hx : ∀ st ∈ s.mStrips, 0 ≤ st.x ∧ st.x < 32768)
    (hinit : -32768 ≤ K.initMaxWidth ∧ K.initMaxWidth < 32768)
    (hfind : findTrajectories K s = some sEnd) (i : Nat) (hi : i < s.mComponents.length) :
    ∃ sPre s1 sMid me0 me told myFirst myLast,
      findPrefix K s i = some sPre ∧ findStep K sPre i = some sMid ∧
      sPre.mComponents[i]? = some me0 ∧
      (me0.trajectory = K.NO_TRAJECTORY → told = K.newTrajectory i) ∧
      (me0.trajectory ≠ K.NO_TRAJECTORY →
        getAt sPre.mTrajectories me0.trajectory = some told) ∧
      getAt sPre.mStrips me0.first = some myFirst ∧
      getAt sPre.mStrips me0.last = some myLast ∧
      openTrajectory K sPre i =
        some (s1, me, myLast, max told.maxWidth (myLast.x - myFirst.x)) ∧
      getAt s1.mTrajectories me.trajectory =
        some { told with maxWidth := max told.maxWidth (myLast.x - myFirst.x) } ∧
      getAt sMid.mTrajectories me.trajectory =
        some { told with maxWidth := max told.maxWidth (myLast.x - myFirst.x) } ∧
      (∀ (k : Nat) (t : Trajectory), sPre.mTrajectories[k]? = some t →
        ∃ t2, sMid.mTrajectories[k]? = some t2 ∧ t.maxWidth ≤ t2.maxWidth) ∧
      (∀ (k : Nat) (t : Trajectory), sMid.mTrajectories[k]? = some t →
        ∃ t2, sEnd.mTrajectories[k]? = some t2 ∧ t.maxWidth ≤ t2.maxWidth) ∧
      (∀ (a : Nat) (ca : Component) (f l : Strip), a ≤ i → s1.mComponents[a]? = some ca →
        ca.trajectory = me.trajectory → getAt s1.mStrips ca.first = some f →
        getAt s1.mStrips ca.last = some l →
        l.x - f.x ≤ max told.maxWidth (myLast.x - myFirst.x)) ∧
      (∀ (a : Nat) (ca : Component) (f l : Strip), sEnd.mComponents[a]? = some ca →
        (i : Int) ∈ chainIndices K sEnd.mComponents sEnd.mComponents.length (a : Int) →
        getAt sEnd.mStrips ca.first = some f → getAt sEnd.mStrips ca.last = some l →
        l.x - f.x ≤ max told.maxWidth (myLast.x - myFirst.x)) := by
  obtain ⟨sPre, sMid, hpre, hstep, hrest⟩ := findTrajectories_at K s sEnd hfind i hi
  -- the invariants before the iteration, after it and at the end
  have hW0 : FoundWidths 0 { s with mTrajectories := [] } :=
    ⟨hx, fun t ht => by simp at ht, fun m c f l hm => by omega⟩
  have hA0 : FoundLinks K s.mComponents.length 0 { s with mTrajectories := [] } :=
    ⟨rfl, by simp, fun m c hm => by omega, fun m c hm => by omega,
      fun a b ca cb ha => by omega⟩
  obtain ⟨hA, hW, -⟩ := findLoop_widths K _ hn hNT hinit i 0 _ sPre hA0 hW0 hpre
  rw [Nat.zero_add] at hA hW
  obtain ⟨hA1, hW1, hmono1⟩ := findLoop_widths K _ hn hNT hinit 1 i sPre sMid hA hW (by
    simp only [findLoop, hstep])
  obtain ⟨hA2, -, hmono2⟩ := findLoop_widths K _ hn hNT hinit _ (i + 1) sMid sEnd hA1 hW1 hrest
  have hfin : i + 1 + (s.mComponents.length - (i + 1)) = s.mComponents.length := by omega
  rw [hfin] at hA2
  obtain ⟨-, -, hsame, -⟩ := findLoop_inv K _ (i + 1) sMid sEnd (by rw [hA1.len]; exact hn) hrest
  obtain ⟨hstrips, -⟩ := findLoop_inv K _ (i + 1) sMid sEnd (by rw [hA1.len]; exact hn) hrest
  -- the iteration in detail
  obtain ⟨me0, τ, told, myFirst, myLast, link, D, s1, me, hopen, D1, hme⟩ :=
    findStep_detail K sPre i sMid (by rw [hA.len]; exact hn) hA.tlen hstep
  obtain ⟨hw1, -, -⟩ := stepDetail_nowrap K sPre i sMid me0 τ told myFirst myLast link D hinit hW
  rw [hw1] at hopen
  have hmeτ : me.trajectory = (τ : Int) := by rw [hme]
  have hbound : ∀ (a : Nat) (ca : Component) (f l : Strip), a ≤ i →
      s1.mComponents[a]? = some ca → ca.trajectory = me.trajectory →
      getAt s1.mStrips ca.first = some f → getAt s1.mStrips ca.last = some l →
      l.x - f.x ≤ max told.maxWidth (myLast.x - myFirst.x) := by
    intro a ca f l ha hca hid hf hl
    rw [D1.strips] at hf hl
    rcases Nat.lt_or_ge a i with h1 | h1
    · rw [stepDetail_low K sPre i s1 me0 τ told myFirst myLast none D1 a h1] at hca
      obtain ⟨t, e1, e2⟩ := hW.width a ca f l h1 hca hf hl
      rw [hid, hmeτ, getAt_natCast] at e1
      obtain ⟨-, g2⟩ := stepDetail_traj K sPre i s1 me0 τ told myFirst myLast none D1 τ t e1
      obtain ⟨g3, -⟩ := g2 rfl
      subst g3
      exact le_trans e2 (le_max_left _ _)
    · have : a = i := by omega
      subst this
      rw [D1.ci] at hca
      simp only [Option.some.injEq] at hca
      subst hca
      simp only at hf hl
      rw [D1.first] at hf
      rw [D1.last] at hl
      simp only [Option.some.injEq] at hf hl
      subst hf hl
      exact le_max_right _ _
  refine ⟨sPre, s1, sMid, me0, me, told, myFirst, myLast, hpre, hstep, D.me,
    fun hf => (D.fresh hf).2, ?_, D.first, D.last, hopen, ?_, ?_, ?_, hmono2, hbound, ?_⟩
  · intro hf
    obtain ⟨e1, e2⟩ := D.old hf
    rw [e1, getAt_natCast]; exact e2
  · rw [hmeτ, getAt_natCast, D1.tau, hw1]
  · rw [hmeτ, getAt_natCast, D.tau, hw1]
  · intro k t ht
    obtain ⟨t2, e1, e2⟩ := hmono1 k t ht
    exact ⟨t2, e1, e2⟩
  · intro a ca f l hca hchain hf hl
    rw [hA2.len] at hchain
    obtain ⟨m, c, e1, e2, e3, e4⟩ :=
      chainIndices_same_id K _ sEnd hA2 _ a ca hca (i : Int) hchain
    have : m = i := by exact_mod_cast e1.symm
    subst this
    rw [hsame m (by omega)] at e3
    rw [D.ci] at e3
    simp only [Option.some.injEq] at e3
    subst e3
    simp only at e4
    rw [hstrips, D.strips, ← D1.strips] at hf hl
    rw [hsame a (by omega)] at hca
    rcases Nat.lt_or_ge a m with h1 | h1
    · rw [stepDetail_low K sPre m sMid me0 τ told myFirst myLast link D a h1,
        ← stepDetail_low K sPre m s1 me0 τ told myFirst myLast none D1 a h1] at hca
      exact hbound a ca f l e2 hca (by rw [hmeτ, e4]) hf hl
    · have : a = m := by omega
      subst this
      rw [D.ci] at hca
      simp only [Option.some.injEq] at hca
      subst hca
      simp only at hf hl
      rw [D1.strips, D1.first] at hf
      rw [D1.strips, D1.last] at hl
      simp only [Option.some.injEq] at hf hl
      subst hf hl
      exact le_max_right _ _

/-- C22 at the example scene, for component 1: its width is 5, the trajectory it joined had
`maxWidth` 3 from component 0, and its scan compares with 5. -/
theorem findTrajectories_maxWidth_running_max_witness :
    demoScene.mComponents.length ≤ 32768 ∧ demoDecls.NO_TRAJECTORY < 0 ∧
    (∀ st ∈ demoScene.mStrips, 0 ≤ st.x ∧ st.x < 32768) ∧
    (-32768 ≤ demoDecls.initMaxWidth ∧ demoDecls.initMaxWidth < 32768) ∧
    findTrajectories demoDecls demoScene = some demoSceneFound ∧
    1 < demoScene.mComponents.length ∧
    ((findPrefix demoDecls demoScene 1).bind fun sPre =>
      (openTrajectory demoDecls sPre 1).map fun r => r.2.2.2) = some 5 ∧
    ∃ sPre s1 sMid me0 me told myFirst myLast,
      findPrefix demoDecls demoScene 1 = some sPre ∧ findStep demoDecls sPre 1 = some sMid ∧
      sPre.mComponents[1]? = some me0 ∧
      (me0.trajectory = demoDecls.NO_TRAJECTORY → told = demoDecls.newTrajectory (1 : Nat)) ∧
      (me0.trajectory ≠ demoDecls.NO_TRAJECTORY →
        getAt sPre.mTrajectories me0.trajectory = some told) ∧
      getAt sPre.mStrips me0.first = some myFirst ∧
      getAt sPre.mStrips me0.last = some myLast ∧
      openTrajectory demoDecls sPre 1 =
        some (s1, me, myLast, max told.maxWidth (myLast.x - myFirst.x)) ∧
      getAt s1.mTrajectories me.trajectory =
        some { told with maxWidth := max told.maxWidth (myLast.x - myFirst.x) } ∧
      getAt sMid.mTrajectories me.trajectory =
        some { told with maxWidth := max told.maxWidth (myLast.x - myFirst.x) } ∧
      (∀ (k : Nat) (t : Trajectory), sPre.mTrajectories[k]? = some t →
        ∃ t2, sMid.mTrajectories[k]? = some t2 ∧ t.maxWidth ≤ t2.maxWidth) ∧
      (∀ (k : Nat) (t : Trajectory), sMid.mTrajectories[k]? = some t →
        ∃ t2, demoSceneFound.mTrajectories[k]? = some t2 ∧ t.maxWidth ≤ t2.maxWidth) ∧
      (∀ (a : Nat) (ca : Component) (f l : Strip), a ≤ 1 → s1.mComponents[a]? = some ca →
        ca.trajectory = me.trajectory → getAt s1.mStrips ca.first = some f →
        getAt s1.mStrips ca.last = some l →
        l.x - f.x ≤ max told.maxWidth (myLast.x - myFirst.x)) ∧
      (∀ (a : Nat) (ca : Component) (f l : Strip),
        demoSceneFound.mComponents[a]? = some ca →
        ((1 : Nat) : Int) ∈ chainIndices demoDecls demoSceneFound.mComponents
          demoSceneFound.mComponents.length (a : Int) →
        getAt demoSceneFound.mStrips ca.first = some f →
        getAt demoSceneFound.mStrips ca.last = some l →
        l.x - f.x ≤ max told.maxWidth (myLast.x - myFirst.x)) :=
  ⟨by decide, by decide, by decide, by decide, by decide, by decide, by decide,
    findTrajectories_maxWidth_running_max demoDecls demoScene demoSceneFound (by decide)
      (by decide) (by decide) (by decide) (by decide) 1 (by decide)⟩

/-! ## Theorems: the strip generator, two runs closer than `minGap` -/

end Fmo
